import Mathlib

/-!
# jdupes: duplicate discovery engine

A shallow embedding of the duplicate discovery engine of `jdupes.c`.

Conventions of the embedding.

* A `file_t` record is a Lean structure holding the scalar fields of the C
  struct.  The five bits of `file->flags` that the engine uses are Boolean
  fields (`SETFLAG`, `CLEARFLAG` and `ISFLAG` set, clear and test one bit).
* Pointers that own their target are embedded as values: the children of a
  `filetree_t` node, and the `duplicates` successor of a record (a duplicate
  chain is the list of its members, head first).  The scan loop visits every
  record of the file list once and a record enters the tree or a chain only
  during its own visit, so no record is shared.
* The operating system is an oracle `World`, indexed by a clock that ticks at
  every `fopen` and at every poll of the `interrupt` flag.
* `xxhash.h` is not part of the sources at hand; the streaming hash is a
  parameter `XXH64`.
-/

namespace Jdupes

/-- One byte of file data. -/
abbrev Byte := Nat

/-- `PARTIAL_HASH_SIZE` of `jdupes.c`. -/
def PARTIAL_HASH_SIZE : Nat := 4096

/-- `MIN_CHUNK_SIZE` of `jdupes.c`. -/
def MIN_CHUNK_SIZE : Nat := 4096

/-- `MAX_CHUNK_SIZE` of `jdupes.c`. -/
def MAX_CHUNK_SIZE : Nat := 16777216

/-- `CHUNK_SIZE` of `jdupes.c`, the default of `auto_chunk_size`. -/
def CHUNK_SIZE : Nat := 65536

/-- The record `file_t`: the scalar fields of the C struct, the flag bits
`F_VALID_STAT`, `F_HASH_PARTIAL`, `F_HASH_FULL`, `F_IS_SYMLINK` and
`F_HAS_DUPES` as Booleans. -/
structure file_t where
  d_name : String
  size : Int
  inode : Nat
  device : Nat
  mode : Nat
  mtime : Int
  uid : Nat
  gid : Nat
  user_order : Nat
  filehash_partial : Nat
  filehash : Nat
  F_VALID_STAT : Bool
  F_HASH_PARTIAL : Bool
  F_HASH_FULL : Bool
  F_IS_SYMLINK : Bool
  F_HAS_DUPES : Bool
deriving DecidableEq, Repr

/-- The behaviour flags of the global `flags` word that the engine reads. -/
structure Flags where
  F_ISOLATE : Bool
  F_ONEFS : Bool
  F_PERMISSIONS : Bool
  F_CONSIDERHARDLINKS : Bool
  F_PARTIALONLY : Bool
  F_QUICKCOMPARE : Bool
  F_USEPARAMORDER : Bool
  F_SOFTABORT : Bool
  F_EXCLUDEHIDDEN : Bool
  F_INCLUDEEMPTY : Bool
  F_FOLLOWLINKS : Bool
  F_RECURSE : Bool
  F_HIDEPROGRESS : Bool
deriving DecidableEq, Repr

/-- The operating system as seen by the scan: `fopen t name` is the content
that a stream opened at clock `t` on `name` delivers (`none` when the open
fails), `interrupt t` is the value of the global `interrupt` polled at clock
`t`. -/
structure World where
  fopen : Nat → String → Option (List Byte)
  interrupt : Nat → Bool

/-- Modelled from the spec: the streaming 64-bit hash of `xxhash.h`, which is
not among the sources.  `reset` is the state after `XXH64_reset(state, 0)`,
`update` is `XXH64_update` on one buffer, `digest` is `XXH64_digest`. -/
structure XXH64 where
  State : Type
  reset : State
  update : State → List Byte → State
  digest : State → Nat

/-- Modelled from the spec: the digest of hashing `data` in a single pass. -/
def XXH64.onepass (H : XXH64) (data : List Byte) : Nat :=
  H.digest (H.update H.reset data)

/-- Modelled from the spec: a streaming hash keeps its state across calls, so
feeding two buffers in turn is feeding their concatenation, and feeding
nothing changes nothing. -/
structure XXH64.Streaming (H : XXH64) : Prop where
  update_nil : ∀ s, H.update s [] = s
  update_append : ∀ s a b, H.update (H.update s a) b = H.update s (a ++ b)

/-- The `while (fsize > 0)` loop of `get_filehash`.  `file` is what is left
of the stream, `st` the hash state, `t` the clock; the result is the final
hash state, or `none` when the loop returns `NULL` (interrupt or failed
`fread`).  The first argument bounds the number of iterations; every
iteration consumes at least one byte, so `fsize` iterations are enough. -/
def get_filehash_loop (H : XXH64) (W : World) (auto_chunk_size : Nat) :
    Nat → Nat → Int → List Byte → H.State → Option H.State × Nat
  | 0, t, fsize, _, st => (if fsize > 0 then none else some st, t)
  | fuel + 1, t, fsize, file, st =>
    if fsize > 0 then
      if W.interrupt t then (none, t + 1)
      else
        let bytes_to_read : Nat :=
          if fsize ≥ (auto_chunk_size : Int) then auto_chunk_size else fsize.toNat
        if bytes_to_read = 0 ∨ file.length < bytes_to_read then (none, t + 1)
        else
          let st1 := H.update st (file.take bytes_to_read)
          if (bytes_to_read : Int) > fsize then (some st1, t + 1)
          else get_filehash_loop H W auto_chunk_size fuel (t + 1)
                 (fsize - (bytes_to_read : Int)) (file.drop bytes_to_read) st1
    else (some st, t)

/-- The function `get_filehash`: the hash of the first `max_read` bytes of
`checkfile` (of the whole file when `max_read` is 0), or `none` for `NULL`.
The second component is the clock after the call. -/
def get_filehash (H : XXH64) (W : World) (auto_chunk_size : Nat) (t : Nat)
    (checkfile : file_t) (max_read : Nat) : Option Nat × Nat :=
  if checkfile.size = -1 then (none, t)
  else
    let fsize0 : Int :=
      if max_read > 0 ∧ checkfile.size > (max_read : Int) then (max_read : Int)
      else checkfile.size
    if checkfile.F_HASH_PARTIAL ∧ max_read ≠ 0 ∧ max_read ≤ PARTIAL_HASH_SIZE then
      (some checkfile.filehash_partial, t)
    else
      match W.fopen t checkfile.d_name with
      | none => (none, t + 1)
      | some data =>
        let file : List Byte :=
          if checkfile.F_HASH_PARTIAL then data.drop PARTIAL_HASH_SIZE else data
        let fsize : Int :=
          if checkfile.F_HASH_PARTIAL then fsize0 - (PARTIAL_HASH_SIZE : Int) else fsize0
        match get_filehash_loop H W auto_chunk_size fsize.toNat (t + 1) fsize file H.reset with
        | (none, t1) => (none, t1)
        | (some st, t1) => (some (H.digest st), t1)

/-- A toy streaming hash used to evaluate the engine on concrete inputs: the
state is the sum of the bytes fed so far. -/
def sumHash : XXH64 where
  State := Nat
  reset := 0
  update := fun s l => s + l.sum
  digest := fun s => s

/-- A world in which every path holds `data`, every open succeeds and the
interrupt flag stays clear. -/
def quietWorld (disk : String → List Byte) : World where
  fopen := fun _ name => some (disk name)
  interrupt := fun _ => false

/-- A record as `init_newfile` and a successful `getfilestats` leave it: no
hash, not a symlink, not in a chain. -/
def mkfile (d_name : String) (size : Int) (inode device : Nat) (mtime : Int)
    (user_order : Nat) : file_t :=
  { d_name := d_name, size := size, inode := inode, device := device, mode := 33188,
    mtime := mtime, uid := 0, gid := 0, user_order := user_order,
    filehash_partial := 0, filehash := 0, F_VALID_STAT := true, F_HASH_PARTIAL := false,
    F_HASH_FULL := false, F_IS_SYMLINK := false, F_HAS_DUPES := false }

/-- The macro `HASH_COMPARE`: compare two hashes like `memcmp`. -/
def HASH_COMPARE (a b : Nat) : Int :=
  if a > b then 1 else if a = b then 0 else -1

/-- The function `check_conditions` on `file1` (the file of a tree node) and
`file2` (the new file): 0 if all condition checks pass, -1 or 1 on a compare
result less or more, -2 on an absolute exclusion, 2 on an absolute match. -/
def check_conditions (flags : Flags) (file1 file2 : file_t) : Int :=
  if flags.F_ISOLATE ∧ file1.user_order = file2.user_order then -1
  else if flags.F_ONEFS ∧ file1.device ≠ file2.device then -1
  else if flags.F_PERMISSIONS ∧
      (file1.mode ≠ file2.mode ∨ file1.uid ≠ file2.uid ∨ file1.gid ≠ file2.gid) then -1
  else if file1.inode = file2.inode ∧ file1.device = file2.device then
    (if flags.F_CONSIDERHARDLINKS then 2 else -2)
  else if file1.size > file2.size then -1
  else if file1.size < file2.size then 1
  else 0

/-- The type `enum tree_direction`. -/
inductive tree_direction where
  | NONE
  | LEFT
  | RIGHT
deriving DecidableEq, Repr

/-- The comparison tree `filetree_t`.  A node holds its `file`, the chain
hanging off `file->duplicates` (the other members of the duplicate chain that
`file` heads, in chain order) and the two children; `nil` is `NULL`. -/
inductive filetree_t where
  | nil : filetree_t
  | node (file : file_t) (duplicates : List file_t) (left right : filetree_t) : filetree_t
deriving DecidableEq, Repr

/-- The node that `registerfile` allocates for `file`: no children.  The
caller attaches it on the side given by the direction. -/
def registerfile (file : file_t) : filetree_t :=
  filetree_t.node file [] filetree_t.nil filetree_t.nil

/-- The block `if (!ISFLAG(f->flags, F_HASH_PARTIAL)) { ... }` of `checkmatch`:
compute and record the partial hash of `f` unless it is recorded; `none` when
`get_filehash` returns `NULL`. -/
def ensure_partial (H : XXH64) (W : World) (chunk t : Nat) (f : file_t) :
    Option file_t × Nat :=
  if f.F_HASH_PARTIAL then (some f, t)
  else
    match get_filehash H W chunk t f PARTIAL_HASH_SIZE with
    | (none, t1) => (none, t1)
    | (some h, t1) => (some { f with filehash_partial := h, F_HASH_PARTIAL := true }, t1)

/-- The block `if (!ISFLAG(f->flags, F_HASH_FULL)) { ... }` of `checkmatch`:
compute and record the full hash of `f` unless it is recorded. -/
def ensure_full (H : XXH64) (W : World) (chunk t : Nat) (f : file_t) :
    Option file_t × Nat :=
  if f.F_HASH_FULL then (some f, t)
  else
    match get_filehash H W chunk t f 0 with
    | (none, t1) => (none, t1)
    | (some h, t1) => (some { f with filehash := h, F_HASH_FULL := true }, t1)

/-- The small-file assignment of `checkmatch`: copy the partial hash to the
full hash unless a full hash is recorded. -/
def copy_partial_hash (f : file_t) : file_t :=
  if f.F_HASH_FULL then f
  else { f with filehash := f.filehash_partial, F_HASH_FULL := true }

/-- The block `if (cmpresult == 0) { ... }` of `checkmatch` on the node file
`tf` and the new file `file`: the two records and the clock afterwards, and
the new `cmpresult`, or `none` when the block returns `NULL`. -/
def checkmatch_data (flags : Flags) (H : XXH64) (W : World) (chunk t : Nat)
    (tf file : file_t) : file_t × file_t × Nat × Option Int :=
  match ensure_partial H W chunk t tf with
  | (none, t1) => (tf, file, t1, none)
  | (some tf1, t1) =>
    match ensure_partial H W chunk t1 file with
    | (none, t2) => (tf1, file, t2, none)
    | (some file1, t2) =>
      let cmpresult := HASH_COMPARE file1.filehash_partial tf1.filehash_partial
      if file1.size ≤ (PARTIAL_HASH_SIZE : Int) ∨ flags.F_PARTIALONLY then
        (copy_partial_hash tf1, copy_partial_hash file1, t2, some cmpresult)
      else if cmpresult = 0 then
        match ensure_full H W chunk t2 tf1 with
        | (none, t3) => (tf1, file1, t3, none)
        | (some tf2, t3) =>
          match ensure_full H W chunk t3 file1 with
          | (none, t4) => (tf2, file1, t4, none)
          | (some file2, t4) =>
            (tf2, file2, t4, some (HASH_COMPARE file2.filehash tf2.filehash))
      else (tf1, file1, t2, some cmpresult)

/-- What a call of `checkmatch` leaves: the tree and the new file with the
hashes recorded on the way, the clock, and the returned pointer: `none` for
`NULL`, `some path` for `&node->file` where `path` leads from the root to the
matched node. -/
structure checkmatch_result where
  tree : filetree_t
  file : file_t
  t : Nat
  result : Option (List tree_direction)
deriving DecidableEq, Repr

/-- The function `checkmatch`.  On `NULL` the C function exits through
`nullptr`; its callers never pass `NULL`. -/
def checkmatch (flags : Flags) (H : XXH64) (W : World) (chunk : Nat) :
    filetree_t → file_t → Nat → checkmatch_result
  | filetree_t.nil, file, t => ⟨filetree_t.nil, file, t, none⟩
  | filetree_t.node tf dups left right, file, t =>
    let c := check_conditions flags tf file
    if c = 2 then ⟨filetree_t.node tf dups left right, file, t, some []⟩
    else if c = -2 then ⟨filetree_t.node tf dups left right, file, t, none⟩
    else
      match (if c = 0 then checkmatch_data flags H W chunk t tf file
             else (tf, file, t, some c)) with
      | (tf1, file1, t1, none) => ⟨filetree_t.node tf1 dups left right, file1, t1, none⟩
      | (tf1, file1, t1, some cmpresult) =>
        if cmpresult < 0 then
          match left with
          | filetree_t.nil =>
            ⟨filetree_t.node tf1 dups (registerfile file1) right, file1, t1, none⟩
          | _ =>
            let r := checkmatch flags H W chunk left file1 t1
            ⟨filetree_t.node tf1 dups r.tree right, r.file, r.t,
              r.result.map (fun p => tree_direction.LEFT :: p)⟩
        else if cmpresult > 0 then
          match right with
          | filetree_t.nil =>
            ⟨filetree_t.node tf1 dups left (registerfile file1), file1, t1, none⟩
          | _ =>
            let r := checkmatch flags H W chunk right file1 t1
            ⟨filetree_t.node tf1 dups left r.tree, r.file, r.t,
              r.result.map (fun p => tree_direction.RIGHT :: p)⟩
        else ⟨filetree_t.node tf1 dups left right, file1, t1, some []⟩

/-- The node of `tree` at the end of `path`, if there is one. -/
def filetree_t.at : filetree_t → List tree_direction → Option (file_t × List file_t)
  | filetree_t.nil, _ => none
  | filetree_t.node f d _ _, [] => some (f, d)
  | filetree_t.node _ _ l _, tree_direction.LEFT :: p => l.at p
  | filetree_t.node _ _ _ r, tree_direction.RIGHT :: p => r.at p
  | filetree_t.node _ _ _ _, tree_direction.NONE :: _ => none

/-- The files held by the nodes of a tree (`node->file`), root first. -/
def filetree_t.files : filetree_t → List file_t
  | filetree_t.nil => []
  | filetree_t.node f _ l r => f :: (l.files ++ r.files)

/-- All records a tree reaches: the file of every node followed by the other
members of its duplicate chain. -/
def filetree_t.records : filetree_t → List file_t
  | filetree_t.nil => []
  | filetree_t.node f d l r => (f :: d) ++ (l.records ++ r.records)

/-- The invariant `HASH_FULL ⇒ HASH_PARTIAL` on one record. -/
def full_implies_partial (f : file_t) : Prop :=
  f.F_HASH_FULL = true → f.F_HASH_PARTIAL = true

/-- The state of the hash fields that `checkmatch` maintains on a record: a
full hash is recorded only with a partial hash, and on a record whose partial
hash stands for the full hash (small file, or partial-only mode) the two
digests are the same. -/
def hash_coherent (flags : Flags) (f : file_t) : Prop :=
  (f.F_HASH_FULL = true → f.F_HASH_PARTIAL = true) ∧
  (f.F_HASH_FULL = true → (f.size ≤ (PARTIAL_HASH_SIZE : Int) ∨ flags.F_PARTIALONLY = true) →
    f.filehash = f.filehash_partial)

/-- The part of a record that the scan never changes: the record with its
hash fields and the flags `F_HASH_PARTIAL`, `F_HASH_FULL`, `F_HAS_DUPES`
blanked. -/
def file_t.ident (f : file_t) : file_t :=
  { f with filehash_partial := 0, filehash := 0, F_HASH_PARTIAL := false,
           F_HASH_FULL := false, F_HAS_DUPES := false }

/-- The part of a record that `checkmatch` never changes: the record with its
hash fields and the flags `F_HASH_PARTIAL`, `F_HASH_FULL` blanked. -/
def file_t.unhashed (f : file_t) : file_t :=
  { f with filehash_partial := 0, filehash := 0, F_HASH_PARTIAL := false,
           F_HASH_FULL := false }

/-- All behaviour flags off. -/
def noFlags : Flags :=
  ⟨false, false, false, false, false, false, false, false, false, false, false, false, false⟩

/-- Example record: file `a` of one byte, inode 7, first argument. -/
def fileA : file_t := mkfile "a" 1 7 1 0 1

/-- Example record: file `b` of one byte, inode 8, second argument, newer than
`fileA`. -/
def fileB : file_t := mkfile "b" 1 8 1 1 2

/-- Example tree: the single node of `fileA`. -/
def treeA : filetree_t := filetree_t.node fileA [] filetree_t.nil filetree_t.nil

/-- The record `f` with both hashes recorded as `h`. -/
def hashed (f : file_t) (h : Nat) : file_t :=
  { f with filehash_partial := h, filehash := h, F_HASH_PARTIAL := true, F_HASH_FULL := true }

/-- The function `sort_pairs_by_param_order`; `sort_direction` is the global
of that name (1, or -1 under `F_REVERSESORT`). -/
def sort_pairs_by_param_order (flags : Flags) (sort_direction : Int) (f1 f2 : file_t) : Int :=
  if ¬ flags.F_USEPARAMORDER then 0
  else if f1.user_order < f2.user_order then -sort_direction
  else if f1.user_order > f2.user_order then sort_direction
  else 0

/-- The function `sort_pairs_by_mtime`, the comparator of `ORDER_TIME`. -/
def sort_pairs_by_mtime (flags : Flags) (sort_direction : Int) (f1 f2 : file_t) : Int :=
  let po := sort_pairs_by_param_order flags sort_direction f1 f2
  if po ≠ 0 then po
  else if f1.mtime < f2.mtime then -sort_direction
  else if f1.mtime > f2.mtime then sort_direction
  else 0

/-- The `while (traverse)` loop of `registerpair`.  The list is the chain from
`traverse` on, the Boolean is `back == NULL`; the result is the chain from
`traverse` on after the insertion of `newmatch`, whose own `duplicates` link
is `NULL` on entry. -/
def registerpair_loop (comparef : file_t → file_t → Int) (newmatch : file_t) :
    Bool → List file_t → List file_t
  | _, [] => []
  | back_null, traverse :: rest =>
    if comparef newmatch traverse ≤ 0 then
      if back_null then
        { newmatch with F_HAS_DUPES := true } :: { traverse with F_HAS_DUPES := false } :: rest
      else newmatch :: traverse :: rest
    else
      match rest with
      | [] => [if back_null then { traverse with F_HAS_DUPES := true } else traverse, newmatch]
      | _ :: _ => traverse :: registerpair_loop comparef newmatch false rest

/-- The function `registerpair`: `matchlist` is the chain that `*matchlist`
heads, the result is the chain that `*matchlist` heads afterwards. -/
def registerpair (matchlist : List file_t) (newmatch : file_t)
    (comparef : file_t → file_t → Int) : List file_t :=
  match matchlist with
  | [] => []
  | head :: rest =>
    registerpair_loop comparef newmatch true ({ head with F_HAS_DUPES := true } :: rest)

/-- A sequence of `registerpair` calls on one chain, each through the pointer
to the current head. -/
def registerpairs (comparef : file_t → file_t → Int) (chain news : List file_t) :
    List file_t :=
  news.foldl (fun c n => registerpair c n comparef) chain

/-- `CHECK_MINIMUM` of `jdupes.c`: the number of read loops before the
progress indicator is looked at. -/
def CHECK_MINIMUM : Nat := 256

/-- The `do ... while (r2)` loop of `confirmmatch` on what is left of the two
streams; `fread` delivers up to `auto_chunk_size` bytes, `check` and `bytes`
are the counters of the progress block and `size` is the third parameter of
the function.  When progress is shown and `check` passes `CHECK_MINIMUM`, the
loop evaluates `(bytes * 100) / size` for `update_progress`: with `size` 0
the division is undefined and the result is `none` (the function does not
return); otherwise the value is only displayed.  The first argument bounds the
number of iterations. -/
def confirmmatch_loop (flags : Flags) (W : World) (auto_chunk_size : Nat) (size : Int) :
    Nat → Nat → Nat → Int → List Byte → List Byte → Option Bool × Nat
  | 0, t, _, _, _, _ => (some false, t)
  | fuel + 1, t, check, bytes, file1, file2 =>
    if W.interrupt t then (some false, t + 1)
    else
      let c1 := file1.take auto_chunk_size
      let c2 := file2.take auto_chunk_size
      if c1.length ≠ c2.length then (some false, t + 1)
      else if c1 ≠ c2 then (some false, t + 1)
      else
        let check1 := if flags.F_HIDEPROGRESS then check else check + 1
        let bytes1 := if flags.F_HIDEPROGRESS then bytes else bytes + (c1.length : Int)
        if ¬ flags.F_HIDEPROGRESS ∧ check1 > CHECK_MINIMUM ∧ size = 0 then (none, t + 1)
        else
          let check2 :=
            if ¬ flags.F_HIDEPROGRESS ∧ check1 > CHECK_MINIMUM then 0 else check1
          if c2.length ≠ 0 then
            confirmmatch_loop flags W auto_chunk_size size fuel (t + 1) check2 bytes1
              (file1.drop auto_chunk_size) (file2.drop auto_chunk_size)
          else (some true, t + 1)

/-- The function `confirmmatch` on two opened streams, rewound to offset 0, and
`size`: `some true` for 1, `some false` for 0, `none` when the function does
not return because it divides by a `size` of 0.  Every iteration but the last
consumes at least one byte of `file2`, so `file2.length + 1` iterations are
enough. -/
def confirmmatch (flags : Flags) (W : World) (auto_chunk_size : Nat) (t : Nat)
    (file1 file2 : List Byte) (size : Int) : Option Bool × Nat :=
  confirmmatch_loop flags W auto_chunk_size size (file2.length + 1) t 0 0 file1 file2

/-- The node of `tree` at the end of `path` with its chain replaced by
`registerpair` of `newmatch` through the pointer to the node's file. -/
def filetree_t.registerpair_at (comparef : file_t → file_t → Int) (newmatch : file_t) :
    filetree_t → List tree_direction → filetree_t
  | filetree_t.nil, _ => filetree_t.nil
  | filetree_t.node f d l r, [] =>
    match registerpair (f :: d) newmatch comparef with
    | [] => filetree_t.node f d l r
    | h :: c => filetree_t.node h c l r
  | filetree_t.node f d l r, tree_direction.LEFT :: p =>
    filetree_t.node f d (l.registerpair_at comparef newmatch p) r
  | filetree_t.node f d l r, tree_direction.RIGHT :: p =>
    filetree_t.node f d l (r.registerpair_at comparef newmatch p)
  | filetree_t.node f d l r, tree_direction.NONE :: _ => filetree_t.node f d l r

/-- The state of the scan loop of `main`: the comparison tree with the
duplicate chains hanging off its nodes, the clock, and `dupecount`.  A record
that ends in neither the tree nor a chain stays in the file list with its
`duplicates` link and `F_HAS_DUPES` as they were. -/
structure scan_state where
  checktree : filetree_t
  t : Nat
  dupecount : Nat
deriving DecidableEq, Repr

/-- The body of the scan loop of `main` for `curfile`, after the interrupt
test: the state afterwards, or `none` when `confirmmatch` does not return. -/
def scan_file (flags : Flags) (H : XXH64) (W : World) (chunk : Nat)
    (comparef : file_t → file_t → Int) (st : scan_state) (curfile : file_t) :
    Option scan_state :=
  match st.checktree with
  | filetree_t.nil => some { st with checktree := registerfile curfile }
  | filetree_t.node f d l r =>
    let res := checkmatch flags H W chunk (filetree_t.node f d l r) curfile st.t
    match res.result with
    | none => some { st with checktree := res.tree, t := res.t }
    | some path =>
      match res.tree.at path with
      | none => some { st with checktree := res.tree, t := res.t }
      | some (m, _) =>
        if flags.F_QUICKCOMPARE ∨ flags.F_PARTIALONLY ∨
            (flags.F_CONSIDERHARDLINKS ∧ res.file.inode = m.inode ∧
              res.file.device = m.device) then
          some { checktree := res.tree.registerpair_at comparef res.file path, t := res.t,
                 dupecount := st.dupecount + 1 }
        else
          match W.fopen res.t res.file.d_name with
          | none => some { st with checktree := res.tree, t := res.t + 1 }
          | some file1 =>
            match W.fopen (res.t + 1) m.d_name with
            | none => some { st with checktree := res.tree, t := res.t + 2 }
            | some file2 =>
              match confirmmatch flags W chunk (res.t + 2) file1 file2 res.file.size with
              | (some true, t1) =>
                some { checktree := res.tree.registerpair_at comparef res.file path, t := t1,
                       dupecount := st.dupecount + 1 }
              | (some false, t1) => some { st with checktree := res.tree, t := t1 }
              | (none, _) => none

/-- How the scan loop of `main` ends: the file list is exhausted, the scan is
abandoned on an interrupt under soft abort, the process exits, or the process
is lost in the division by zero of `confirmmatch`. -/
inductive scan_end where
  | finished
  | aborted
  | exited
  | killed
deriving DecidableEq, Repr

/-- The scan loop `while (curfile)` of `main` over the file list. -/
def scan_loop (flags : Flags) (H : XXH64) (W : World) (chunk : Nat)
    (comparef : file_t → file_t → Int) : List file_t → scan_state → scan_state × scan_end
  | [], st => (st, scan_end.finished)
  | curfile :: rest, st =>
    if W.interrupt st.t then
      ({ st with t := st.t + 1 },
        if flags.F_SOFTABORT then scan_end.aborted else scan_end.exited)
    else
      match scan_file flags H W chunk comparef { st with t := st.t + 1 } curfile with
      | none => ({ st with t := st.t + 1 }, scan_end.killed)
      | some st1 => scan_loop flags H W chunk comparef rest st1

/-- The state on entry to the scan loop: empty tree, `dupecount` 0. -/
def scan_init : scan_state := ⟨filetree_t.nil, 0, 0⟩

/-- The duplicate chains of a tree: for every node, its file followed by the
members hanging off `file->duplicates`. -/
def filetree_t.chains : filetree_t → List (List file_t)
  | filetree_t.nil => []
  | filetree_t.node f d l r => (f :: d) :: (l.chains ++ r.chains)

/-- The sort key that `sort_pairs_by_mtime` reads off a record: the parameter
order (when `F_USEPARAMORDER` is on), then the modification time; `key_le` is
the lexicographic order of the keys. -/
def key_le (flags : Flags) (a b : file_t) : Prop :=
  (if flags.F_USEPARAMORDER = true then a.user_order else 0)
      < (if flags.F_USEPARAMORDER = true then b.user_order else 0) ∨
  ((if flags.F_USEPARAMORDER = true then a.user_order else 0)
      = (if flags.F_USEPARAMORDER = true then b.user_order else 0) ∧ a.mtime ≤ b.mtime)

/-- How a chain `c1` of the tree after `checkmatch tree file` arises: it is a
chain of `tree` whose head has gained hash fields, or the one-record chain of
the new file. -/
def chain_step (tree : filetree_t) (file : file_t) (c1 : List file_t) : Prop :=
  (∃ f f1 d, (f :: d) ∈ tree.chains ∧ c1 = f1 :: d ∧ f1.unhashed = f.unhashed) ∨
  (∃ f1, c1 = [f1] ∧ f1.unhashed = file.unhashed)

/-- A chain whose members are records of the file list (up to the fields the
scan changes) and all hold the same bytes on `disk`. -/
def chain_same_content (disk : String → List Byte) (files : List file_t)
    (c : List file_t) : Prop :=
  (∀ x ∈ c, ∃ y ∈ files, x.ident = y.ident) ∧
  (∀ x ∈ c, ∀ y ∈ c, disk x.d_name = disk y.d_name)

/-- Example disk: the file `c` holds the byte 2, every other file the byte 1. -/
def exDisk : String → List Byte := fun name => if name = "c" then [2] else [1]

/-- Example record: file `c` of one byte, inode 9, second argument, newer than
`fileA` and `fileB`. -/
def fileC : file_t := mkfile "c" 1 9 1 2 2

/-- Example record: a second link to the inode of `fileB`. -/
def fileB2 : file_t := mkfile "b2" 1 8 1 2 2

/-- The tree `struct travdone` of directories already traversed; `nil` is
`NULL`. -/
inductive travdone where
  | nil : travdone
  | node (left right : travdone) (inode device : Nat) : travdone
deriving DecidableEq, Repr

/-- How the double traversal prevention of `grokdir` ends: `REPEAT` when the
item was seen (`grokdir` returns), `FIRST` with the grown tree when it was
not (`grokdir` proceeds), `ERROR` when `travdone_alloc` returns `NULL`. -/
inductive travdone_result where
  | REPEAT
  | FIRST (t : travdone)
  | ERROR
deriving DecidableEq, Repr

/-- The double traversal prevention of `grokdir` on an item with the given
`inode` and `device` (`isdir` is `S_ISDIR (mode)`, `alloc_ok` tells whether
`travdone_alloc` gets memory): walk the tree from `travdone_head`, return on
an equal directory entry, else go right on a larger (inode, device) and left
otherwise, and allocate the entry at the first `NULL` link. -/
def grokdir_travdone (alloc_ok isdir : Bool) (inode device : Nat) : travdone → travdone_result
  | travdone.nil =>
    if alloc_ok then
      travdone_result.FIRST (travdone.node travdone.nil travdone.nil inode device)
    else travdone_result.ERROR
  | travdone.node left right i d =>
    if isdir ∧ inode = i ∧ device = d then travdone_result.REPEAT
    else if inode > i ∨ (inode = i ∧ device > d) then
      match grokdir_travdone alloc_ok isdir inode device right with
      | travdone_result.FIRST r => travdone_result.FIRST (travdone.node left r i d)
      | travdone_result.REPEAT => travdone_result.REPEAT
      | travdone_result.ERROR => travdone_result.ERROR
    else
      match grokdir_travdone alloc_ok isdir inode device left with
      | travdone_result.FIRST l => travdone_result.FIRST (travdone.node l right i d)
      | travdone_result.REPEAT => travdone_result.REPEAT
      | travdone_result.ERROR => travdone_result.ERROR

/-- The ledger after one `grokdir` call on a directory, memory permitting. -/
def travdone_step (t : travdone) (c : Nat × Nat) : travdone :=
  match grokdir_travdone true true c.1 c.2 t with
  | travdone_result.FIRST t1 => t1
  | _ => t

/-- The ledger after a sequence of `grokdir` calls on directories, given by
their (inode, device), starting from the empty ledger. -/
def travdone_after (calls : List (Nat × Nat)) : travdone :=
  calls.foldl travdone_step travdone.nil

/-- The calls of a sequence of `grokdir` calls on directories that get past
the ledger and enumerate their directory. -/
def travdone_enumerated : travdone → List (Nat × Nat) → List (Nat × Nat)
  | _, [] => []
  | t, c :: cs =>
    match grokdir_travdone true true c.1 c.2 t with
    | travdone_result.FIRST t1 => c :: travdone_enumerated t1 cs
    | _ => travdone_enumerated t cs

/-- The (inode, device) pairs held by the nodes of a ledger. -/
def travdone.keys : travdone → List (Nat × Nat)
  | travdone.nil => []
  | travdone.node l r i d => (i, d) :: (l.keys ++ r.keys)

/-- The fields of `struct stat` that the engine reads. -/
structure stat_t where
  st_ino : Nat
  st_size : Int
  st_dev : Nat
  st_mtime : Int
  st_mode : Nat
  st_uid : Nat
  st_gid : Nat
deriving DecidableEq, Repr

/-- The macro `S_ISDIR` of `sys/stat.h`: `(mode & S_IFMT) == S_IFDIR`. -/
def S_ISDIR (mode : Nat) : Bool := mode &&& 61440 == 16384

/-- The macro `S_ISREG` of `sys/stat.h`: `(mode & S_IFMT) == S_IFREG`. -/
def S_ISREG (mode : Nat) : Bool := mode &&& 61440 == 32768

/-- The macro `S_ISLNK` of `sys/stat.h`: `(mode & S_IFMT) == S_IFLNK`. -/
def S_ISLNK (mode : Nat) : Bool := mode &&& 61440 == 40960

/-- The function `file_has_changed`; `stat_r` and `lstat_r` are what `stat`
and `lstat` on `file->d_name` deliver when called (`none` for a failure).
Returns 1 if changed, 0 if not changed, negative if error. -/
def file_has_changed (file : file_t) (stat_r lstat_r : Option stat_t) : Int :=
  if ¬ file.F_VALID_STAT then -66
  else
    match stat_r with
    | none => -2
    | some s =>
      if file.inode ≠ s.st_ino then 1
      else if file.size ≠ s.st_size then 1
      else if file.device ≠ s.st_dev then 1
      else if file.mtime ≠ s.st_mtime then 1
      else if file.mode ≠ s.st_mode then 1
      else if file.uid ≠ s.st_uid then 1
      else if file.gid ≠ s.st_gid then 1
      else
        match lstat_r with
        | none => -3
        | some l => if xor (S_ISLNK l.st_mode) file.F_IS_SYMLINK then 1 else 0

/-- The function `getfilestats`: the return value and the record afterwards;
`stat_r` and `lstat_r` are what `stat` and `lstat` on `file->d_name` deliver
when called. -/
def getfilestats (file : file_t) (stat_r lstat_r : Option stat_t) : Int × file_t :=
  if file.F_VALID_STAT then (0, file)
  else
    match stat_r with
    | none => (-1, { file with F_VALID_STAT := true })
    | some s =>
      match lstat_r with
      | none =>
        (-1, { file with
                 F_VALID_STAT := true, inode := s.st_ino, size := s.st_size,
                 device := s.st_dev, mtime := s.st_mtime, mode := s.st_mode,
                 uid := s.st_uid, gid := s.st_gid })
      | some l =>
        (0, { file with
                F_VALID_STAT := true, inode := s.st_ino, size := s.st_size,
                device := s.st_dev, mtime := s.st_mtime, mode := s.st_mode,
                uid := s.st_uid, gid := s.st_gid,
                F_IS_SYMLINK := if S_ISLNK l.st_mode then true else file.F_IS_SYMLINK })

/-- Modelled from the spec: the tag of an exclusion rule, the `X_*` constants
of `jdupes.h` (not among the sources) that `excl->flags & XX_EXCL_SIZE` is
compared with; the spec gives the tagged variant SIZE_EQ, SIZE_LT, SIZE_LTEQ,
SIZE_GT, SIZE_GTEQ, and `X_DIR` is the tag of a rule that is not about size. -/
inductive exclude_tag where
  | X_DIR
  | X_SIZE_EQ
  | X_SIZE_GT
  | X_SIZE_LT
  | X_SIZE_GTEQ
  | X_SIZE_LTEQ
deriving DecidableEq, Repr

/-- One element of the exclusion stack `struct exclude`: its tag and its
byte threshold. -/
structure exclude where
  flags : exclude_tag
  size : Int
deriving DecidableEq, Repr

/-- The condition of the `if` in the exclusion loop of `check_singlefile` for
one rule and a file of the given size. -/
def exclude_matches (excl : exclude) (size : Int) : Bool :=
  (excl.flags == exclude_tag.X_SIZE_EQ && decide (size ≠ excl.size)) ||
  (excl.flags == exclude_tag.X_SIZE_LTEQ && decide (size ≤ excl.size)) ||
  (excl.flags == exclude_tag.X_SIZE_GTEQ && decide (size ≥ excl.size)) ||
  (excl.flags == exclude_tag.X_SIZE_GT && decide (size > excl.size)) ||
  (excl.flags == exclude_tag.X_SIZE_LT && decide (size < excl.size))

/-- The test for a hidden name in `check_singlefile`: `tp[0] == '.'` and `tp`
is neither `.` nor `..`. -/
def hidden_name (tp : String) : Bool :=
  tp.toList.head? == some '.' && tp != "." && tp != ".."

/-- The function `check_singlefile` (1 = fail) with the record afterwards.
`basename` is the libc function, `exclude_head` the exclusion stack, `stat_r`
and `lstat_r` the outcomes of `stat` and `lstat` on the file. -/
def check_singlefile (flags : Flags) (basename : String → String)
    (exclude_head : List exclude) (newfile : file_t) (stat_r lstat_r : Option stat_t) :
    Int × file_t :=
  if flags.F_EXCLUDEHIDDEN ∧ hidden_name (basename newfile.d_name) then (1, newfile)
  else
    let r := getfilestats newfile stat_r lstat_r
    if r.1 ≠ 0 ∨ r.2.size = -1 then (1, r.2)
    else if ¬ S_ISDIR r.2.mode then
      if r.2.size = 0 ∧ ¬ flags.F_INCLUDEEMPTY then (1, r.2)
      else
        let excluded : Int :=
          exclude_head.foldl (fun excluded excl =>
            if exclude_matches excl r.2.size then 1 else excluded) 0
        if excluded ≠ 0 then (1, r.2) else (0, r.2)
    else (0, r.2)

/-- What `grokdir` does with a record that `check_singlefile` admitted. -/
inductive grokdir_action where
  | directory
  | added
  | not_regular
deriving DecidableEq, Repr

/-- The branch of `grokdir` on an admitted record, from `if (S_ISDIR
(newfile->mode))` to the label `add_single_file`: a directory is recursed
into or dropped, any other record is prepended to the file list unless it is
a symlink and symlinks are not followed. -/
def grokdir_file (flags : Flags) (newfile : file_t) : grokdir_action :=
  if S_ISDIR newfile.mode then grokdir_action.directory
  else if ¬ newfile.F_IS_SYMLINK ∨ (newfile.F_IS_SYMLINK ∧ flags.F_FOLLOWLINKS) then
    grokdir_action.added
  else grokdir_action.not_regular

/-- The record that `init_newfile` creates for a path under the argument
number `user_item_count`: all zero but for the size sentinel -1. -/
def init_newfile (d_name : String) (user_item_count : Nat) : file_t :=
  { d_name := d_name, size := -1, inode := 0, device := 0, mode := 0, mtime := 0,
    uid := 0, gid := 0, user_order := user_item_count, filehash_partial := 0, filehash := 0,
    F_VALID_STAT := false, F_HASH_PARTIAL := false, F_HASH_FULL := false,
    F_IS_SYMLINK := false, F_HAS_DUPES := false }

/-- Example: what `stat` reports for a FIFO of mode 0644 (`S_IFIFO | 0644`),
size 0. -/
def fifoStat : stat_t :=
  { st_ino := 11, st_size := 0, st_dev := 1, st_mtime := 0, st_mode := 4516, st_uid := 0,
    st_gid := 0 }

/-- Example: what `stat` reports for a regular file of mode 0644 and the
given size. -/
def regStat (size : Int) : stat_t :=
  { st_ino := 12, st_size := size, st_dev := 1, st_mtime := 0, st_mode := 33188, st_uid := 0,
    st_gid := 0 }

/-- Two trees with the same nodes at the same places: the file of each node is
the same record up to its hash fields, with the same chain hanging off it and
children of the same shape. -/
def filetree_t.same_shape : filetree_t → filetree_t → Prop
  | filetree_t.nil, filetree_t.nil => True
  | filetree_t.nil, filetree_t.node _ _ _ _ => False
  | filetree_t.node _ _ _ _, filetree_t.nil => False
  | filetree_t.node f d l r, filetree_t.node f1 d1 l1 r1 =>
    f1.unhashed = f.unhashed ∧ d1 = d ∧ l.same_shape l1 ∧ r.same_shape r1

/-- The second tree is the first with one leaf holding `file` (up to its hash
fields) attached at a child position that was `NULL`: along the way down every
node keeps its file (up to hash fields), its chain and its other child. -/
def filetree_t.leaf_attached (file : file_t) : filetree_t → filetree_t → Prop
  | filetree_t.nil, _ => False
  | filetree_t.node _ _ _ _, filetree_t.nil => False
  | filetree_t.node f d l r, filetree_t.node f1 d1 l1 r1 =>
    f1.unhashed = f.unhashed ∧ d1 = d ∧
    ((l = filetree_t.nil ∧
        (∃ file1 : file_t, file1.unhashed = file.unhashed ∧ l1 = registerfile file1) ∧ r1 = r) ∨
      (r = filetree_t.nil ∧
        (∃ file1 : file_t, file1.unhashed = file.unhashed ∧ r1 = registerfile file1) ∧ l1 = l) ∨
      (l.leaf_attached file l1 ∧ r1 = r) ∨
      (r.leaf_attached file r1 ∧ l1 = l))

/-- Example record: file `a` of 5000 bytes with the partial hash 9 recorded. -/
def bigA : file_t :=
  { mkfile "a" 5000 7 1 0 1 with filehash_partial := 9, F_HASH_PARTIAL := true }

/-- Example record: file `b` of 5000 bytes with the partial hash 9 recorded. -/
def bigB : file_t :=
  { mkfile "b" 5000 8 1 1 2 with filehash_partial := 9, F_HASH_PARTIAL := true }

/-- A world in which no file can be opened. -/
def deafWorld : World where
  fopen := fun _ _ => none
  interrupt := fun _ => false

/-- Example record: file `a2` of one byte, inode 17, first argument like
`fileA`, newer than it. -/
def fileA2 : file_t := mkfile "a2" 1 17 1 1 1

/-- Example disk on which `p` and `q` differ but have the same byte sum. -/
def swapDisk : String → List Byte := fun name => if name = "p" then [1, 2] else [2, 1]

/-- Example record: file `p` of two bytes, inode 21, first argument. -/
def fileP : file_t := mkfile "p" 2 21 1 0 1

/-- Example record: file `q` of two bytes, inode 22, second argument. -/
def fileQ : file_t := mkfile "q" 2 22 1 1 2

/-- The chunk-size auto-tuning of `main` (the code under `#ifndef ON_WINDOWS`):
`l1` and `l1d` are the fields of `pci` that `get_proc_cacheinfo` fills, 0 for
unknown; the result is `auto_chunk_size` afterwards.  The value is at most
`MAX_CHUNK_SIZE` when `0xfff` is added, so no `size_t` operation wraps. -/
def main_auto_chunk_size (l1 l1d : Nat) : Nat :=
  let a := if l1 ≠ 0 then l1 / 2 else if l1d ≠ 0 then l1d / 2 else CHUNK_SIZE
  let b := if a < MIN_CHUNK_SIZE ∨ a > MAX_CHUNK_SIZE then CHUNK_SIZE else a
  if b &&& 0x00000fff ≠ 0 then (b + 0x00000fff) &&& 0x000ff000 else b

/-- The table `exclude_tags`: the tag strings of `-X` and their flags. -/
def exclude_tags : List (String × exclude_tag) :=
  [("dir", exclude_tag.X_DIR), ("size+", exclude_tag.X_SIZE_GT),
   ("size+=", exclude_tag.X_SIZE_GTEQ), ("size-=", exclude_tag.X_SIZE_LTEQ),
   ("size-", exclude_tag.X_SIZE_LT), ("size=", exclude_tag.X_SIZE_EQ)]

/-- The table `size_suffix`: the size suffixes and their multipliers. -/
def size_suffix : List (String × Int) :=
  [("b", 1), ("k", 1024), ("kib", 1024), ("m", 1048576), ("mib", 1048576),
   ("g", 1048576 * 1024), ("gib", 1048576 * 1024), ("t", 1048576 * 1048576),
   ("tib", 1048576 * 1048576), ("p", 1048576 * 1048576 * 1024),
   ("pib", 1048576 * 1048576 * 1024), ("e", 1048576 * 1048576 * 1048576),
   ("eib", 1048576 * 1048576 * 1048576), ("kb", 1000), ("mb", 1000000), ("gb", 1000000000),
   ("tb", 1000000000000), ("pb", 1000000000000000), ("eb", 1000000000000000000)]

/-- Modelled from the spec: the mask `XX_EXCL_OFFSET` of `jdupes.h` (not among
the sources), the rules whose value is a number: a size rule carries a byte
threshold. -/
def XX_EXCL_OFFSET (tag : exclude_tag) : Bool := tag != exclude_tag.X_DIR

/-- Modelled from the spec: the mask `XX_EXCL_DATA` of `jdupes.h` (not among
the sources), the rules that need a value after the colon. -/
def XX_EXCL_DATA (_tag : exclude_tag) : Bool := true

/-- The libc function `strtoll (p, &p, 10)` on a string that starts with a
digit: the value of the longest run of digits, `LLONG_MAX` when it does not
fit, and what follows the digits. -/
def strtoll (p : List Char) : Int × List Char :=
  (min ((p.takeWhile Char.isDigit).foldl (fun n c => 10 * n + ((c.toNat : Int) - 48)) 0)
      9223372036854775807,
    p.dropWhile Char.isDigit)

/-- A product of two 64-bit signed values as the machine leaves it. -/
def wrap64 (x : Int) : Int := (x + 9223372036854775808) % 18446744073709551616 - 9223372036854775808

/-- The function `add_exclude` on the exclusion stack `exclude_head`: the stack
with the new rule at its end, or `none` when the function exits the process
(`bad_tag`, `spec_missing`, `bad_size_suffix`).  The string data of a rule
that is not about size is not kept. -/
def add_exclude (option : List Char) (exclude_head : List exclude) : Option (List exclude) :=
  let opt := option.takeWhile (fun c => c != ':')
  let p := match option.dropWhile (fun c => c != ':') with
    | ':' :: rest => rest
    | other => other
  match exclude_tags.find? (fun tg => tg.1.toList == opt) with
  | none => none
  | some (_, tag) =>
    if XX_EXCL_DATA tag ∧ p = [] then none
    else if XX_EXCL_OFFSET tag then
      match p with
      | [] => none
      | c :: _ =>
        if c < '0' ∨ c > '9' then none
        else
          match (strtoll p).2 with
          | [] => some (exclude_head ++ [⟨tag, (strtoll p).1⟩])
          | s :: rest =>
            match size_suffix.find? (fun ss => ss.1.toList == (s :: rest).map Char.toLower) with
            | none => none
            | some (_, multiplier) =>
              some (exclude_head ++ [⟨tag, wrap64 ((strtoll p).1 * multiplier)⟩])
    else some (exclude_head ++ [⟨tag, 0⟩])

/-- The `case 'x'` of the option loop of `main`: `-x SIZE` is handed to
`add_exclude` as `size-=:SIZE`, `-x +SIZE` as `size+:SIZE`. -/
def main_case_x (optarg : String) (exclude_head : List exclude) : Option (List exclude) :=
  match optarg.toList with
  | '+' :: rest => add_exclude ("size".toList ++ "+:".toList ++ rest) exclude_head
  | other => add_exclude ("size".toList ++ "-=:".toList ++ other) exclude_head

/-- `PATHBUF_SIZE` of `jdupes.c`. -/
def PATHBUF_SIZE : Nat := 4096

/-- One call by which `clonefiles` changes the file system. -/
inductive fs_op where
  | rename (old new : String)
  | copyfile (src dst : String)
  | unlink (name : String)
  | clonefileat (src dst : String)
  | remove (name : String)
  | chmod (name : String) (mode : Nat)
  | update_times (name : String) (mtime : Int)
deriving DecidableEq, Repr

/-- What the system answers during one iteration of the linking loop of
`clonefiles`: `access_ok` is `access (target, W_OK) == 0`, the four stat
outcomes are those of the two `file_has_changed` calls, `rename_ok` that of the
move to the temporary name, `was_cloned` is
`copyfile_state_get (...) == 0 && was_cloned`, and the last two are the
outcomes of `stat` and `lstat` in `getfilestats (&clonedfile)`. -/
structure clone_env where
  access_ok : Bool
  src_stat : Option stat_t
  src_lstat : Option stat_t
  dst_stat : Option stat_t
  dst_lstat : Option stat_t
  rename_ok : Bool
  copyfile_ok : Bool
  was_cloned : Bool
  clonefileat_ok : Bool
  remove_tmp_ok : Bool
  remove_dst_ok : Bool
  cloned_stat : Option stat_t
  cloned_lstat : Option stat_t

/-- One iteration of the loop `for (; x <= counter; x++)` of `clonefiles` on
the current source `srcfile` and the target `dupelist[x]`: the calls that
change the file system, in order, and `srcfile` afterwards.  The static record
`clonedfile` gets `flags = 0` and the name of the target; its other fields
are written by `getfilestats` before they are read. -/
def clonefiles_pair (env : clone_env) (srcfile target : file_t) : List fs_op × file_t :=
  if srcfile.device ≠ target.device then ([], srcfile)
  else if srcfile.inode = target.inode then ([], srcfile)
  else if ¬ env.access_ok then ([], srcfile)
  else if file_has_changed srcfile env.src_stat env.src_lstat ≠ 0 then ([], target)
  else if file_has_changed target env.dst_stat env.dst_lstat ≠ 0 then ([], srcfile)
  else if target.d_name.utf8ByteSize + 14 > PATHBUF_SIZE then ([], srcfile)
  else
    let tempname := target.d_name ++ ".__jdupes__.tmp"
    if ¬ env.rename_ok then
      ([fs_op.rename target.d_name tempname, fs_op.rename tempname target.d_name], srcfile)
    else
      let link_ops : List fs_op :=
        fs_op.copyfile srcfile.d_name target.d_name ::
          (if env.copyfile_ok ∧ ¬ env.was_cloned then
            [fs_op.unlink target.d_name, fs_op.clonefileat srcfile.d_name target.d_name]
          else [])
      if ¬ (env.copyfile_ok ∧ (env.was_cloned ∨ env.clonefileat_ok)) then
        (fs_op.rename target.d_name tempname :: link_ops ++
          [fs_op.rename tempname target.d_name], srcfile)
      else
        let cleanup : List fs_op :=
          fs_op.remove tempname ::
            (if env.remove_tmp_ok then []
             else fs_op.remove target.d_name ::
               (if env.remove_dst_ok then [fs_op.rename tempname target.d_name] else []))
        let r := getfilestats (init_newfile target.d_name 0) env.cloned_stat env.cloned_lstat
        if r.1 ≠ 0 then (fs_op.rename target.d_name tempname :: link_ops ++ cleanup, srcfile)
        else
          (fs_op.rename target.d_name tempname :: link_ops ++ cleanup ++
            (if r.2.mode ≠ target.mode then [fs_op.chmod target.d_name target.mode] else []) ++
            [fs_op.update_times target.d_name target.mtime], srcfile)

/-- The loop `for (; x <= counter; x++)` of `clonefiles` over the targets of
one chain, each with the answers of the system during its iteration. -/
def clonefiles_loop : file_t → List (clone_env × file_t) → List fs_op
  | _, [] => []
  | srcfile, (env, target) :: rest =>
    (clonefiles_pair env srcfile target).1 ++
      clonefiles_loop (clonefiles_pair env srcfile target).2 rest

/-- Example record: file `s` of one byte as `regStat 1` reports it. -/
def fileS : file_t := mkfile "s" 1 12 1 0 1

/-- Example answers: the target is writable, its `stat` fails, and every other
call would succeed. -/
def envChanged : clone_env :=
  { access_ok := true, src_stat := some (regStat 1), src_lstat := some (regStat 1),
    dst_stat := none, dst_lstat := none, rename_ok := true, copyfile_ok := true,
    was_cloned := true, clonefileat_ok := true, remove_tmp_ok := true, remove_dst_ok := true,
    cloned_stat := some (regStat 1), cloned_lstat := some (regStat 1) }

/-- With the interrupt flag clear and enough data, the read loop of
`get_filehash` feeds exactly the first `n` bytes of the stream, whatever the
chunk size. -/
theorem get_filehash_loop_ok (H : XXH64) (hs : H.Streaming) (W : World) (chunk : Nat)
    (hchunk : 1 ≤ chunk) (hint : ∀ k, W.interrupt k = false) :
    ∀ (fuel t n : Nat) (file : List Byte) (st : H.State), n ≤ fuel → n ≤ file.length →
      (get_filehash_loop H W chunk fuel t (n : Int) file st).1
        = some (H.update st (file.take n)) := by
  intro fuel
  induction fuel with
  | zero =>
    intro t n file st hn _
    have h0 : n = 0 := by omega
    subst h0
    simp [get_filehash_loop, hs.update_nil]
  | succ fuel ih =>
    intro t n file st hn hlen
    rcases Nat.eq_zero_or_pos n with h0 | hpos
    · subst h0
      simp [get_filehash_loop, hs.update_nil]
    · have hposI : (n : Int) > 0 := by exact_mod_cast hpos
      by_cases hc : (n : Int) ≥ (chunk : Int)
      · have hcn : chunk ≤ n := by exact_mod_cast hc
        have e : n = chunk + (n - chunk) := by omega
        have hsub : (n : Int) - (chunk : Int) = ((n - chunk : Nat) : Int) := by omega
        have hrec := ih (t + 1) (n - chunk) (file.drop chunk) (H.update st (file.take chunk))
          (by omega) (by simp; omega)
        have hne : ¬ (chunk = 0 ∨ file.length < chunk) := by omega
        have hgt : ¬ ((chunk : Int) > (n : Int)) := by omega
        rw [get_filehash_loop]
        simp only [hposI, hint, hc, if_true, hne, hgt, if_false, Bool.false_eq_true]
        rw [hsub, hrec, hs.update_append]
        congr 2
        conv_rhs => rw [e, List.take_add]
      · have hcn : n < chunk := by
          have : (n : Int) < (chunk : Int) := by omega
          exact_mod_cast this
        have hrec := ih (t + 1) 0 (file.drop n) (H.update st (file.take n))
          (by omega) (by omega)
        have hne : ¬ (n = 0 ∨ file.length < n) := by omega
        rw [get_filehash_loop]
        simp only [hposI, hint, hc, if_true, if_false, Bool.false_eq_true, Int.toNat_ofNat,
          hne, gt_iff_lt, lt_self_iff_false, sub_self]
        have hrec0 : (get_filehash_loop H W chunk fuel (t + 1) 0 (file.drop n)
            (H.update st (file.take n))).1 = some (H.update (H.update st (file.take n))
              ((file.drop n).take 0)) := by exact_mod_cast hrec
        rw [hrec0]
        simp [hs.update_nil]

theorem sumHash_streaming : sumHash.Streaming where
  update_nil := by intro s; simp [sumHash]
  update_append := by intro s a b; simp [sumHash, Nat.add_assoc]

/-- The value of a first, bounded call of `get_filehash` on a record without
a recorded partial hash, when nothing cuts the call short. -/
theorem get_filehash_first_block (H : XXH64) (hs : H.Streaming) (W : World)
    (chunk t : Nat) (f : file_t) (data : List Byte)
    (hsize : f.size ≠ -1) (hflag : f.F_HASH_PARTIAL = false) (hchunk : 1 ≤ chunk)
    (hopen : W.fopen t f.d_name = some data)
    (hread : (min f.size (PARTIAL_HASH_SIZE : Int)).toNat ≤ data.length)
    (hint : ∀ k, W.interrupt k = false) :
    (get_filehash H W chunk t f PARTIAL_HASH_SIZE).1
      = some (H.onepass (data.take (min f.size (PARTIAL_HASH_SIZE : Int)).toNat)) := by
  have hfs : (if PARTIAL_HASH_SIZE > 0 ∧ f.size > (PARTIAL_HASH_SIZE : Int)
      then (PARTIAL_HASH_SIZE : Int) else f.size) = min f.size (PARTIAL_HASH_SIZE : Int) := by
    simp only [PARTIAL_HASH_SIZE]
    split_ifs with h
    · omega
    · have : ¬ f.size > ((4096 : Nat) : Int) := fun h1 => h ⟨by decide, h1⟩
      omega
  unfold get_filehash
  simp only [hsize, if_false, hflag, Bool.false_eq_true, false_and, hopen, hfs]
  set m : Int := min f.size (PARTIAL_HASH_SIZE : Int) with hm
  by_cases hneg : m ≤ 0
  · have h0 : m.toNat = 0 := Int.toNat_eq_zero.mpr hneg
    have hng : ¬ m > 0 := by omega
    rw [h0]
    simp [get_filehash_loop, hng, XXH64.onepass, hs.update_nil]
  · have hcast : ((m.toNat : Nat) : Int) = m := Int.toNat_of_nonneg (by omega)
    have hl := get_filehash_loop_ok H hs W chunk hchunk hint m.toNat (t + 1) m.toNat data
      H.reset le_rfl hread
    rw [hcast] at hl
    have hsplit : get_filehash_loop H W chunk m.toNat (t + 1) m data H.reset
        = (some (H.update H.reset (data.take m.toNat)),
            (get_filehash_loop H W chunk m.toNat (t + 1) m data H.reset).2) :=
      Prod.ext hl rfl
    rw [hsplit]
    rfl

/-- C3: for a record with a known size and no recorded partial hash, a chunk
size of at least 1, a successful open, enough data for every read and the
interrupt flag clear, `get_filehash (file, PARTIAL_HASH_SIZE)` returns the
one-pass digest of the first `min (size, 4096)` bytes of the file, whatever
the chunk size. -/
theorem get_filehash_partial_digest (H : XXH64) (hs : H.Streaming) (W : World)
    (chunk t : Nat) (f : file_t) (data : List Byte)
    (hsize : f.size ≠ -1) (hflag : f.F_HASH_PARTIAL = false) (hchunk : 1 ≤ chunk)
    (hopen : W.fopen t f.d_name = some data)
    (hread : (min f.size (PARTIAL_HASH_SIZE : Int)).toNat ≤ data.length)
    (hint : ∀ k, W.interrupt k = false) :
    (get_filehash H W chunk t f PARTIAL_HASH_SIZE).1
      = some (H.onepass (data.take (min f.size (PARTIAL_HASH_SIZE : Int)).toNat)) :=
  get_filehash_first_block H hs W chunk t f data hsize hflag hchunk hopen hread hint

/-- Witness of C3 on a three-byte file read in chunks of two bytes. -/
theorem get_filehash_partial_digest_witness :
    (get_filehash sumHash (quietWorld (fun _ => [1, 2, 3])) 2 0
        (mkfile "a" 3 1 1 0 1) PARTIAL_HASH_SIZE).1
      = some (sumHash.onepass
          (([1, 2, 3] : List Byte).take (min (3 : Int) (PARTIAL_HASH_SIZE : Int)).toNat)) :=
  get_filehash_partial_digest sumHash sumHash_streaming (quietWorld (fun _ => [1, 2, 3])) 2 0
    (mkfile "a" 3 1 1 0 1) [1, 2, 3] (by decide) rfl (by decide) rfl (by decide)
    (fun _ => rfl)

/-- What the full hash of a record with a recorded partial hash is: the
stream is positioned after the first `PARTIAL_HASH_SIZE` bytes and fed to a
fresh hash state, so the digest is that of the rest of the file alone. -/
theorem get_filehash_full_after_seek (H : XXH64) (hs : H.Streaming) (W : World)
    (chunk t : Nat) (f : file_t) (data : List Byte)
    (hflag : f.F_HASH_PARTIAL = true) (hsize : f.size > (PARTIAL_HASH_SIZE : Int))
    (hchunk : 1 ≤ chunk) (hopen : W.fopen t f.d_name = some data)
    (hread : f.size.toNat ≤ data.length) (hint : ∀ k, W.interrupt k = false) :
    (get_filehash H W chunk t f 0).1
      = some (H.onepass ((data.drop PARTIAL_HASH_SIZE).take
          (f.size - (PARTIAL_HASH_SIZE : Int)).toNat)) := by
  have hne : f.size ≠ -1 := by simp only [PARTIAL_HASH_SIZE] at hsize; omega
  unfold get_filehash
  simp only [hne, if_false, hflag, hopen, gt_iff_lt, lt_self_iff_false, false_and,
    ne_eq, not_true_eq_false, and_false, if_true]
  set m : Int := f.size - (PARTIAL_HASH_SIZE : Int) with hm
  have hcast : ((m.toNat : Nat) : Int) = m := Int.toNat_of_nonneg (by omega)
  have hlen : m.toNat ≤ (data.drop PARTIAL_HASH_SIZE).length := by
    simp only [List.length_drop]
    simp only [PARTIAL_HASH_SIZE] at hm hsize ⊢
    omega
  have hl := get_filehash_loop_ok H hs W chunk hchunk hint m.toNat (t + 1) m.toNat
    (data.drop PARTIAL_HASH_SIZE) H.reset le_rfl hlen
  rw [hcast] at hl
  have hsplit : get_filehash_loop H W chunk m.toNat (t + 1) m (data.drop PARTIAL_HASH_SIZE)
      H.reset = (some (H.update H.reset ((data.drop PARTIAL_HASH_SIZE).take m.toNat)),
          (get_filehash_loop H W chunk m.toNat (t + 1) m (data.drop PARTIAL_HASH_SIZE)
            H.reset).2) :=
    Prod.ext hl rfl
  rw [hsplit]
  rfl

/-- C2 (the code departs from the claim): on a file of 4097 bytes, 4096 ones
followed by a zero, whose partial hash is recorded, `get_filehash (file, 0)`
returns the digest of the last byte alone (0 for the byte-sum hash), while the
one-pass digest of the whole file is 4096. -/
theorem get_filehash_full_restarts_hash :
    (get_filehash sumHash (quietWorld (fun _ => List.replicate 4096 1 ++ [0])) CHUNK_SIZE 0
        { mkfile "a" 4097 1 1 0 1 with F_HASH_PARTIAL := true, filehash_partial := 4096 } 0).1
      = some 0
    ∧ sumHash.onepass (List.replicate 4096 1 ++ [0]) = 4096 := by
  have hlen : (List.replicate 4096 (1 : Byte)).length = 4096 := List.length_replicate _ _
  have hsum : (List.replicate 4096 (1 : Byte)).sum = 4096 := by
    rw [List.sum_replicate]; rfl
  generalize List.replicate 4096 (1 : Byte) = l at hlen hsum ⊢
  constructor
  · rw [get_filehash_full_after_seek sumHash sumHash_streaming _ CHUNK_SIZE 0 _
      (l ++ [0]) rfl (by simp [mkfile, PARTIAL_HASH_SIZE])
      (by decide) rfl (by simp [mkfile, hlen]) (fun _ => rfl)]
    have hd : (l ++ [0]).drop PARTIAL_HASH_SIZE = [0] := by
      rw [show PARTIAL_HASH_SIZE = l.length from hlen.symm]
      exact List.drop_left _ _
    rw [hd]
    simp [mkfile, PARTIAL_HASH_SIZE, XXH64.onepass, sumHash]
  · simp [XXH64.onepass, sumHash, hsum]

theorem ensure_partial_some (H : XXH64) (W : World) (chunk t : Nat) (f g : file_t) (t1 : Nat)
    (h : ensure_partial H W chunk t f = (some g, t1)) :
    (f.F_HASH_PARTIAL = true ∧ g = f) ∨
    (f.F_HASH_PARTIAL = false ∧
      ∃ v, (get_filehash H W chunk t f PARTIAL_HASH_SIZE).1 = some v ∧
        g = { f with filehash_partial := v, F_HASH_PARTIAL := true }) := by
  unfold ensure_partial at h
  by_cases hp : f.F_HASH_PARTIAL = true
  · left
    simp only [hp, if_true, Prod.mk.injEq, Option.some.injEq] at h
    exact ⟨hp, h.1.symm⟩
  · right
    simp only [hp, if_false, Bool.false_eq_true] at h
    refine ⟨by simpa using hp, ?_⟩
    rcases hg : get_filehash H W chunk t f PARTIAL_HASH_SIZE with ⟨o, t2⟩
    rw [hg] at h
    cases o with
    | none => simp at h
    | some v =>
      simp only [Prod.mk.injEq, Option.some.injEq] at h
      exact ⟨v, rfl, h.1.symm⟩

theorem ensure_full_some (H : XXH64) (W : World) (chunk t : Nat) (f g : file_t) (t1 : Nat)
    (h : ensure_full H W chunk t f = (some g, t1)) :
    (f.F_HASH_FULL = true ∧ g = f) ∨
    (f.F_HASH_FULL = false ∧
      ∃ v, (get_filehash H W chunk t f 0).1 = some v ∧
        g = { f with filehash := v, F_HASH_FULL := true }) := by
  unfold ensure_full at h
  by_cases hp : f.F_HASH_FULL = true
  · left
    simp only [hp, if_true, Prod.mk.injEq, Option.some.injEq] at h
    exact ⟨hp, h.1.symm⟩
  · right
    simp only [hp, if_false, Bool.false_eq_true] at h
    refine ⟨by simpa using hp, ?_⟩
    rcases hg : get_filehash H W chunk t f 0 with ⟨o, t2⟩
    rw [hg] at h
    cases o with
    | none => simp at h
    | some v =>
      simp only [Prod.mk.injEq, Option.some.injEq] at h
      exact ⟨v, rfl, h.1.symm⟩

/-- Case analysis of the data block of `checkmatch`: a property holds of its
outcome as soon as it holds on each of its seven exits. -/
theorem checkmatch_data_cases (flags : Flags) (H : XXH64) (W : World) (chunk t : Nat)
    (tf file : file_t) (P : file_t × file_t × Nat × Option Int → Prop)
    (h1 : ∀ t1, ensure_partial H W chunk t tf = (none, t1) → P (tf, file, t1, none))
    (h2 : ∀ tf1 t1 t2, ensure_partial H W chunk t tf = (some tf1, t1) →
      ensure_partial H W chunk t1 file = (none, t2) → P (tf1, file, t2, none))
    (h3 : ∀ tf1 file1 t1 t2, ensure_partial H W chunk t tf = (some tf1, t1) →
      ensure_partial H W chunk t1 file = (some file1, t2) →
      (file1.size ≤ (PARTIAL_HASH_SIZE : Int) ∨ flags.F_PARTIALONLY = true) →
      P (copy_partial_hash tf1, copy_partial_hash file1, t2,
        some (HASH_COMPARE file1.filehash_partial tf1.filehash_partial)))
    (h4 : ∀ tf1 file1 t1 t2, ensure_partial H W chunk t tf = (some tf1, t1) →
      ensure_partial H W chunk t1 file = (some file1, t2) →
      ¬ (file1.size ≤ (PARTIAL_HASH_SIZE : Int) ∨ flags.F_PARTIALONLY = true) →
      HASH_COMPARE file1.filehash_partial tf1.filehash_partial ≠ 0 →
      P (tf1, file1, t2, some (HASH_COMPARE file1.filehash_partial tf1.filehash_partial)))
    (h5 : ∀ tf1 file1 t1 t2 t3, ensure_partial H W chunk t tf = (some tf1, t1) →
      ensure_partial H W chunk t1 file = (some file1, t2) →
      ¬ (file1.size ≤ (PARTIAL_HASH_SIZE : Int) ∨ flags.F_PARTIALONLY = true) →
      HASH_COMPARE file1.filehash_partial tf1.filehash_partial = 0 →
      ensure_full H W chunk t2 tf1 = (none, t3) → P (tf1, file1, t3, none))
    (h6 : ∀ tf1 file1 tf2 t1 t2 t3 t4, ensure_partial H W chunk t tf = (some tf1, t1) →
      ensure_partial H W chunk t1 file = (some file1, t2) →
      ¬ (file1.size ≤ (PARTIAL_HASH_SIZE : Int) ∨ flags.F_PARTIALONLY = true) →
      HASH_COMPARE file1.filehash_partial tf1.filehash_partial = 0 →
      ensure_full H W chunk t2 tf1 = (some tf2, t3) →
      ensure_full H W chunk t3 file1 = (none, t4) → P (tf2, file1, t4, none))
    (h7 : ∀ tf1 file1 tf2 file2 t1 t2 t3 t4, ensure_partial H W chunk t tf = (some tf1, t1) →
      ensure_partial H W chunk t1 file = (some file1, t2) →
      ¬ (file1.size ≤ (PARTIAL_HASH_SIZE : Int) ∨ flags.F_PARTIALONLY = true) →
      HASH_COMPARE file1.filehash_partial tf1.filehash_partial = 0 →
      ensure_full H W chunk t2 tf1 = (some tf2, t3) →
      ensure_full H W chunk t3 file1 = (some file2, t4) →
      P (tf2, file2, t4, some (HASH_COMPARE file2.filehash tf2.filehash))) :
    P (checkmatch_data flags H W chunk t tf file) := by
  unfold checkmatch_data
  rcases e1 : ensure_partial H W chunk t tf with ⟨o1, t1⟩
  cases o1 with
  | none => exact h1 t1 e1
  | some tf1 =>
    simp only []
    rcases e2 : ensure_partial H W chunk t1 file with ⟨o2, t2⟩
    cases o2 with
    | none => exact h2 tf1 t1 t2 e1 e2
    | some file1 =>
      simp only []
      by_cases hs : file1.size ≤ (PARTIAL_HASH_SIZE : Int) ∨ flags.F_PARTIALONLY = true
      · rw [if_pos hs]
        exact h3 tf1 file1 t1 t2 e1 e2 hs
      · rw [if_neg hs]
        by_cases hc : HASH_COMPARE file1.filehash_partial tf1.filehash_partial = 0
        · rw [if_pos hc]
          rcases e3 : ensure_full H W chunk t2 tf1 with ⟨o3, t3⟩
          cases o3 with
          | none => exact h5 tf1 file1 t1 t2 t3 e1 e2 hs hc e3
          | some tf2 =>
            simp only []
            rcases e4 : ensure_full H W chunk t3 file1 with ⟨o4, t4⟩
            cases o4 with
            | none => exact h6 tf1 file1 tf2 t1 t2 t3 t4 e1 e2 hs hc e3 e4
            | some file2 => exact h7 tf1 file1 tf2 file2 t1 t2 t3 t4 e1 e2 hs hc e3 e4
        · rw [if_neg hc]
          exact h4 tf1 file1 t1 t2 e1 e2 hs hc

/-- Case analysis of one call of `checkmatch` on a node: a property holds of
the result as soon as it holds on each exit of the function body. -/
theorem checkmatch_node_cases (flags : Flags) (H : XXH64) (W : World) (chunk : Nat)
    (tf : file_t) (dups : List file_t) (left right : filetree_t) (file : file_t) (t : Nat)
    (P : checkmatch_result → Prop)
    (hlink : check_conditions flags tf file = 2 →
      P ⟨filetree_t.node tf dups left right, file, t, some []⟩)
    (hrej : check_conditions flags tf file = -2 →
      P ⟨filetree_t.node tf dups left right, file, t, none⟩)
    (hfail : ∀ tf1 file1 t1, check_conditions flags tf file = 0 →
      checkmatch_data flags H W chunk t tf file = (tf1, file1, t1, none) →
      P ⟨filetree_t.node tf1 dups left right, file1, t1, none⟩)
    (hstep : ∀ tf1 file1 t1 cmpresult,
      (check_conditions flags tf file = 0 ∧
          checkmatch_data flags H W chunk t tf file = (tf1, file1, t1, some cmpresult)) ∨
        (check_conditions flags tf file ≠ 0 ∧ check_conditions flags tf file ≠ 2 ∧
          check_conditions flags tf file ≠ -2 ∧ tf1 = tf ∧ file1 = file ∧ t1 = t ∧
          cmpresult = check_conditions flags tf file) →
      (cmpresult < 0 → left = filetree_t.nil →
        P ⟨filetree_t.node tf1 dups (registerfile file1) right, file1, t1, none⟩) ∧
      (cmpresult < 0 → left ≠ filetree_t.nil →
        P ⟨filetree_t.node tf1 dups (checkmatch flags H W chunk left file1 t1).tree right,
          (checkmatch flags H W chunk left file1 t1).file,
          (checkmatch flags H W chunk left file1 t1).t,
          (checkmatch flags H W chunk left file1 t1).result.map
            (fun p => tree_direction.LEFT :: p)⟩) ∧
      (cmpresult > 0 → right = filetree_t.nil →
        P ⟨filetree_t.node tf1 dups left (registerfile file1), file1, t1, none⟩) ∧
      (cmpresult > 0 → right ≠ filetree_t.nil →
        P ⟨filetree_t.node tf1 dups left (checkmatch flags H W chunk right file1 t1).tree,
          (checkmatch flags H W chunk right file1 t1).file,
          (checkmatch flags H W chunk right file1 t1).t,
          (checkmatch flags H W chunk right file1 t1).result.map
            (fun p => tree_direction.RIGHT :: p)⟩) ∧
      (cmpresult = 0 → P ⟨filetree_t.node tf1 dups left right, file1, t1, some []⟩)) :
    P (checkmatch flags H W chunk (filetree_t.node tf dups left right) file t) := by
  rw [checkmatch]
  simp only []
  by_cases h2 : check_conditions flags tf file = 2
  · rw [if_pos h2]; exact hlink h2
  rw [if_neg h2]
  by_cases hm2 : check_conditions flags tf file = -2
  · rw [if_pos hm2]; exact hrej hm2
  rw [if_neg hm2]
  generalize hd : (if check_conditions flags tf file = 0
      then checkmatch_data flags H W chunk t tf file
      else (tf, file, t, some (check_conditions flags tf file))) = d
  rcases d with ⟨tf1, file1, t1, o⟩
  cases o with
  | none =>
    by_cases h0 : check_conditions flags tf file = 0
    · rw [if_pos h0] at hd
      exact hfail tf1 file1 t1 h0 hd
    · rw [if_neg h0] at hd
      simp at hd
  | some cmpresult =>
    have hpre : (check_conditions flags tf file = 0 ∧
        checkmatch_data flags H W chunk t tf file = (tf1, file1, t1, some cmpresult)) ∨
      (check_conditions flags tf file ≠ 0 ∧ check_conditions flags tf file ≠ 2 ∧
        check_conditions flags tf file ≠ -2 ∧ tf1 = tf ∧ file1 = file ∧ t1 = t ∧
        cmpresult = check_conditions flags tf file) := by
      by_cases h0 : check_conditions flags tf file = 0
      · rw [if_pos h0] at hd
        exact Or.inl ⟨h0, hd⟩
      · rw [if_neg h0] at hd
        simp only [Prod.mk.injEq, Option.some.injEq] at hd
        exact Or.inr ⟨h0, h2, hm2, hd.1.symm, hd.2.1.symm, hd.2.2.1.symm, hd.2.2.2.symm⟩
    obtain ⟨a1, a2, a3, a4, a5⟩ := hstep tf1 file1 t1 cmpresult hpre
    simp only []
    by_cases hlt : cmpresult < 0
    · rw [if_pos hlt]
      cases left with
      | nil => exact a1 hlt rfl
      | node f d l r => exact a2 hlt (by simp)
    · rw [if_neg hlt]
      by_cases hgt : cmpresult > 0
      · rw [if_pos hgt]
        cases right with
        | nil => exact a3 hgt rfl
        | node f d l r => exact a4 hgt (by simp)
      · rw [if_neg hgt]
        exact a5 (by omega)

theorem check_conditions_eq_zero (flags : Flags) (f1 f2 : file_t)
    (h : check_conditions flags f1 f2 = 0) :
    ¬ (flags.F_ISOLATE = true ∧ f1.user_order = f2.user_order) ∧
    ¬ (f1.inode = f2.inode ∧ f1.device = f2.device) ∧ f1.size = f2.size := by
  unfold check_conditions at h
  split_ifs at h <;>
    first
    | exact absurd h (by decide)
    | exact ⟨by assumption, by assumption, by omega⟩

theorem check_conditions_eq_two (flags : Flags) (f1 f2 : file_t)
    (h : check_conditions flags f1 f2 = 2) :
    ¬ (flags.F_ISOLATE = true ∧ f1.user_order = f2.user_order) ∧
    (f1.inode = f2.inode ∧ f1.device = f2.device) ∧ flags.F_CONSIDERHARDLINKS = true := by
  unfold check_conditions at h
  split_ifs at h <;>
    first
    | exact absurd h (by decide)
    | exact ⟨by assumption, by assumption, by assumption⟩

theorem ident_of_unhashed {f g : file_t} (h : f.unhashed = g.unhashed) : f.ident = g.ident :=
  show f.unhashed.ident = g.unhashed.ident from congrArg file_t.ident h

theorem ident_d_name {f g : file_t} (h : f.ident = g.ident) : f.d_name = g.d_name :=
  show f.ident.d_name = g.ident.d_name from congrArg file_t.d_name h

theorem ident_inode {f g : file_t} (h : f.ident = g.ident) : f.inode = g.inode :=
  show f.ident.inode = g.ident.inode from congrArg file_t.inode h

theorem ident_device {f g : file_t} (h : f.ident = g.ident) : f.device = g.device :=
  show f.ident.device = g.ident.device from congrArg file_t.device h

theorem ident_user_order {f g : file_t} (h : f.ident = g.ident) :
    f.user_order = g.user_order :=
  show f.ident.user_order = g.ident.user_order from congrArg file_t.user_order h

theorem unhashed_user_order {f g : file_t} (h : f.unhashed = g.unhashed) :
    f.user_order = g.user_order :=
  show f.unhashed.user_order = g.unhashed.user_order from congrArg file_t.user_order h

theorem unhashed_size {f g : file_t} (h : f.unhashed = g.unhashed) : f.size = g.size :=
  show f.unhashed.size = g.unhashed.size from congrArg file_t.size h

theorem unhashed_inode {f g : file_t} (h : f.unhashed = g.unhashed) : f.inode = g.inode :=
  show f.unhashed.inode = g.unhashed.inode from congrArg file_t.inode h

theorem unhashed_device {f g : file_t} (h : f.unhashed = g.unhashed) : f.device = g.device :=
  show f.unhashed.device = g.unhashed.device from congrArg file_t.device h

theorem ensure_partial_unhashed (H : XXH64) (W : World) (chunk t : Nat) (f g : file_t) (t1 : Nat)
    (h : ensure_partial H W chunk t f = (some g, t1)) : g.unhashed = f.unhashed := by
  rcases ensure_partial_some H W chunk t f g t1 h with ⟨_, rfl⟩ | ⟨_, v, _, rfl⟩ <;> rfl

theorem ensure_full_unhashed (H : XXH64) (W : World) (chunk t : Nat) (f g : file_t) (t1 : Nat)
    (h : ensure_full H W chunk t f = (some g, t1)) : g.unhashed = f.unhashed := by
  rcases ensure_full_some H W chunk t f g t1 h with ⟨_, rfl⟩ | ⟨_, v, _, rfl⟩ <;> rfl

theorem copy_partial_hash_unhashed (f : file_t) : (copy_partial_hash f).unhashed = f.unhashed := by
  unfold copy_partial_hash
  split_ifs <;> rfl

/-- The data block of `checkmatch` changes nothing but hash fields. -/
theorem checkmatch_data_unhashed (flags : Flags) (H : XXH64) (W : World) (chunk t : Nat)
    (tf file : file_t) :
    (checkmatch_data flags H W chunk t tf file).1.unhashed = tf.unhashed ∧
    (checkmatch_data flags H W chunk t tf file).2.1.unhashed = file.unhashed := by
  apply checkmatch_data_cases flags H W chunk t tf file
    (fun r => r.1.unhashed = tf.unhashed ∧ r.2.1.unhashed = file.unhashed)
  · intro t1 _; exact ⟨rfl, rfl⟩
  · intro tf1 t1 t2 e1 _; exact ⟨ensure_partial_unhashed _ _ _ _ _ _ _ e1, rfl⟩
  · intro tf1 file1 t1 t2 e1 e2 _
    exact ⟨(copy_partial_hash_unhashed _).trans (ensure_partial_unhashed _ _ _ _ _ _ _ e1),
      (copy_partial_hash_unhashed _).trans (ensure_partial_unhashed _ _ _ _ _ _ _ e2)⟩
  · intro tf1 file1 t1 t2 e1 e2 _ _
    exact ⟨ensure_partial_unhashed _ _ _ _ _ _ _ e1, ensure_partial_unhashed _ _ _ _ _ _ _ e2⟩
  · intro tf1 file1 t1 t2 t3 e1 e2 _ _ _
    exact ⟨ensure_partial_unhashed _ _ _ _ _ _ _ e1, ensure_partial_unhashed _ _ _ _ _ _ _ e2⟩
  · intro tf1 file1 tf2 t1 t2 t3 t4 e1 e2 _ _ e3 _
    exact ⟨(ensure_full_unhashed _ _ _ _ _ _ _ e3).trans (ensure_partial_unhashed _ _ _ _ _ _ _ e1),
      ensure_partial_unhashed _ _ _ _ _ _ _ e2⟩
  · intro tf1 file1 tf2 file2 t1 t2 t3 t4 e1 e2 _ _ e3 e4
    exact ⟨(ensure_full_unhashed _ _ _ _ _ _ _ e3).trans (ensure_partial_unhashed _ _ _ _ _ _ _ e1),
      (ensure_full_unhashed _ _ _ _ _ _ _ e4).trans (ensure_partial_unhashed _ _ _ _ _ _ _ e2)⟩

/-- In either way of reaching the descent of `checkmatch`, the two records
are the given ones up to hash fields. -/
theorem checkmatch_step_unhashed (flags : Flags) (H : XXH64) (W : World) (chunk t : Nat)
    (tf file tf1 file1 : file_t) (t1 : Nat) (cmpresult : Int)
    (h : (check_conditions flags tf file = 0 ∧
          checkmatch_data flags H W chunk t tf file = (tf1, file1, t1, some cmpresult)) ∨
        (check_conditions flags tf file ≠ 0 ∧ check_conditions flags tf file ≠ 2 ∧
          check_conditions flags tf file ≠ -2 ∧ tf1 = tf ∧ file1 = file ∧ t1 = t ∧
          cmpresult = check_conditions flags tf file)) :
    tf1.unhashed = tf.unhashed ∧ file1.unhashed = file.unhashed := by
  rcases h with ⟨_, hd⟩ | ⟨_, _, _, rfl, rfl, _, _⟩
  · have := checkmatch_data_unhashed flags H W chunk t tf file
    rw [hd] at this
    exact this
  · exact ⟨rfl, rfl⟩

/-- The new file leaves `checkmatch` unchanged up to hash fields. -/
theorem checkmatch_file_unhashed (flags : Flags) (H : XXH64) (W : World) (chunk : Nat) :
    ∀ (tree : filetree_t) (file : file_t) (t : Nat),
      (checkmatch flags H W chunk tree file t).file.unhashed = file.unhashed := by
  intro tree
  induction tree with
  | nil => intro file t; rfl
  | node tf dups left right ihl ihr =>
    intro file t
    apply checkmatch_node_cases flags H W chunk tf dups left right file t
      (fun r => r.file.unhashed = file.unhashed)
    · intro _; rfl
    · intro _; rfl
    · intro tf1 file1 t1 _ hd
      have := (checkmatch_data_unhashed flags H W chunk t tf file).2
      rw [hd] at this
      exact this
    · intro tf1 file1 t1 cmpresult hpre
      have hid := (checkmatch_step_unhashed flags H W chunk t tf file tf1 file1 t1 cmpresult hpre).2
      refine ⟨fun _ _ => hid, fun _ _ => (ihl file1 t1).trans hid, fun _ _ => hid,
        fun _ _ => (ihr file1 t1).trans hid, fun _ => hid⟩

/-- C8: when the new file and the node's file have equal inode and device and
neither the isolation nor the permissions filter fires (the one-filesystem
filter cannot, the devices being equal), `checkmatch` returns at once: a MATCH
on that node with consider-hardlinks on, `NULL` with it off; the tree, the new
file with its hash fields, and the clock (no file is opened, so no hash is
computed) are as before, so nothing is inserted and no child is visited. -/
theorem checkmatch_hardlink (flags : Flags) (H : XXH64) (W : World) (chunk : Nat)
    (tf : file_t) (dups : List file_t) (left right : filetree_t) (file : file_t) (t : Nat)
    (hino : tf.inode = file.inode) (hdev : tf.device = file.device)
    (hiso : ¬ (flags.F_ISOLATE = true ∧ tf.user_order = file.user_order))
    (hperm : ¬ (flags.F_PERMISSIONS = true ∧
      (tf.mode ≠ file.mode ∨ tf.uid ≠ file.uid ∨ tf.gid ≠ file.gid))) :
    checkmatch flags H W chunk (filetree_t.node tf dups left right) file t
      = ⟨filetree_t.node tf dups left right, file, t,
          if flags.F_CONSIDERHARDLINKS = true then some [] else none⟩ := by
  have hc : check_conditions flags tf file
      = if flags.F_CONSIDERHARDLINKS = true then 2 else -2 := by
    unfold check_conditions
    rw [if_neg hiso, if_neg (by simp [hdev]), if_neg hperm, if_pos ⟨hino, hdev⟩]
  rw [checkmatch]
  simp only [hc]
  by_cases hH : flags.F_CONSIDERHARDLINKS = true
  · simp [hH]
  · simp [hH]

/-- Witness of C8: two hard links to one inode, consider-hardlinks off. -/
theorem checkmatch_hardlink_witness :
    checkmatch noFlags sumHash (quietWorld (fun _ => [1])) 2
        (filetree_t.node (mkfile "a" 1 7 1 0 1) [] filetree_t.nil filetree_t.nil)
        (mkfile "b" 1 7 1 0 1) 0
      = ⟨filetree_t.node (mkfile "a" 1 7 1 0 1) [] filetree_t.nil filetree_t.nil,
          mkfile "b" 1 7 1 0 1, 0,
          if (false : Bool) = true then some [] else none⟩ :=
  checkmatch_hardlink _ sumHash _ 2 (mkfile "a" 1 7 1 0 1) [] filetree_t.nil filetree_t.nil
    (mkfile "b" 1 7 1 0 1) 0 rfl rfl (by decide) (by decide)

/-- C9: with parameter isolation on, a MATCH returned by `checkmatch` never
points at a node whose file has the `user_order` of the new file, the
hard-link shortcut included. -/
theorem checkmatch_isolate (flags : Flags) (H : XXH64) (W : World) (chunk : Nat)
    (hiso : flags.F_ISOLATE = true) :
    ∀ (tree : filetree_t) (file : file_t) (t : Nat) (p : List tree_direction)
      (g : file_t) (d : List file_t),
      (checkmatch flags H W chunk tree file t).result = some p →
      (checkmatch flags H W chunk tree file t).tree.at p = some (g, d) →
      g.user_order ≠ file.user_order := by
  intro tree
  induction tree with
  | nil => intro file t p g d h; simp [checkmatch] at h
  | node tf dups left right ihl ihr =>
    intro file t
    apply checkmatch_node_cases flags H W chunk tf dups left right file t
      (fun r => ∀ (p : List tree_direction) (g : file_t) (d : List file_t),
        r.result = some p → r.tree.at p = some (g, d) → g.user_order ≠ file.user_order)
    · intro hc p g d hp hat
      simp only [Option.some.injEq] at hp
      subst hp
      simp only [filetree_t.at, Option.some.injEq, Prod.mk.injEq] at hat
      have := (check_conditions_eq_two flags tf file hc).1
      rw [← hat.1]
      exact fun e => this ⟨hiso, e⟩
    · intro _ p g d hp; simp at hp
    · intro tf1 file1 t1 _ _ p g d hp; simp at hp
    · intro tf1 file1 t1 cmpresult hpre
      have hid := checkmatch_step_unhashed flags H W chunk t tf file tf1 file1 t1 cmpresult hpre
      refine ⟨?_, ?_, ?_, ?_, ?_⟩
      · intro _ _ p g d hp; simp at hp
      · intro _ _ p g d hp hat
        simp only [Option.map_eq_some'] at hp
        obtain ⟨q, hq, rfl⟩ := hp
        simp only [filetree_t.at] at hat
        rw [← unhashed_user_order hid.2]
        exact ihl file1 t1 q g d hq hat
      · intro _ _ p g d hp; simp at hp
      · intro _ _ p g d hp hat
        simp only [Option.map_eq_some'] at hp
        obtain ⟨q, hq, rfl⟩ := hp
        simp only [filetree_t.at] at hat
        rw [← unhashed_user_order hid.2]
        exact ihr file1 t1 q g d hq hat
      · intro hz p g d hp hat
        simp only [Option.some.injEq] at hp
        subst hp
        simp only [filetree_t.at, Option.some.injEq, Prod.mk.injEq] at hat
        rcases hpre with ⟨hc, _⟩ | ⟨hne, _, _, _, _, _, hcmp⟩
        · have := (check_conditions_eq_zero flags tf file hc).1
          rw [← hat.1, unhashed_user_order hid.1]
          exact fun e => this ⟨hiso, e⟩
        · exact absurd (hcmp ▸ hz) hne

/-- Witness of C9: a file of another argument with the content of the root's
file matches the root, and the two differ in `user_order`. -/
theorem checkmatch_isolate_witness :
    (checkmatch { noFlags with F_ISOLATE := true } sumHash (quietWorld (fun _ => [1])) 2
        (filetree_t.node (mkfile "a" 1 7 1 0 1) [] filetree_t.nil filetree_t.nil)
        (mkfile "b" 1 8 1 0 2) 0).result = some [] ∧
      ({ mkfile "a" 1 7 1 0 1 with
          filehash_partial := 1, filehash := 1,
          F_HASH_PARTIAL := true, F_HASH_FULL := true } : file_t).user_order
        ≠ (mkfile "b" 1 8 1 0 2).user_order :=
  ⟨by decide,
    checkmatch_isolate { noFlags with F_ISOLATE := true } sumHash (quietWorld (fun _ => [1])) 2
      rfl (filetree_t.node (mkfile "a" 1 7 1 0 1) [] filetree_t.nil filetree_t.nil)
      (mkfile "b" 1 8 1 0 2) 0 [] _ [] (by decide) (by decide)⟩

/-- A property of records that the data block of `checkmatch` preserves is
preserved by `checkmatch` on every file of the tree and on the new file. -/
theorem checkmatch_files_preserve (flags : Flags) (H : XXH64) (W : World) (chunk : Nat)
    (P : file_t → Prop)
    (hdata : ∀ t tf file, P tf → P file → check_conditions flags tf file = 0 →
      P (checkmatch_data flags H W chunk t tf file).1 ∧
      P (checkmatch_data flags H W chunk t tf file).2.1) :
    ∀ (tree : filetree_t) (file : file_t) (t : Nat),
      (∀ f ∈ tree.files, P f) → P file →
      (∀ f ∈ (checkmatch flags H W chunk tree file t).tree.files, P f) ∧
      P (checkmatch flags H W chunk tree file t).file := by
  intro tree
  induction tree with
  | nil => intro file t ht hf; exact ⟨by simp [checkmatch, filetree_t.files], hf⟩
  | node tf dups left right ihl ihr =>
    intro file t ht hf
    have htf : P tf := ht tf (by simp [filetree_t.files])
    have hl : ∀ f ∈ left.files, P f := fun f hm => ht f (by simp [filetree_t.files, hm])
    have hr : ∀ f ∈ right.files, P f := fun f hm => ht f (by simp [filetree_t.files, hm])
    have hnode : ∀ (a : file_t) (l r : filetree_t), P a → (∀ f ∈ l.files, P f) →
        (∀ f ∈ r.files, P f) → ∀ f ∈ (filetree_t.node a dups l r).files, P f := by
      intro a l r ha hl hr f hm
      simp only [filetree_t.files, List.mem_cons, List.mem_append] at hm
      rcases hm with rfl | hm | hm
      · exact ha
      · exact hl f hm
      · exact hr f hm
    apply checkmatch_node_cases flags H W chunk tf dups left right file t
      (fun r => (∀ f ∈ r.tree.files, P f) ∧ P r.file)
    · intro _; exact ⟨ht, hf⟩
    · intro _; exact ⟨ht, hf⟩
    · intro tf1 file1 t1 hc hd
      have := hdata t tf file htf hf hc
      rw [hd] at this
      exact ⟨hnode tf1 left right this.1 hl hr, this.2⟩
    · intro tf1 file1 t1 cmpresult hpre
      have h1 : P tf1 ∧ P file1 := by
        rcases hpre with ⟨hc, hd⟩ | ⟨_, _, _, rfl, rfl, _, _⟩
        · have := hdata t tf file htf hf hc
          rw [hd] at this
          exact this
        · exact ⟨htf, hf⟩
      have hreg : ∀ f ∈ (registerfile file1).files, P f := by
        intro f hm
        simp only [registerfile, filetree_t.files, List.append_nil, List.mem_singleton] at hm
        exact hm ▸ h1.2
      refine ⟨?_, ?_, ?_, ?_, ?_⟩
      · intro _ _; exact ⟨hnode tf1 _ right h1.1 hreg hr, h1.2⟩
      · intro _ _
        have := ihl file1 t1 hl h1.2
        exact ⟨hnode tf1 _ right h1.1 this.1 hr, this.2⟩
      · intro _ _; exact ⟨hnode tf1 left _ h1.1 hl hreg, h1.2⟩
      · intro _ _
        have := ihr file1 t1 hr h1.2
        exact ⟨hnode tf1 left _ h1.1 hl this.1, this.2⟩
      · intro _; exact ⟨hnode tf1 left right h1.1 hl hr, h1.2⟩

theorem ensure_partial_fip (H : XXH64) (W : World) (chunk t : Nat) (f g : file_t) (t1 : Nat)
    (h : ensure_partial H W chunk t f = (some g, t1)) (hf : full_implies_partial f) :
    full_implies_partial g ∧ g.F_HASH_PARTIAL = true := by
  rcases ensure_partial_some H W chunk t f g t1 h with ⟨hp, rfl⟩ | ⟨_, v, _, rfl⟩
  · exact ⟨hf, hp⟩
  · exact ⟨fun _ => rfl, rfl⟩

theorem ensure_full_fip (H : XXH64) (W : World) (chunk t : Nat) (f g : file_t) (t1 : Nat)
    (h : ensure_full H W chunk t f = (some g, t1)) (hf : f.F_HASH_PARTIAL = true) :
    full_implies_partial g ∧ g.F_HASH_PARTIAL = true := by
  rcases ensure_full_some H W chunk t f g t1 h with ⟨_, rfl⟩ | ⟨_, v, _, rfl⟩
  · exact ⟨fun _ => hf, hf⟩
  · exact ⟨fun _ => hf, hf⟩

theorem copy_partial_hash_fip (f : file_t) (hf : f.F_HASH_PARTIAL = true) :
    full_implies_partial (copy_partial_hash f) := by
  unfold copy_partial_hash
  split_ifs
  · exact fun _ => hf
  · exact fun _ => hf

theorem checkmatch_data_fip (flags : Flags) (H : XXH64) (W : World) (chunk t : Nat)
    (tf file : file_t) (htf : full_implies_partial tf) (hf : full_implies_partial file) :
    full_implies_partial (checkmatch_data flags H W chunk t tf file).1 ∧
    full_implies_partial (checkmatch_data flags H W chunk t tf file).2.1 := by
  apply checkmatch_data_cases flags H W chunk t tf file
    (fun r => full_implies_partial r.1 ∧ full_implies_partial r.2.1)
  · intro t1 _; exact ⟨htf, hf⟩
  · intro tf1 t1 t2 e1 _; exact ⟨(ensure_partial_fip _ _ _ _ _ _ _ e1 htf).1, hf⟩
  · intro tf1 file1 t1 t2 e1 e2 _
    exact ⟨copy_partial_hash_fip _ (ensure_partial_fip _ _ _ _ _ _ _ e1 htf).2,
      copy_partial_hash_fip _ (ensure_partial_fip _ _ _ _ _ _ _ e2 hf).2⟩
  · intro tf1 file1 t1 t2 e1 e2 _ _
    exact ⟨(ensure_partial_fip _ _ _ _ _ _ _ e1 htf).1, (ensure_partial_fip _ _ _ _ _ _ _ e2 hf).1⟩
  · intro tf1 file1 t1 t2 t3 e1 e2 _ _ _
    exact ⟨(ensure_partial_fip _ _ _ _ _ _ _ e1 htf).1, (ensure_partial_fip _ _ _ _ _ _ _ e2 hf).1⟩
  · intro tf1 file1 tf2 t1 t2 t3 t4 e1 e2 _ _ e3 _
    exact ⟨(ensure_full_fip _ _ _ _ _ _ _ e3 (ensure_partial_fip _ _ _ _ _ _ _ e1 htf).2).1,
      (ensure_partial_fip _ _ _ _ _ _ _ e2 hf).1⟩
  · intro tf1 file1 tf2 file2 t1 t2 t3 t4 e1 e2 _ _ e3 e4
    exact ⟨(ensure_full_fip _ _ _ _ _ _ _ e3 (ensure_partial_fip _ _ _ _ _ _ _ e1 htf).2).1,
      (ensure_full_fip _ _ _ _ _ _ _ e4 (ensure_partial_fip _ _ _ _ _ _ _ e2 hf).2).1⟩

/-- C15: `checkmatch` preserves `HASH_FULL ⇒ HASH_PARTIAL`: if it holds of
the new file and of the file of every tree node before a call, it holds of all
of them after the call, whatever the return path. -/
theorem checkmatch_full_implies_partial (flags : Flags) (H : XXH64) (W : World) (chunk : Nat)
    (tree : filetree_t) (file : file_t) (t : Nat)
    (htree : ∀ f ∈ tree.files, full_implies_partial f) (hfile : full_implies_partial file) :
    (∀ f ∈ (checkmatch flags H W chunk tree file t).tree.files, full_implies_partial f) ∧
    full_implies_partial (checkmatch flags H W chunk tree file t).file :=
  checkmatch_files_preserve flags H W chunk full_implies_partial
    (fun t tf file htf hf _ => checkmatch_data_fip flags H W chunk t tf file htf hf)
    tree file t htree hfile

/-- Witness of C15: a fresh file checked against a one-node tree. -/
theorem checkmatch_full_implies_partial_witness :
    (∀ f ∈ (checkmatch noFlags sumHash (quietWorld (fun _ => [1])) 2
        (filetree_t.node (mkfile "a" 1 7 1 0 1) [] filetree_t.nil filetree_t.nil)
        (mkfile "b" 1 8 1 0 2) 0).tree.files, full_implies_partial f) ∧
    full_implies_partial (checkmatch noFlags sumHash (quietWorld (fun _ => [1])) 2
        (filetree_t.node (mkfile "a" 1 7 1 0 1) [] filetree_t.nil filetree_t.nil)
        (mkfile "b" 1 8 1 0 2) 0).file :=
  checkmatch_full_implies_partial noFlags sumHash (quietWorld (fun _ => [1])) 2
    (filetree_t.node (mkfile "a" 1 7 1 0 1) [] filetree_t.nil filetree_t.nil)
    (mkfile "b" 1 8 1 0 2) 0
    (by intro f hf
        simp only [filetree_t.files, List.append_nil, List.mem_singleton] at hf
        subst hf
        intro h
        exact absurd h (by decide))
    (by intro h; exact absurd h (by decide))

theorem HASH_COMPARE_eq_zero (a b : Nat) : HASH_COMPARE a b = 0 ↔ a = b := by
  unfold HASH_COMPARE
  split_ifs with h1 h2
  · constructor
    · intro h; exact absurd h (by decide)
    · intro h; omega
  · exact ⟨fun _ => h2, fun _ => rfl⟩
  · constructor
    · intro h; exact absurd h (by decide)
    · intro h; exact absurd h h2

theorem ensure_partial_coh (flags : Flags) (H : XXH64) (W : World) (chunk t : Nat)
    (f g : file_t) (t1 : Nat) (h : ensure_partial H W chunk t f = (some g, t1))
    (hf : hash_coherent flags f) : hash_coherent flags g ∧ g.F_HASH_PARTIAL = true := by
  rcases ensure_partial_some H W chunk t f g t1 h with ⟨hp, rfl⟩ | ⟨hp, v, _, rfl⟩
  · exact ⟨hf, hp⟩
  · have hfull : f.F_HASH_FULL = false := by
      cases hF : f.F_HASH_FULL with
      | false => rfl
      | true => rw [hf.1 hF] at hp; exact absurd hp (by decide)
    refine ⟨⟨fun _ => rfl, fun h1 _ => ?_⟩, rfl⟩
    exact absurd (show f.F_HASH_FULL = true from h1) (by simp [hfull])

theorem ensure_full_coh (flags : Flags) (H : XXH64) (W : World) (chunk t : Nat)
    (f g : file_t) (t1 : Nat) (h : ensure_full H W chunk t f = (some g, t1))
    (hf : hash_coherent flags f) (hp : f.F_HASH_PARTIAL = true)
    (hbig : ¬ (f.size ≤ (PARTIAL_HASH_SIZE : Int) ∨ flags.F_PARTIALONLY = true)) :
    hash_coherent flags g ∧ g.F_HASH_FULL = true ∧ g.F_HASH_PARTIAL = true ∧
      g.filehash_partial = f.filehash_partial := by
  rcases ensure_full_some H W chunk t f g t1 h with ⟨hF, rfl⟩ | ⟨_, v, _, rfl⟩
  · exact ⟨hf, hF, hp, rfl⟩
  · exact ⟨⟨fun _ => hp, fun _ hs => absurd hs hbig⟩, rfl, hp, rfl⟩

theorem copy_partial_hash_coh (flags : Flags) (f : file_t) (hf : hash_coherent flags f)
    (hp : f.F_HASH_PARTIAL = true)
    (hsmall : f.size ≤ (PARTIAL_HASH_SIZE : Int) ∨ flags.F_PARTIALONLY = true) :
    hash_coherent flags (copy_partial_hash f) ∧ (copy_partial_hash f).F_HASH_FULL = true ∧
      (copy_partial_hash f).F_HASH_PARTIAL = true ∧
      (copy_partial_hash f).filehash = f.filehash_partial ∧
      file_t.filehash_partial (copy_partial_hash f) = f.filehash_partial := by
  unfold copy_partial_hash
  by_cases hF : f.F_HASH_FULL = true
  · rw [if_pos hF]
    exact ⟨hf, hF, hp, hf.2 hF hsmall, rfl⟩
  · rw [if_neg hF]
    exact ⟨⟨fun _ => hp, fun _ _ => rfl⟩, rfl, hp, rfl, rfl⟩

/-- The data block of `checkmatch` keeps the hash fields coherent, and when it
ends with `cmpresult == 0` both records carry both hashes, pairwise equal. -/
theorem checkmatch_data_coh (flags : Flags) (H : XXH64) (W : World) (chunk t : Nat)
    (tf file : file_t) (htf : hash_coherent flags tf) (hf : hash_coherent flags file)
    (hsz : tf.size = file.size) :
    hash_coherent flags (checkmatch_data flags H W chunk t tf file).1 ∧
    hash_coherent flags (checkmatch_data flags H W chunk t tf file).2.1 ∧
    ((checkmatch_data flags H W chunk t tf file).2.2.2 = some 0 →
      (checkmatch_data flags H W chunk t tf file).1.F_HASH_PARTIAL = true ∧
      (checkmatch_data flags H W chunk t tf file).2.1.F_HASH_PARTIAL = true ∧
      (checkmatch_data flags H W chunk t tf file).1.F_HASH_FULL = true ∧
      (checkmatch_data flags H W chunk t tf file).2.1.F_HASH_FULL = true ∧
      file_t.filehash_partial (checkmatch_data flags H W chunk t tf file).2.1
        = file_t.filehash_partial (checkmatch_data flags H W chunk t tf file).1 ∧
      (checkmatch_data flags H W chunk t tf file).2.1.filehash
        = (checkmatch_data flags H W chunk t tf file).1.filehash) := by
  apply checkmatch_data_cases flags H W chunk t tf file
    (fun r => hash_coherent flags r.1 ∧ hash_coherent flags r.2.1 ∧
      (r.2.2.2 = some 0 →
        r.1.F_HASH_PARTIAL = true ∧ r.2.1.F_HASH_PARTIAL = true ∧
        r.1.F_HASH_FULL = true ∧ r.2.1.F_HASH_FULL = true ∧
        file_t.filehash_partial r.2.1 = file_t.filehash_partial r.1 ∧
        r.2.1.filehash = r.1.filehash))
  · intro t1 _; exact ⟨htf, hf, fun h => by simp at h⟩
  · intro tf1 t1 t2 e1 _
    exact ⟨(ensure_partial_coh flags _ _ _ _ _ _ _ e1 htf).1, hf, fun h => by simp at h⟩
  · intro tf1 file1 t1 t2 e1 e2 hs
    obtain ⟨c1, p1⟩ := ensure_partial_coh flags _ _ _ _ _ _ _ e1 htf
    obtain ⟨c2, p2⟩ := ensure_partial_coh flags _ _ _ _ _ _ _ e2 hf
    have hsz1 : tf1.size = file1.size := by
      rw [unhashed_size (ensure_partial_unhashed _ _ _ _ _ _ _ e1),
        unhashed_size (ensure_partial_unhashed _ _ _ _ _ _ _ e2), hsz]
    obtain ⟨a1, a2, a3, a4, a5⟩ := copy_partial_hash_coh flags tf1 c1 p1 (by rw [hsz1]; exact hs)
    obtain ⟨b1, b2, b3, b4, b5⟩ := copy_partial_hash_coh flags file1 c2 p2 hs
    refine ⟨a1, b1, fun h => ?_⟩
    simp only [Option.some.injEq] at h
    have hpe := (HASH_COMPARE_eq_zero _ _).1 h
    exact ⟨a3, b3, a2, b2, by rw [b5, a5, hpe], by rw [b4, a4, hpe]⟩
  · intro tf1 file1 t1 t2 e1 e2 _ hne
    exact ⟨(ensure_partial_coh flags _ _ _ _ _ _ _ e1 htf).1,
      (ensure_partial_coh flags _ _ _ _ _ _ _ e2 hf).1,
      fun h => absurd (Option.some.inj h) hne⟩
  · intro tf1 file1 t1 t2 t3 e1 e2 _ _ _
    exact ⟨(ensure_partial_coh flags _ _ _ _ _ _ _ e1 htf).1,
      (ensure_partial_coh flags _ _ _ _ _ _ _ e2 hf).1, fun h => by simp at h⟩
  · intro tf1 file1 tf2 t1 t2 t3 t4 e1 e2 hs _ e3 _
    obtain ⟨c1, p1⟩ := ensure_partial_coh flags _ _ _ _ _ _ _ e1 htf
    have hsz1 : tf1.size = file1.size := by
      rw [unhashed_size (ensure_partial_unhashed _ _ _ _ _ _ _ e1),
        unhashed_size (ensure_partial_unhashed _ _ _ _ _ _ _ e2), hsz]
    exact ⟨(ensure_full_coh flags _ _ _ _ _ _ _ e3 c1 p1 (by rw [hsz1]; exact hs)).1,
      (ensure_partial_coh flags _ _ _ _ _ _ _ e2 hf).1, fun h => by simp at h⟩
  · intro tf1 file1 tf2 file2 t1 t2 t3 t4 e1 e2 hs hpc e3 e4
    obtain ⟨c1, p1⟩ := ensure_partial_coh flags _ _ _ _ _ _ _ e1 htf
    obtain ⟨c2, p2⟩ := ensure_partial_coh flags _ _ _ _ _ _ _ e2 hf
    have hsz1 : tf1.size = file1.size := by
      rw [unhashed_size (ensure_partial_unhashed _ _ _ _ _ _ _ e1),
        unhashed_size (ensure_partial_unhashed _ _ _ _ _ _ _ e2), hsz]
    obtain ⟨a1, a2, a3, a4⟩ := ensure_full_coh flags _ _ _ _ _ _ _ e3 c1 p1
      (by rw [hsz1]; exact hs)
    obtain ⟨b1, b2, b3, b4⟩ := ensure_full_coh flags _ _ _ _ _ _ _ e4 c2 p2 hs
    refine ⟨a1, b1, fun h => ?_⟩
    simp only [Option.some.injEq] at h
    exact ⟨a3, b3, a2, b2, by rw [b4, a4]; exact (HASH_COMPARE_eq_zero _ _).1 hpc,
      (HASH_COMPARE_eq_zero _ _).1 h⟩

/-- C7: on records in the state `checkmatch` itself maintains (`hash_coherent`:
true of fresh records and preserved by every call), a MATCH pointing at the
file `g` of a tree node for the new file is either the hard-link shortcut (same
inode and device, consider-hardlinks on) or a hash match: equal sizes, both
records carrying `HASH_PARTIAL` and `HASH_FULL`, equal partial hashes and equal
full hashes. -/
theorem checkmatch_match_sound (flags : Flags) (H : XXH64) (W : World) (chunk : Nat) :
    ∀ (tree : filetree_t) (file : file_t) (t : Nat) (p : List tree_direction)
      (g : file_t) (d : List file_t),
      (∀ f ∈ tree.files, hash_coherent flags f) → hash_coherent flags file →
      (checkmatch flags H W chunk tree file t).result = some p →
      (checkmatch flags H W chunk tree file t).tree.at p = some (g, d) →
      (g.inode = (checkmatch flags H W chunk tree file t).file.inode ∧
        g.device = (checkmatch flags H W chunk tree file t).file.device ∧
        flags.F_CONSIDERHARDLINKS = true) ∨
      (g.size = (checkmatch flags H W chunk tree file t).file.size ∧
        g.F_HASH_PARTIAL = true ∧
        (checkmatch flags H W chunk tree file t).file.F_HASH_PARTIAL = true ∧
        g.F_HASH_FULL = true ∧
        (checkmatch flags H W chunk tree file t).file.F_HASH_FULL = true ∧
        (checkmatch flags H W chunk tree file t).file.filehash_partial = g.filehash_partial ∧
        (checkmatch flags H W chunk tree file t).file.filehash = g.filehash) := by
  intro tree
  induction tree with
  | nil => intro file t p g d _ _ h; simp [checkmatch] at h
  | node tf dups left right ihl ihr =>
    intro file t p g d ht hf
    have htf : hash_coherent flags tf := ht tf (by simp [filetree_t.files])
    have hl : ∀ f ∈ left.files, hash_coherent flags f :=
      fun f hm => ht f (by simp [filetree_t.files, hm])
    have hr : ∀ f ∈ right.files, hash_coherent flags f :=
      fun f hm => ht f (by simp [filetree_t.files, hm])
    revert p g d
    apply checkmatch_node_cases flags H W chunk tf dups left right file t
      (fun r => ∀ (p : List tree_direction) (g : file_t) (d : List file_t),
        r.result = some p → r.tree.at p = some (g, d) →
        (g.inode = r.file.inode ∧ g.device = r.file.device ∧
          flags.F_CONSIDERHARDLINKS = true) ∨
        (g.size = r.file.size ∧ g.F_HASH_PARTIAL = true ∧ r.file.F_HASH_PARTIAL = true ∧
          g.F_HASH_FULL = true ∧ r.file.F_HASH_FULL = true ∧
          r.file.filehash_partial = g.filehash_partial ∧ r.file.filehash = g.filehash))
    · intro hc p g d hp hat
      simp only [Option.some.injEq] at hp
      subst hp
      simp only [filetree_t.at, Option.some.injEq, Prod.mk.injEq] at hat
      obtain ⟨_, ⟨hi, hd⟩, hH⟩ := check_conditions_eq_two flags tf file hc
      rw [← hat.1]
      exact Or.inl ⟨hi, hd, hH⟩
    · intro _ p g d hp; simp at hp
    · intro tf1 file1 t1 _ _ p g d hp; simp at hp
    · intro tf1 file1 t1 cmpresult hpre
      have hcoh : hash_coherent flags tf1 ∧ hash_coherent flags file1 := by
        rcases hpre with ⟨hc, hd⟩ | ⟨_, _, _, rfl, rfl, _, _⟩
        · have := checkmatch_data_coh flags H W chunk t tf file htf hf
            (check_conditions_eq_zero flags tf file hc).2.2
          rw [hd] at this
          exact ⟨this.1, this.2.1⟩
        · exact ⟨htf, hf⟩
      refine ⟨?_, ?_, ?_, ?_, ?_⟩
      · intro _ _ p g d hp; simp at hp
      · intro _ _ p g d hp hat
        simp only [Option.map_eq_some'] at hp
        obtain ⟨q, hq, rfl⟩ := hp
        simp only [filetree_t.at] at hat
        exact ihl file1 t1 q g d hl hcoh.2 hq hat
      · intro _ _ p g d hp; simp at hp
      · intro _ _ p g d hp hat
        simp only [Option.map_eq_some'] at hp
        obtain ⟨q, hq, rfl⟩ := hp
        simp only [filetree_t.at] at hat
        exact ihr file1 t1 q g d hr hcoh.2 hq hat
      · intro hz p g d hp hat
        simp only [Option.some.injEq] at hp
        subst hp
        simp only [filetree_t.at, Option.some.injEq, Prod.mk.injEq] at hat
        rcases hpre with ⟨hc, hd⟩ | ⟨hne, _, _, _, _, _, hcmp⟩
        · have hsz := (check_conditions_eq_zero flags tf file hc).2.2
          have := checkmatch_data_coh flags H W chunk t tf file htf hf hsz
          have hid := checkmatch_data_unhashed flags H W chunk t tf file
          rw [hd] at this hid
          obtain ⟨q1, q2, q3, q4, q5, q6⟩ := this.2.2 (by rw [hz])
          rw [← hat.1]
          refine Or.inr ⟨?_, q1, q2, q3, q4, q5, q6⟩
          show tf1.size = file1.size
          rw [unhashed_size hid.1, unhashed_size hid.2, hsz]
        · exact absurd (hcmp ▸ hz) hne

/-- A record without recorded hashes is coherent. -/
theorem hash_coherent_fresh (flags : Flags) (f : file_t) (h : f.F_HASH_FULL = false) :
    hash_coherent flags f :=
  ⟨fun h1 => by rw [h] at h1; exact absurd h1 (by decide),
   fun h1 => by rw [h] at h1; exact absurd h1 (by decide)⟩

/-- Coherence of the hash fields is preserved by `checkmatch`. -/
theorem checkmatch_hash_coherent (flags : Flags) (H : XXH64) (W : World) (chunk : Nat)
    (tree : filetree_t) (file : file_t) (t : Nat)
    (htree : ∀ f ∈ tree.files, hash_coherent flags f) (hfile : hash_coherent flags file) :
    (∀ f ∈ (checkmatch flags H W chunk tree file t).tree.files, hash_coherent flags f) ∧
    hash_coherent flags (checkmatch flags H W chunk tree file t).file :=
  checkmatch_files_preserve flags H W chunk (hash_coherent flags)
    (fun t tf file htf hf hc =>
      ⟨(checkmatch_data_coh flags H W chunk t tf file htf hf
          (check_conditions_eq_zero flags tf file hc).2.2).1,
        (checkmatch_data_coh flags H W chunk t tf file htf hf
          (check_conditions_eq_zero flags tf file hc).2.2).2.1⟩)
    tree file t htree hfile

/-- Witness of C7: `fileB` matches the root `fileA` by its hashes. -/
theorem checkmatch_match_sound_witness :
    ((hashed fileA 1).inode
        = (checkmatch noFlags sumHash (quietWorld (fun _ => [1])) 2 treeA fileB 0).file.inode ∧
      (hashed fileA 1).device
        = (checkmatch noFlags sumHash (quietWorld (fun _ => [1])) 2 treeA fileB 0).file.device ∧
      noFlags.F_CONSIDERHARDLINKS = true) ∨
    ((hashed fileA 1).size
        = (checkmatch noFlags sumHash (quietWorld (fun _ => [1])) 2 treeA fileB 0).file.size ∧
      (hashed fileA 1).F_HASH_PARTIAL = true ∧
      (checkmatch noFlags sumHash (quietWorld (fun _ => [1])) 2 treeA fileB 0).file.F_HASH_PARTIAL
        = true ∧
      (hashed fileA 1).F_HASH_FULL = true ∧
      (checkmatch noFlags sumHash (quietWorld (fun _ => [1])) 2 treeA fileB 0).file.F_HASH_FULL
        = true ∧
      (checkmatch noFlags sumHash (quietWorld (fun _ => [1])) 2 treeA fileB 0).file.filehash_partial
        = file_t.filehash_partial (hashed fileA 1) ∧
      (checkmatch noFlags sumHash (quietWorld (fun _ => [1])) 2 treeA fileB 0).file.filehash
        = (hashed fileA 1).filehash) :=
  checkmatch_match_sound noFlags sumHash (quietWorld (fun _ => [1])) 2 treeA fileB 0 []
    (hashed fileA 1) []
    (by intro f hf
        simp only [treeA, filetree_t.files, List.append_nil, List.mem_singleton] at hf
        subst hf
        exact hash_coherent_fresh _ _ rfl)
    (hash_coherent_fresh _ _ rfl) (by decide) (by decide)

theorem registerpair_loop_le (comparef : file_t → file_t → Int) (newmatch a : file_t)
    (b : Bool) (rest : List file_t) (h : comparef newmatch a ≤ 0) :
    registerpair_loop comparef newmatch b (a :: rest)
      = if b then
          { newmatch with F_HAS_DUPES := true } :: { a with F_HAS_DUPES := false } :: rest
        else newmatch :: a :: rest := by
  cases rest <;> simp [registerpair_loop, h]

theorem registerpair_loop_last (comparef : file_t → file_t → Int) (newmatch a : file_t)
    (b : Bool) (h : ¬ comparef newmatch a ≤ 0) :
    registerpair_loop comparef newmatch b [a]
      = [if b then { a with F_HAS_DUPES := true } else a, newmatch] := by
  simp [registerpair_loop, h]

theorem registerpair_loop_next (comparef : file_t → file_t → Int) (newmatch a c : file_t)
    (b : Bool) (rest : List file_t) (h : ¬ comparef newmatch a ≤ 0) :
    registerpair_loop comparef newmatch b (a :: c :: rest)
      = a :: registerpair_loop comparef newmatch false (c :: rest) := by
  rw [registerpair_loop]
  simp [h]

theorem registerpair_loop_false_flags (comparef : file_t → file_t → Int) (newmatch : file_t)
    (hn : newmatch.F_HAS_DUPES = false) :
    ∀ chain : List file_t, (∀ x ∈ chain, x.F_HAS_DUPES = false) →
      ∀ x ∈ registerpair_loop comparef newmatch false chain, x.F_HAS_DUPES = false := by
  intro chain
  induction chain with
  | nil => intro _ x hx; simp [registerpair_loop] at hx
  | cons a rest ih =>
    intro hc x hx
    by_cases hle : comparef newmatch a ≤ 0
    · rw [registerpair_loop_le _ _ _ _ _ hle] at hx
      simp only [Bool.false_eq_true, if_false, List.mem_cons] at hx
      rcases hx with rfl | rfl | hx
      · exact hn
      · exact hc _ (by simp)
      · exact hc _ (by simp [hx])
    · cases rest with
      | nil =>
        rw [registerpair_loop_last _ _ _ _ hle] at hx
        simp only [Bool.false_eq_true, if_false, List.mem_cons, List.mem_singleton,
          List.not_mem_nil, or_false] at hx
        rcases hx with rfl | rfl
        · exact hc _ (by simp)
        · exact hn
      | cons b rest2 =>
        rw [registerpair_loop_next _ _ _ _ _ _ hle] at hx
        simp only [List.mem_cons] at hx
        rcases hx with rfl | hx
        · exact hc _ (by simp)
        · exact ih (fun y hy => hc y (List.mem_cons_of_mem _ hy)) x (by simpa using hx)

/-- One `registerpair` call leaves `F_HAS_DUPES` set on the head of the chain
and clear on every other member, when it was clear on the members behind the
old head and on the new record. -/
theorem registerpair_flags (comparef : file_t → file_t → Int) (newmatch h : file_t)
    (rest : List file_t) (hn : newmatch.F_HAS_DUPES = false)
    (hrest : ∀ x ∈ rest, x.F_HAS_DUPES = false) :
    ∃ hd tl, registerpair (h :: rest) newmatch comparef = hd :: tl ∧
      hd.F_HAS_DUPES = true ∧ ∀ x ∈ tl, x.F_HAS_DUPES = false := by
  unfold registerpair
  simp only []
  by_cases hle : comparef newmatch { h with F_HAS_DUPES := true } ≤ 0
  · rw [registerpair_loop_le _ _ _ _ _ hle]
    simp only [if_true]
    refine ⟨_, _, rfl, rfl, ?_⟩
    intro x hx
    simp only [List.mem_cons] at hx
    rcases hx with rfl | hx
    · rfl
    · exact hrest x hx
  · cases rest with
    | nil =>
      rw [registerpair_loop_last _ _ _ _ hle]
      simp only [if_true]
      refine ⟨_, _, rfl, rfl, ?_⟩
      intro x hx
      simp only [List.mem_singleton] at hx
      exact hx ▸ hn
    | cons b rest2 =>
      rw [registerpair_loop_next _ _ _ _ _ _ hle]
      refine ⟨_, _, rfl, rfl, ?_⟩
      exact registerpair_loop_false_flags comparef newmatch hn _ hrest

/-- C6: starting from a chain of one record, after every non-empty sequence
of `registerpair` calls that register records whose `F_HAS_DUPES` is clear,
`F_HAS_DUPES` is set on the head of the chain and on no other member. -/
theorem registerpairs_has_dupes (comparef : file_t → file_t → Int) (h n : file_t)
    (news : List file_t)
    (hnews : ∀ x ∈ n :: news, x.F_HAS_DUPES = false) :
    ∃ hd tl, registerpairs comparef [h] (n :: news) = hd :: tl ∧
      hd.F_HAS_DUPES = true ∧ ∀ x ∈ tl, x.F_HAS_DUPES = false := by
  have key : ∀ (news : List file_t) (c : List file_t),
      (∀ x ∈ news, x.F_HAS_DUPES = false) →
      (∃ hd tl, c = hd :: tl ∧ hd.F_HAS_DUPES = true ∧ ∀ x ∈ tl, x.F_HAS_DUPES = false) →
      ∃ hd tl, registerpairs comparef c news = hd :: tl ∧
        hd.F_HAS_DUPES = true ∧ ∀ x ∈ tl, x.F_HAS_DUPES = false := by
    intro news
    induction news with
    | nil => intro c _ hc; exact hc
    | cons m ms ih =>
      intro c hms hc
      obtain ⟨hd, tl, rfl, _, htl⟩ := hc
      have := registerpair_flags comparef m hd tl (hms m (by simp)) htl
      exact ih _ (fun x hx => hms x (List.mem_cons_of_mem _ hx)) this
  have h1 := registerpair_flags comparef n h [] (hnews n (by simp)) (by simp)
  exact key news _ (fun x hx => hnews x (List.mem_cons_of_mem _ hx)) h1

/-- Witness of C6: two records registered on the chain of `fileA`. -/
theorem registerpairs_has_dupes_witness :
    ∃ hd tl, registerpairs (sort_pairs_by_mtime noFlags 1) [fileA]
        (fileB :: [mkfile "c" 1 9 1 (-1) 2]) = hd :: tl ∧
      hd.F_HAS_DUPES = true ∧ ∀ x ∈ tl, x.F_HAS_DUPES = false :=
  registerpairs_has_dupes (sort_pairs_by_mtime noFlags 1) fileA fileB [mkfile "c" 1 9 1 (-1) 2]
    (by decide)

theorem registerpair_loop_false_mem (comparef : file_t → file_t → Int) (newmatch : file_t) :
    ∀ (chain : List file_t) (x : file_t),
      x ∈ registerpair_loop comparef newmatch false chain → x ∈ chain ∨ x = newmatch := by
  intro chain
  induction chain with
  | nil => intro x hx; simp [registerpair_loop] at hx
  | cons a rest ih =>
    intro x hx
    by_cases hle : comparef newmatch a ≤ 0
    · rw [registerpair_loop_le _ _ _ _ _ hle] at hx
      simp only [Bool.false_eq_true, if_false, List.mem_cons] at hx
      rcases hx with rfl | rfl | hx
      · exact Or.inr rfl
      · exact Or.inl (by simp)
      · exact Or.inl (by simp [hx])
    · cases rest with
      | nil =>
        rw [registerpair_loop_last _ _ _ _ hle] at hx
        simp only [Bool.false_eq_true, if_false, List.mem_cons, List.not_mem_nil,
          or_false] at hx
        rcases hx with rfl | rfl
        · exact Or.inl (by simp)
        · exact Or.inr rfl
      | cons b rest2 =>
        rw [registerpair_loop_next _ _ _ _ _ _ hle] at hx
        simp only [List.mem_cons] at hx
        rcases hx with rfl | hx
        · exact Or.inl (by simp)
        · rcases ih x hx with h | h
          · exact Or.inl (List.mem_cons_of_mem _ h)
          · exact Or.inr h

theorem registerpair_loop_false_sorted (comparef : file_t → file_t → Int) (newmatch : file_t)
    (htot : ∀ a b, ¬ comparef a b ≤ 0 → comparef b a ≤ 0)
    (htrans : ∀ a b c, comparef a b ≤ 0 → comparef b c ≤ 0 → comparef a c ≤ 0) :
    ∀ chain : List file_t, chain.Pairwise (fun a b => comparef a b ≤ 0) →
      (registerpair_loop comparef newmatch false chain).Pairwise
        (fun a b => comparef a b ≤ 0) := by
  intro chain
  induction chain with
  | nil => intro _; simp [registerpair_loop]
  | cons a rest ih =>
    intro hc
    rw [List.pairwise_cons] at hc
    by_cases hle : comparef newmatch a ≤ 0
    · rw [registerpair_loop_le _ _ _ _ _ hle]
      simp only [Bool.false_eq_true, if_false]
      refine List.pairwise_cons.2 ⟨?_, List.pairwise_cons.2 hc⟩
      intro x hx
      simp only [List.mem_cons] at hx
      rcases hx with rfl | hx
      · exact hle
      · exact htrans _ _ _ hle (hc.1 x hx)
    · cases rest with
      | nil =>
        rw [registerpair_loop_last _ _ _ _ hle]
        simp only [Bool.false_eq_true, if_false]
        simp only [List.pairwise_cons, List.mem_singleton, forall_eq, List.not_mem_nil,
          false_implies, implies_true, List.Pairwise.nil, and_true]
        exact htot _ _ hle
      | cons b rest2 =>
        rw [registerpair_loop_next _ _ _ _ _ _ hle]
        refine List.pairwise_cons.2 ⟨?_, ih hc.2⟩
        intro x hx
        rcases registerpair_loop_false_mem comparef newmatch _ x hx with h | rfl
        · exact hc.1 x h
        · exact htot _ _ hle

/-- One `registerpair` call keeps a chain sorted, for a comparator that reads
only fields the scan never changes and whose `≤ 0` is total and transitive. -/
theorem registerpair_sorted (comparef : file_t → file_t → Int) (newmatch : file_t)
    (hid : ∀ a a1 b b1 : file_t, a.ident = a1.ident → b.ident = b1.ident →
      comparef a b = comparef a1 b1)
    (htot : ∀ a b, ¬ comparef a b ≤ 0 → comparef b a ≤ 0)
    (htrans : ∀ a b c, comparef a b ≤ 0 → comparef b c ≤ 0 → comparef a c ≤ 0)
    (chain : List file_t) (hc : chain.Pairwise (fun a b => comparef a b ≤ 0)) :
    (registerpair chain newmatch comparef).Pairwise (fun a b => comparef a b ≤ 0) := by
  cases chain with
  | nil => simp [registerpair]
  | cons h rest =>
    rw [List.pairwise_cons] at hc
    unfold registerpair
    simp only []
    by_cases hle : comparef newmatch { h with F_HAS_DUPES := true } ≤ 0
    · rw [registerpair_loop_le _ _ _ _ _ hle]
      simp only [if_true]
      have hle1 : comparef newmatch h ≤ 0 := by
        refine le_of_eq_of_le (hid newmatch newmatch h _ ?_ ?_) hle <;> rfl
      refine List.pairwise_cons.2 ⟨?_, List.pairwise_cons.2 ⟨?_, hc.2⟩⟩
      · intro x hx
        simp only [List.mem_cons] at hx
        rcases hx with rfl | hx
        · refine le_of_eq_of_le (hid _ newmatch _ h ?_ ?_) hle1 <;> rfl
        · refine le_of_eq_of_le (hid _ newmatch x x ?_ ?_) (htrans _ _ _ hle1 (hc.1 x hx)) <;> rfl
      · intro x hx
        refine le_of_eq_of_le (hid _ h x x ?_ ?_) (hc.1 x hx) <;> rfl
    · have hge : comparef h newmatch ≤ 0 := by
        refine le_of_eq_of_le (hid h _ newmatch newmatch ?_ ?_) (htot _ _ hle) <;> rfl
      cases rest with
      | nil =>
        rw [registerpair_loop_last _ _ _ _ hle]
        simp only [if_true]
        simp only [List.pairwise_cons, List.mem_singleton, forall_eq, List.not_mem_nil,
          false_implies, implies_true, List.Pairwise.nil, and_true]
        refine le_of_eq_of_le (hid _ h newmatch newmatch ?_ ?_) hge <;> rfl
      | cons b rest2 =>
        rw [registerpair_loop_next _ _ _ _ _ _ hle]
        refine List.pairwise_cons.2
          ⟨?_, registerpair_loop_false_sorted comparef newmatch htot htrans _ hc.2⟩
        intro x hx
        refine le_of_eq_of_le (hid _ h x x ?_ ?_) ?_
        · rfl
        · rfl
        · rcases registerpair_loop_false_mem comparef newmatch _ x hx with h1 | rfl
          · exact hc.1 x h1
          · exact hge

theorem sort_pairs_by_mtime_ident (flags : Flags) (sd : Int) (a a1 b b1 : file_t)
    (ha : a.ident = a1.ident) (hb : b.ident = b1.ident) :
    sort_pairs_by_mtime flags sd a b = sort_pairs_by_mtime flags sd a1 b1 := by
  have h1 : a.user_order = a1.user_order := ident_user_order ha
  have h2 : b.user_order = b1.user_order := ident_user_order hb
  have h3 : a.mtime = a1.mtime := show a.ident.mtime = a1.ident.mtime from congrArg _ ha
  have h4 : b.mtime = b1.mtime := show b.ident.mtime = b1.ident.mtime from congrArg _ hb
  simp only [sort_pairs_by_mtime, sort_pairs_by_param_order, h1, h2, h3, h4]

theorem sort_pairs_by_mtime_le_iff (flags : Flags) (sd : Int) (a b : file_t) :
    sort_pairs_by_mtime flags sd a b ≤ 0 ↔
      (0 ≤ sd ∧ key_le flags a b) ∨ (sd ≤ 0 ∧ key_le flags b a) := by
  cases hf : flags.F_USEPARAMORDER <;>
    simp only [sort_pairs_by_mtime, sort_pairs_by_param_order, key_le, hf, if_true, if_false,
      Bool.false_eq_true, not_true_eq_false, not_false_eq_true] <;>
    split_ifs <;>
    first
    | omega
    | (simp only [true_and, lt_self_iff_false, false_or]; omega)

theorem key_le_total (flags : Flags) (a b : file_t) : key_le flags a b ∨ key_le flags b a := by
  unfold key_le; omega

theorem key_le_trans (flags : Flags) (a b c : file_t) (h1 : key_le flags a b)
    (h2 : key_le flags b c) : key_le flags a c := by
  unfold key_le at *; omega

theorem sort_pairs_by_mtime_total (flags : Flags) (sd : Int) (a b : file_t)
    (h : ¬ sort_pairs_by_mtime flags sd a b ≤ 0) : sort_pairs_by_mtime flags sd b a ≤ 0 := by
  rw [sort_pairs_by_mtime_le_iff] at h ⊢
  rcases key_le_total flags a b with hk | hk
  · have : ¬ 0 ≤ sd := fun h0 => h (Or.inl ⟨h0, hk⟩)
    exact Or.inr ⟨by omega, hk⟩
  · have : ¬ sd ≤ 0 := fun h0 => h (Or.inr ⟨h0, hk⟩)
    exact Or.inl ⟨by omega, hk⟩

theorem sort_pairs_by_mtime_trans (flags : Flags) (sd : Int) (a b c : file_t)
    (h1 : sort_pairs_by_mtime flags sd a b ≤ 0) (h2 : sort_pairs_by_mtime flags sd b c ≤ 0) :
    sort_pairs_by_mtime flags sd a c ≤ 0 := by
  rw [sort_pairs_by_mtime_le_iff] at h1 h2 ⊢
  rcases h1 with ⟨s1, k1⟩ | ⟨s1, k1⟩ <;> rcases h2 with ⟨s2, k2⟩ | ⟨s2, k2⟩
  · exact Or.inl ⟨s1, key_le_trans flags a b c k1 k2⟩
  · have hs : sd = 0 := by omega
    rcases key_le_total flags a c with hk | hk
    · exact Or.inl ⟨s1, hk⟩
    · exact Or.inr ⟨s2, hk⟩
  · have hs : sd = 0 := by omega
    rcases key_le_total flags a c with hk | hk
    · exact Or.inl ⟨s2, hk⟩
    · exact Or.inr ⟨s1, hk⟩
  · exact Or.inr ⟨s1, key_le_trans flags c b a k2 k1⟩

/-- C5: a chain built from one record by any sequence of `registerpair` calls
with the `ORDER_TIME` comparator `sort_pairs_by_mtime` (any sort direction,
parameter order on or off) is sorted: `comparef (a, b) ≤ 0` for every member
`a` that precedes a member `b`; in particular the head is a member with the
smallest sort key. -/
theorem registerpairs_mtime_sorted (flags : Flags) (sort_direction : Int) (h : file_t)
    (news : List file_t) :
    (registerpairs (sort_pairs_by_mtime flags sort_direction) [h] news).Pairwise
      (fun a b => sort_pairs_by_mtime flags sort_direction a b ≤ 0) := by
  have key : ∀ (news c : List file_t),
      c.Pairwise (fun a b => sort_pairs_by_mtime flags sort_direction a b ≤ 0) →
      (registerpairs (sort_pairs_by_mtime flags sort_direction) c news).Pairwise
        (fun a b => sort_pairs_by_mtime flags sort_direction a b ≤ 0) := by
    intro news
    induction news with
    | nil => intro c hc; exact hc
    | cons m ms ih =>
      intro c hc
      exact ih _ (registerpair_sorted _ m (sort_pairs_by_mtime_ident flags sort_direction)
        (sort_pairs_by_mtime_total flags sort_direction)
        (sort_pairs_by_mtime_trans flags sort_direction) c hc)
  exact key news [h] (List.pairwise_singleton _ _)

/-- Where the division is not by zero (progress hidden, or a `size` other than
0) and the interrupt flag is clear, the loop of `confirmmatch` decides the
equality of the two streams. -/
theorem confirmmatch_loop_iff (flags : Flags) (W : World) (chunk : Nat) (size : Int)
    (hchunk : 1 ≤ chunk) (hint : ∀ k, W.interrupt k = false)
    (hdiv : flags.F_HIDEPROGRESS = true ∨ size ≠ 0) :
    ∀ (fuel t check : Nat) (bytes : Int) (f1 f2 : List Byte), f2.length < fuel →
      (confirmmatch_loop flags W chunk size fuel t check bytes f1 f2).1
        = some (decide (f1 = f2)) := by
  intro fuel
  induction fuel with
  | zero => intro t check bytes f1 f2 h; omega
  | succ fuel ih =>
    intro t check bytes f1 f2 hlen
    rw [confirmmatch_loop]
    simp only [hint, Bool.false_eq_true, if_false]
    by_cases h1 : (f1.take chunk).length ≠ (f2.take chunk).length
    · rw [if_pos h1]
      have : f1 ≠ f2 := by
        intro h; subst h; exact absurd rfl h1
      simp [this]
    · rw [if_neg h1]
      by_cases h2 : f1.take chunk ≠ f2.take chunk
      · rw [if_pos h2]
        have : f1 ≠ f2 := by
          intro h; subst h; exact absurd rfl h2
        simp [this]
      · rw [if_neg h2]
        have h2e : f1.take chunk = f2.take chunk := not_not.mp h2
        rw [if_neg (by
          rintro ⟨hh, _, hs⟩
          rcases hdiv with hd | hd
          · exact hh hd
          · exact hd hs)]
        by_cases h3 : (f2.take chunk).length ≠ 0
        · rw [if_pos h3]
          have hpos : 0 < f2.length := by
            rcases Nat.eq_zero_or_pos f2.length with h0 | h0
            · have : f2 = [] := List.length_eq_zero.mp h0
              subst this
              simp at h3
            · exact h0
          have hd : (f2.drop chunk).length < fuel := by
            simp only [List.length_drop]; omega
          rw [ih (t + 1) _ _ (f1.drop chunk) (f2.drop chunk) hd]
          congr 1
          have hiff : f1.drop chunk = f2.drop chunk ↔ f1 = f2 := by
            constructor
            · intro h
              rw [← List.take_append_drop chunk f1, ← List.take_append_drop chunk f2, h2e, h]
            · intro h; rw [h]
          exact decide_eq_decide.mpr hiff
        · rw [if_neg h3]
          have hz : (f2.take chunk).length = 0 := not_not.mp h3
          have e2 : f2 = [] := by
            rw [List.length_take] at hz
            have : f2.length = 0 := by omega
            exact List.length_eq_zero.mp this
          have e1 : f1 = [] := by
            have hz1 : (f1.take chunk).length = 0 := by rw [h2e]; exact hz
            rw [List.length_take] at hz1
            have : f1.length = 0 := by omega
            exact List.length_eq_zero.mp this
          simp [e1, e2]

/-- On two equal streams, with progress shown and a `size` of 0, the loop of
`confirmmatch` reaches the division once the counter `check` passes
`CHECK_MINIMUM`, which it does when more than 255 chunks are left to read. -/
theorem confirmmatch_loop_div (flags : Flags) (W : World) (chunk : Nat)
    (hchunk : 1 ≤ chunk) (hint : ∀ k, W.interrupt k = false)
    (hshow : flags.F_HIDEPROGRESS = false) :
    ∀ (fuel t check : Nat) (bytes : Int) (f : List Byte), f.length < fuel → check ≤ 256 →
      255 * chunk < check * chunk + f.length →
      (confirmmatch_loop flags W chunk 0 fuel t check bytes f f).1 = none := by
  intro fuel
  induction fuel with
  | zero => intro t check bytes f h; omega
  | succ fuel ih =>
    intro t check bytes f hlen hck hlong
    rw [confirmmatch_loop]
    simp only [hint, hshow, Bool.false_eq_true, if_false, ne_eq, not_true_eq_false,
      not_false_eq_true, true_and, and_true, CHECK_MINIMUM]
    by_cases h256 : check + 1 > 256
    · rw [if_pos h256]
    · rw [if_neg h256, if_neg h256]
      have hc : check ≤ 255 := by omega
      have hmul : check * chunk ≤ 255 * chunk := Nat.mul_le_mul_right chunk hc
      have hpos : 0 < f.length := by omega
      have h3 : (f.take chunk).length ≠ 0 := by
        rw [List.length_take]; omega
      rw [if_pos h3]
      apply ih
      · simp only [List.length_drop]; omega
      · omega
      · have e : (check + 1) * chunk = check * chunk + chunk := Nat.succ_mul check chunk
        rw [e, List.length_drop]
        omega

/-- When the loop of `confirmmatch` returns 1 the two streams are equal. -/
theorem confirmmatch_loop_true (flags : Flags) (W : World) (chunk : Nat) (size : Int)
    (hchunk : 1 ≤ chunk) :
    ∀ (fuel t check : Nat) (bytes : Int) (f1 f2 : List Byte),
      (confirmmatch_loop flags W chunk size fuel t check bytes f1 f2).1 = some true →
      f1 = f2 := by
  intro fuel
  induction fuel with
  | zero => intro t check bytes f1 f2 h; simp [confirmmatch_loop] at h
  | succ fuel ih =>
    intro t check bytes f1 f2 h
    rw [confirmmatch_loop] at h
    by_cases hi : W.interrupt t = true
    · rw [if_pos hi] at h; simp at h
    rw [if_neg hi] at h
    simp only [] at h
    by_cases h1 : (f1.take chunk).length ≠ (f2.take chunk).length
    · rw [if_pos h1] at h; simp at h
    rw [if_neg h1] at h
    by_cases h2 : f1.take chunk ≠ f2.take chunk
    · rw [if_pos h2] at h; simp at h
    rw [if_neg h2] at h
    have h2e : f1.take chunk = f2.take chunk := not_not.mp h2
    by_cases hd : ¬ flags.F_HIDEPROGRESS = true ∧
        (if flags.F_HIDEPROGRESS = true then check else check + 1) > CHECK_MINIMUM ∧ size = 0
    · rw [if_pos hd] at h; simp at h
    rw [if_neg hd] at h
    by_cases h3 : (f2.take chunk).length ≠ 0
    · rw [if_pos h3] at h
      have := ih _ _ _ _ _ h
      rw [← List.take_append_drop chunk f1, ← List.take_append_drop chunk f2, h2e, this]
    · have hz : (f2.take chunk).length = 0 := not_not.mp h3
      have e2 : f2 = [] := by
        rw [List.length_take] at hz
        have : f2.length = 0 := by omega
        exact List.length_eq_zero.mp this
      have e1 : f1 = [] := by
        have hz1 : (f1.take chunk).length = 0 := by rw [h2e]; exact hz
        rw [List.length_take] at hz1
        have : f1.length = 0 := by omega
        exact List.length_eq_zero.mp this
      rw [e1, e2]

/-- C20 (the code departs from the claim): `confirmmatch` takes a third
parameter `size` and, when progress is shown, divides by it once more than
`CHECK_MINIMUM` chunks were read.  With `size` 0 (what `main` passes for a
record of stat size 0), progress shown and the interrupt flag clear, the call
on two equal streams of more than 255 chunks does not return 1: it has no
result (closed case: 257 bytes read one at a time).  Where the division is
not by zero (progress hidden or `size` other than 0), for every pair of
streams and every chunk size of at least 1, with the flag clear `confirmmatch`
returns 1 exactly when the streams are identical and 0 otherwise, and with the
flag raised at its first poll it returns 0. -/
theorem confirmmatch_divides_by_zero :
    (confirmmatch noFlags (quietWorld (fun _ => [])) 1 0 (List.replicate 257 0)
      (List.replicate 257 0) 0).1 = none ∧
    (∀ (flags : Flags) (W : World) (chunk t : Nat) (f : List Byte), 1 ≤ chunk →
      (∀ k, W.interrupt k = false) → flags.F_HIDEPROGRESS = false → 255 * chunk < f.length →
      (confirmmatch flags W chunk t f f 0).1 = none) ∧
    (∀ (flags : Flags) (W : World) (chunk t : Nat) (file1 file2 : List Byte) (size : Int),
      1 ≤ chunk → (flags.F_HIDEPROGRESS = true ∨ size ≠ 0) →
      ((∀ k, W.interrupt k = false) →
        (confirmmatch flags W chunk t file1 file2 size).1 = some (decide (file1 = file2))) ∧
      (W.interrupt t = true → (confirmmatch flags W chunk t file1 file2 size).1 = some false)) := by
  have hgen : ∀ (flags : Flags) (W : World) (chunk t : Nat) (f : List Byte), 1 ≤ chunk →
      (∀ k, W.interrupt k = false) → flags.F_HIDEPROGRESS = false → 255 * chunk < f.length →
      (confirmmatch flags W chunk t f f 0).1 = none := by
    intro flags W chunk t f hchunk hint hshow hlong
    exact confirmmatch_loop_div flags W chunk hchunk hint hshow _ t 0 0 f (Nat.lt_succ_self _)
      (by omega) (by omega)
  refine ⟨?_, hgen, ?_⟩
  · exact hgen noFlags (quietWorld (fun _ => [])) 1 0 (List.replicate 257 0) (by omega)
      (fun _ => rfl) rfl (by rw [List.length_replicate]; omega)
  · intro flags W chunk t file1 file2 size hchunk hdiv
    constructor
    · intro hint
      exact confirmmatch_loop_iff flags W chunk size hchunk hint hdiv _ t 0 0 file1 file2
        (Nat.lt_succ_self _)
    · intro h
      simp [confirmmatch, confirmmatch_loop, h]

theorem chains_cons : ∀ (tree : filetree_t) (c : List file_t), c ∈ tree.chains →
    ∃ f d, c = f :: d := by
  intro tree
  induction tree with
  | nil => intro c hc; simp [filetree_t.chains] at hc
  | node f d l r ihl ihr =>
    intro c hc
    simp only [filetree_t.chains, List.mem_cons, List.mem_append] at hc
    rcases hc with rfl | hc | hc
    · exact ⟨f, d, rfl⟩
    · exact ihl c hc
    · exact ihr c hc

theorem chain_step_of_mem (tree : filetree_t) (file : file_t) (c : List file_t)
    (hc : c ∈ tree.chains) : chain_step tree file c := by
  obtain ⟨f, d, rfl⟩ := chains_cons tree _ hc
  exact Or.inl ⟨f, f, d, hc, rfl, rfl⟩

theorem chain_step_sub (tf : file_t) (dups : List file_t) (left right sub : filetree_t)
    (file file1 : file_t) (c : List file_t)
    (hsub : ∀ x ∈ sub.chains, x ∈ (filetree_t.node tf dups left right).chains)
    (hf : file1.unhashed = file.unhashed) (hc : chain_step sub file1 c) :
    chain_step (filetree_t.node tf dups left right) file c := by
  rcases hc with ⟨f, f1, d, hm, rfl, hu⟩ | ⟨f1, rfl, hu⟩
  · exact Or.inl ⟨f, f1, d, hsub _ hm, rfl, hu⟩
  · exact Or.inr ⟨f1, rfl, hu.trans hf⟩

/-- Every chain of the tree that `checkmatch` leaves is a chain of the tree
it was given, up to hash fields of the head, or the new file alone. -/
theorem checkmatch_chains (flags : Flags) (H : XXH64) (W : World) (chunk : Nat) :
    ∀ (tree : filetree_t) (file : file_t) (t : Nat),
      ∀ c ∈ (checkmatch flags H W chunk tree file t).tree.chains, chain_step tree file c := by
  intro tree
  induction tree with
  | nil => intro file t c hc; simp [checkmatch, filetree_t.chains] at hc
  | node tf dups left right ihl ihr =>
    intro file t
    have hL : ∀ x ∈ left.chains, x ∈ (filetree_t.node tf dups left right).chains :=
      fun x hx => by simp [filetree_t.chains, hx]
    have hR : ∀ x ∈ right.chains, x ∈ (filetree_t.node tf dups left right).chains :=
      fun x hx => by simp [filetree_t.chains, hx]
    have hnode : ∀ (tf1 : file_t) (l r : filetree_t), tf1.unhashed = tf.unhashed →
        (∀ c ∈ l.chains, chain_step (filetree_t.node tf dups left right) file c) →
        (∀ c ∈ r.chains, chain_step (filetree_t.node tf dups left right) file c) →
        ∀ c ∈ (filetree_t.node tf1 dups l r).chains,
          chain_step (filetree_t.node tf dups left right) file c := by
      intro tf1 l r hu hl hr c hc
      simp only [filetree_t.chains, List.mem_cons, List.mem_append] at hc
      rcases hc with rfl | hc | hc
      · exact Or.inl ⟨tf, tf1, dups, by simp [filetree_t.chains], rfl, hu⟩
      · exact hl c hc
      · exact hr c hc
    have hl0 : ∀ c ∈ left.chains, chain_step (filetree_t.node tf dups left right) file c :=
      fun c hc => chain_step_of_mem _ _ _ (hL c hc)
    have hr0 : ∀ c ∈ right.chains, chain_step (filetree_t.node tf dups left right) file c :=
      fun c hc => chain_step_of_mem _ _ _ (hR c hc)
    apply checkmatch_node_cases flags H W chunk tf dups left right file t
      (fun r => ∀ c ∈ r.tree.chains, chain_step (filetree_t.node tf dups left right) file c)
    · intro _ c hc; exact chain_step_of_mem _ _ _ hc
    · intro _ c hc; exact chain_step_of_mem _ _ _ hc
    · intro tf1 file1 t1 _ hd
      have := (checkmatch_data_unhashed flags H W chunk t tf file).1
      rw [hd] at this
      exact hnode tf1 left right this hl0 hr0
    · intro tf1 file1 t1 cmpresult hpre
      have hid := checkmatch_step_unhashed flags H W chunk t tf file tf1 file1 t1 cmpresult hpre
      have hreg : ∀ c ∈ (registerfile file1).chains,
          chain_step (filetree_t.node tf dups left right) file c := by
        intro c hc
        simp only [registerfile, filetree_t.chains, List.append_nil, List.mem_singleton] at hc
        exact Or.inr ⟨file1, hc, hid.2⟩
      refine ⟨?_, ?_, ?_, ?_, ?_⟩
      · intro _ _; exact hnode tf1 _ right hid.1 hreg hr0
      · intro _ _
        exact hnode tf1 _ right hid.1
          (fun c hc => chain_step_sub tf dups left right left file file1 c hL hid.2
            (ihl file1 t1 c hc)) hr0
      · intro _ _; exact hnode tf1 left _ hid.1 hl0 hreg
      · intro _ _
        exact hnode tf1 left _ hid.1 hl0
          (fun c hc => chain_step_sub tf dups left right right file file1 c hR hid.2
            (ihr file1 t1 c hc))
      · intro _; exact hnode tf1 left right hid.1 hl0 hr0

theorem at_mem_chains : ∀ (tree : filetree_t) (p : List tree_direction) (m : file_t)
    (d : List file_t), tree.at p = some (m, d) → (m :: d) ∈ tree.chains := by
  intro tree
  induction tree with
  | nil => intro p m d h; simp [filetree_t.at] at h
  | node f dups l r ihl ihr =>
    intro p m d h
    cases p with
    | nil =>
      simp only [filetree_t.at, Option.some.injEq, Prod.mk.injEq] at h
      simp [filetree_t.chains, h.1, h.2]
    | cons x p =>
      cases x with
      | NONE => simp [filetree_t.at] at h
      | LEFT =>
        simp only [filetree_t.at] at h
        simp [filetree_t.chains, ihl p m d h]
      | RIGHT =>
        simp only [filetree_t.at] at h
        simp [filetree_t.chains, ihr p m d h]

theorem registerpair_ne_nil (comparef : file_t → file_t → Int) (newmatch m : file_t)
    (d : List file_t) : registerpair (m :: d) newmatch comparef ≠ [] := by
  unfold registerpair
  simp only []
  by_cases hle : comparef newmatch { m with F_HAS_DUPES := true } ≤ 0
  · rw [registerpair_loop_le _ _ _ _ _ hle]; simp
  · cases d with
    | nil => rw [registerpair_loop_last _ _ _ _ hle]; simp
    | cons b rest => rw [registerpair_loop_next _ _ _ _ _ _ hle]; simp

/-- The chains of the tree after `registerpair` at a node are the chains as
they were, but for the chain of that node. -/
theorem registerpair_at_chains (comparef : file_t → file_t → Int) (newmatch : file_t) :
    ∀ (tree : filetree_t) (p : List tree_direction) (m : file_t) (d : List file_t),
      tree.at p = some (m, d) →
      ∀ c ∈ (tree.registerpair_at comparef newmatch p).chains,
        c ∈ tree.chains ∨ c = registerpair (m :: d) newmatch comparef := by
  intro tree
  induction tree with
  | nil => intro p m d h; simp [filetree_t.at] at h
  | node f dups l r ihl ihr =>
    intro p m d h c hc
    cases p with
    | nil =>
      simp only [filetree_t.at, Option.some.injEq, Prod.mk.injEq] at h
      obtain ⟨rfl, rfl⟩ := h
      simp only [filetree_t.registerpair_at] at hc
      rcases hreg : registerpair (f :: dups) newmatch comparef with _ | ⟨hd, tl⟩
      · exact absurd hreg (registerpair_ne_nil _ _ _ _)
      · rw [hreg] at hc
        simp only [filetree_t.chains, List.mem_cons, List.mem_append] at hc ⊢
        rcases hc with rfl | hc | hc
        · exact Or.inr rfl
        · exact Or.inl (Or.inr (Or.inl hc))
        · exact Or.inl (Or.inr (Or.inr hc))
    | cons x p =>
      cases x with
      | NONE => simp [filetree_t.at] at h
      | LEFT =>
        simp only [filetree_t.at] at h
        simp only [filetree_t.registerpair_at, filetree_t.chains, List.mem_cons,
          List.mem_append] at hc ⊢
        rcases hc with rfl | hc | hc
        · exact Or.inl (Or.inl rfl)
        · rcases ihl p m d h c hc with h1 | h1
          · exact Or.inl (Or.inr (Or.inl h1))
          · exact Or.inr h1
        · exact Or.inl (Or.inr (Or.inr hc))
      | RIGHT =>
        simp only [filetree_t.at] at h
        simp only [filetree_t.registerpair_at, filetree_t.chains, List.mem_cons,
          List.mem_append] at hc ⊢
        rcases hc with rfl | hc | hc
        · exact Or.inl (Or.inl rfl)
        · exact Or.inl (Or.inr (Or.inl hc))
        · rcases ihr p m d h c hc with h1 | h1
          · exact Or.inl (Or.inr (Or.inr h1))
          · exact Or.inr h1

theorem registerpair_loop_perm (comparef : file_t → file_t → Int) (newmatch : file_t) :
    ∀ (chain : List file_t) (b : Bool), chain ≠ [] →
      ((registerpair_loop comparef newmatch b chain).map file_t.ident).Perm
        (newmatch.ident :: chain.map file_t.ident) := by
  intro chain
  induction chain with
  | nil => intro b h; exact absurd rfl h
  | cons a rest ih =>
    intro b _
    by_cases hle : comparef newmatch a ≤ 0
    · rw [registerpair_loop_le _ _ _ _ _ hle]
      cases b <;> exact List.Perm.refl _
    · cases rest with
      | nil =>
        rw [registerpair_loop_last _ _ _ _ hle]
        cases b <;> exact List.Perm.swap _ _ _
      | cons c rest2 =>
        rw [registerpair_loop_next _ _ _ _ _ _ hle]
        simp only [List.map_cons]
        exact ((ih false (by simp)).cons a.ident).trans (List.Perm.swap _ _ _)

/-- The members of a chain after `registerpair` are its members before and
the new record, each once, up to hash fields and `F_HAS_DUPES`. -/
theorem registerpair_perm (comparef : file_t → file_t → Int) (newmatch m : file_t)
    (d : List file_t) :
    ((registerpair (m :: d) newmatch comparef).map file_t.ident).Perm
      (newmatch.ident :: m.ident :: d.map file_t.ident) := by
  unfold registerpair
  simp only []
  exact registerpair_loop_perm comparef newmatch _ true (by simp)

/-- Case analysis of the body of the scan loop: either the tree is empty and
the file becomes its root, or `checkmatch` runs and then either nothing is
registered (no match, a failed open, or `confirmmatch` returning 0), or the
file is registered on the chain of the matched node, after the shortcut test
or after both opens and `confirmmatch` succeeded, or `confirmmatch` does not
return. -/
theorem scan_file_cases (flags : Flags) (H : XXH64) (W : World) (chunk : Nat)
    (comparef : file_t → file_t → Int) (st : scan_state) (curfile : file_t)
    (P : Option scan_state → Prop)
    (hnil : st.checktree = filetree_t.nil →
      P (some { st with checktree := registerfile curfile }))
    (hno : st.checktree ≠ filetree_t.nil → ∀ t1,
      ((checkmatch flags H W chunk st.checktree curfile st.t).result = none ∨
        ∃ path, (checkmatch flags H W chunk st.checktree curfile st.t).result = some path ∧
          ((checkmatch flags H W chunk st.checktree curfile st.t).tree.at path = none ∨
            ∃ m d, (checkmatch flags H W chunk st.checktree curfile st.t).tree.at path
                = some (m, d) ∧
              ¬ (flags.F_QUICKCOMPARE = true ∨ flags.F_PARTIALONLY = true ∨
                (flags.F_CONSIDERHARDLINKS = true ∧
                  (checkmatch flags H W chunk st.checktree curfile st.t).file.inode = m.inode ∧
                  (checkmatch flags H W chunk st.checktree curfile st.t).file.device
                    = m.device)) ∧
              (W.fopen (checkmatch flags H W chunk st.checktree curfile st.t).t
                  (checkmatch flags H W chunk st.checktree curfile st.t).file.d_name = none ∨
                ∃ file1, W.fopen (checkmatch flags H W chunk st.checktree curfile st.t).t
                    (checkmatch flags H W chunk st.checktree curfile st.t).file.d_name
                    = some file1 ∧
                  (W.fopen ((checkmatch flags H W chunk st.checktree curfile st.t).t + 1)
                      m.d_name = none ∨
                    ∃ file2,
                      W.fopen ((checkmatch flags H W chunk st.checktree curfile st.t).t + 1)
                        m.d_name = some file2 ∧
                      (confirmmatch flags W chunk
                        ((checkmatch flags H W chunk st.checktree curfile st.t).t + 2)
                        file1 file2
                        (checkmatch flags H W chunk st.checktree curfile st.t).file.size).1
                          = some false)))) →
      P (some
        { st with
            checktree := (checkmatch flags H W chunk st.checktree curfile st.t).tree,
            t := t1 }))
    (hreg : st.checktree ≠ filetree_t.nil → ∀ path m d t1,
      (checkmatch flags H W chunk st.checktree curfile st.t).result = some path →
      (checkmatch flags H W chunk st.checktree curfile st.t).tree.at path = some (m, d) →
      ((flags.F_QUICKCOMPARE = true ∨ flags.F_PARTIALONLY = true ∨
          (flags.F_CONSIDERHARDLINKS = true ∧
            (checkmatch flags H W chunk st.checktree curfile st.t).file.inode = m.inode ∧
            (checkmatch flags H W chunk st.checktree curfile st.t).file.device = m.device)) ∨
        (∃ file1 file2,
          W.fopen (checkmatch flags H W chunk st.checktree curfile st.t).t
            (checkmatch flags H W chunk st.checktree curfile st.t).file.d_name = some file1 ∧
          W.fopen ((checkmatch flags H W chunk st.checktree curfile st.t).t + 1) m.d_name
            = some file2 ∧
          confirmmatch flags W chunk ((checkmatch flags H W chunk st.checktree curfile st.t).t + 2)
            file1 file2 (checkmatch flags H W chunk st.checktree curfile st.t).file.size
              = (some true, t1))) →
      P (some
        { checktree :=
            (checkmatch flags H W chunk st.checktree curfile st.t).tree.registerpair_at comparef
              (checkmatch flags H W chunk st.checktree curfile st.t).file path,
          t := t1, dupecount := st.dupecount + 1 }))
    (hdiv : st.checktree ≠ filetree_t.nil → ∀ path m d file1 file2,
      (checkmatch flags H W chunk st.checktree curfile st.t).result = some path →
      (checkmatch flags H W chunk st.checktree curfile st.t).tree.at path = some (m, d) →
      ¬ (flags.F_QUICKCOMPARE = true ∨ flags.F_PARTIALONLY = true ∨
        (flags.F_CONSIDERHARDLINKS = true ∧
          (checkmatch flags H W chunk st.checktree curfile st.t).file.inode = m.inode ∧
          (checkmatch flags H W chunk st.checktree curfile st.t).file.device = m.device)) →
      W.fopen (checkmatch flags H W chunk st.checktree curfile st.t).t
        (checkmatch flags H W chunk st.checktree curfile st.t).file.d_name = some file1 →
      W.fopen ((checkmatch flags H W chunk st.checktree curfile st.t).t + 1) m.d_name
        = some file2 →
      (confirmmatch flags W chunk ((checkmatch flags H W chunk st.checktree curfile st.t).t + 2)
        file1 file2 (checkmatch flags H W chunk st.checktree curfile st.t).file.size).1
          = none →
      P none) :
    P (scan_file flags H W chunk comparef st curfile) := by
  unfold scan_file
  rcases htree : st.checktree with _ | ⟨f, d, l, r⟩
  · simp only []
    exact hnil htree
  · simp only []
    rw [htree] at hno hreg hdiv
    have hne : filetree_t.node f d l r ≠ filetree_t.nil := by simp
    rcases hres : (checkmatch flags H W chunk (filetree_t.node f d l r) curfile st.t).result
      with _ | path
    · simp only []
      exact hno hne _ (Or.inl hres)
    · simp only []
      rcases hat : (checkmatch flags H W chunk (filetree_t.node f d l r) curfile st.t).tree.at path
        with _ | ⟨m, dm⟩
      · simp only []
        exact hno hne _ (Or.inr ⟨path, hres, Or.inl hat⟩)
      · simp only []
        split_ifs with hq
        · refine hreg hne path m dm _ hres hat (Or.inl ?_)
          simpa using hq
        · have hq1 : ¬ (flags.F_QUICKCOMPARE = true ∨ flags.F_PARTIALONLY = true ∨
              (flags.F_CONSIDERHARDLINKS = true ∧
                (checkmatch flags H W chunk (filetree_t.node f d l r) curfile st.t).file.inode
                  = m.inode ∧
                (checkmatch flags H W chunk (filetree_t.node f d l r) curfile st.t).file.device
                  = m.device)) := by simpa using hq
          rcases ho1 : W.fopen (checkmatch flags H W chunk (filetree_t.node f d l r) curfile st.t).t
              (checkmatch flags H W chunk (filetree_t.node f d l r) curfile st.t).file.d_name with _ | file1
          · simp only []
            exact hno hne _ (Or.inr ⟨path, hres, Or.inr ⟨m, dm, hat, hq1, Or.inl ho1⟩⟩)
          · simp only []
            rcases ho2 : W.fopen ((checkmatch flags H W chunk (filetree_t.node f d l r) curfile st.t).t + 1)
                m.d_name with _ | file2
            · simp only []
              exact hno hne _ (Or.inr ⟨path, hres, Or.inr ⟨m, dm, hat, hq1,
                Or.inr ⟨file1, ho1, Or.inl ho2⟩⟩⟩)
            · simp only []
              rcases hcm : confirmmatch flags W chunk ((checkmatch flags H W chunk (filetree_t.node f d l r) curfile st.t).t + 2)
                  file1 file2 (checkmatch flags H W chunk (filetree_t.node f d l r) curfile st.t).file.size
                with ⟨b, t1⟩
              rcases b with _ | b
              · simp only []
                exact hdiv hne path m dm file1 file2 hres hat hq1 ho1 ho2 (by rw [hcm])
              · cases b with
                | false =>
                  simp only []
                  exact hno hne _ (Or.inr ⟨path, hres, Or.inr ⟨m, dm, hat, hq1,
                    Or.inr ⟨file1, ho1, Or.inr ⟨file2, ho2, by rw [hcm]⟩⟩⟩⟩)
                | true =>
                  simp only []
                  exact hreg hne path m dm t1 hres hat
                    (Or.inr ⟨file1, file2, ho1, ho2, hcm⟩)

theorem chain_same_content_head (disk : String → List Byte) (files : List file_t)
    (f f1 : file_t) (d : List file_t) (hu : f1.ident = f.ident)
    (h : chain_same_content disk files (f :: d)) : chain_same_content disk files (f1 :: d) := by
  have hn : f1.d_name = f.d_name := ident_d_name hu
  have hmem : ∀ x ∈ f1 :: d, ∃ y ∈ f :: d, x.ident = y.ident ∧ x.d_name = y.d_name := by
    intro x hx
    simp only [List.mem_cons] at hx
    rcases hx with rfl | hx
    · exact ⟨f, by simp, hu, hn⟩
    · exact ⟨x, by simp [hx], rfl, rfl⟩
  constructor
  · intro x hx
    obtain ⟨y, hy, hi, _⟩ := hmem x hx
    obtain ⟨z, hz, hz2⟩ := h.1 y hy
    exact ⟨z, hz, hi.trans hz2⟩
  · intro x hx y hy
    obtain ⟨x1, hx1, _, hxn⟩ := hmem x hx
    obtain ⟨y1, hy1, _, hyn⟩ := hmem y hy
    rw [hxn, hyn]
    exact h.2 x1 hx1 y1 hy1

theorem chain_same_content_registerpair (disk : String → List Byte) (files : List file_t)
    (comparef : file_t → file_t → Int) (m newmatch : file_t) (d : List file_t)
    (h : chain_same_content disk files (m :: d))
    (hn : ∃ y ∈ files, newmatch.ident = y.ident)
    (hc : disk newmatch.d_name = disk m.d_name) :
    chain_same_content disk files (registerpair (m :: d) newmatch comparef) := by
  have hmem : ∀ x ∈ registerpair (m :: d) newmatch comparef,
      ∃ y ∈ newmatch :: m :: d, x.ident = y.ident := by
    intro x hx
    have h1 : x.ident ∈ (registerpair (m :: d) newmatch comparef).map file_t.ident :=
      List.mem_map_of_mem _ hx
    have h2 := (registerpair_perm comparef newmatch m d).subset h1
    have h3 : x.ident ∈ (newmatch :: m :: d).map file_t.ident := by simpa using h2
    obtain ⟨y, hy, hy2⟩ := List.mem_map.1 h3
    exact ⟨y, hy, hy2.symm⟩
  have hcont : ∀ y ∈ newmatch :: m :: d, disk y.d_name = disk m.d_name := by
    intro y hy
    simp only [List.mem_cons] at hy
    rcases hy with rfl | rfl | hy
    · exact hc
    · rfl
    · exact h.2 y (by simp [hy]) m (by simp)
  constructor
  · intro x hx
    obtain ⟨y, hy, hi⟩ := hmem x hx
    simp only [List.mem_cons] at hy
    rcases hy with rfl | hy
    · obtain ⟨z, hz, hz2⟩ := hn
      exact ⟨z, hz, hi.trans hz2⟩
    · obtain ⟨z, hz, hz2⟩ := h.1 y (by simpa using hy)
      exact ⟨z, hz, hi.trans hz2⟩
  · intro x hx y hy
    obtain ⟨x1, hx1, hxi⟩ := hmem x hx
    obtain ⟨y1, hy1, hyi⟩ := hmem y hy
    rw [ident_d_name hxi, ident_d_name hyi, hcont x1 hx1, hcont y1 hy1]

/-- One iteration of the scan loop keeps every chain of one content. -/
theorem scan_file_content (flags : Flags) (H : XXH64) (W : World) (chunk : Nat)
    (comparef : file_t → file_t → Int) (files : List file_t) (disk : String → List Byte)
    (hq : flags.F_QUICKCOMPARE = false) (hp : flags.F_PARTIALONLY = false)
    (hchunk : 1 ≤ chunk)
    (hW : ∀ t name data, W.fopen t name = some data → data = disk name)
    (hlink : ∀ a ∈ files, ∀ b ∈ files, a.inode = b.inode → a.device = b.device →
      disk a.d_name = disk b.d_name)
    (st : scan_state) (curfile : file_t) (hcur : curfile ∈ files)
    (hst : ∀ c ∈ st.checktree.chains, chain_same_content disk files c) :
    ∀ st1, scan_file flags H W chunk comparef st curfile = some st1 →
      ∀ c ∈ st1.checktree.chains, chain_same_content disk files c := by
  have hres : ∀ c ∈ (checkmatch flags H W chunk st.checktree curfile st.t).tree.chains,
      chain_same_content disk files c := by
    intro c hc
    rcases checkmatch_chains flags H W chunk st.checktree curfile st.t c hc with
      ⟨f, f1, d, hm, rfl, hu⟩ | ⟨f1, rfl, hu⟩
    · exact chain_same_content_head disk files f f1 d (ident_of_unhashed hu) (hst _ hm)
    · constructor
      · intro x hx
        simp only [List.mem_singleton] at hx
        subst hx
        exact ⟨curfile, hcur, ident_of_unhashed hu⟩
      · intro x hx y hy
        simp only [List.mem_singleton] at hx hy
        rw [hx, hy]
  have hfid := ident_of_unhashed (checkmatch_file_unhashed flags H W chunk st.checktree curfile st.t)
  apply scan_file_cases flags H W chunk comparef st curfile
    (fun s => ∀ st1, s = some st1 →
      ∀ c ∈ st1.checktree.chains, chain_same_content disk files c)
  · intro _ st1 hst1 c hc
    simp only [Option.some.injEq] at hst1
    subst hst1
    simp only [registerfile, filetree_t.chains, List.append_nil, List.mem_singleton] at hc
    subst hc
    constructor
    · intro x hx
      simp only [List.mem_singleton] at hx
      exact ⟨curfile, hcur, by rw [hx]⟩
    · intro x hx y hy
      simp only [List.mem_singleton] at hx hy
      rw [hx, hy]
  · intro _ t1 _ st1 hst1 c hc
    simp only [Option.some.injEq] at hst1
    subst hst1
    exact hres c hc
  rotate_left
  · intro _ path m d file1 file2 _ _ _ _ _ _ st1 hst1
    exact absurd hst1 (by simp)
  · intro _ path m d t1 hr hat hwhy st1 hst1 c hc
    simp only [Option.some.injEq] at hst1
    subst hst1
    have hmd := hres _ (at_mem_chains _ _ _ _ hat)
    rcases registerpair_at_chains comparef _ _ path m d hat c hc with h1 | rfl
    · exact hres c h1
    · apply chain_same_content_registerpair disk files comparef m _ d hmd
        ⟨curfile, hcur, hfid⟩
      rcases hwhy with (h1 | h1 | ⟨_, hi, hd⟩) | ⟨file1, file2, ho1, ho2, hcm⟩
      · rw [hq] at h1; exact absurd h1 (by decide)
      · rw [hp] at h1; exact absurd h1 (by decide)
      · obtain ⟨z, hz, hz2⟩ := hmd.1 m (by simp)
        rw [ident_d_name hfid, ident_d_name hz2]
        apply hlink curfile hcur z hz
        · rw [← ident_inode hfid, ← ident_inode hz2]; exact hi
        · rw [← ident_device hfid, ← ident_device hz2]; exact hd
      · have e1 := hW _ _ _ ho1
        have e2 := hW _ _ _ ho2
        have hb := congrArg Prod.fst hcm
        have := confirmmatch_loop_true flags W chunk _ hchunk _ _ _ _ _ _ hb
        rw [← e1, ← e2, this]

theorem scan_loop_content (flags : Flags) (H : XXH64) (W : World) (chunk : Nat)
    (comparef : file_t → file_t → Int) (files : List file_t) (disk : String → List Byte)
    (hq : flags.F_QUICKCOMPARE = false) (hp : flags.F_PARTIALONLY = false)
    (hchunk : 1 ≤ chunk)
    (hW : ∀ t name data, W.fopen t name = some data → data = disk name)
    (hlink : ∀ a ∈ files, ∀ b ∈ files, a.inode = b.inode → a.device = b.device →
      disk a.d_name = disk b.d_name) :
    ∀ (rest : List file_t) (st : scan_state), (∀ x ∈ rest, x ∈ files) →
      (∀ c ∈ st.checktree.chains, chain_same_content disk files c) →
      ∀ c ∈ (scan_loop flags H W chunk comparef rest st).1.checktree.chains,
        chain_same_content disk files c := by
  intro rest
  induction rest with
  | nil => intro st _ hst; simpa [scan_loop] using hst
  | cons cur rest ih =>
    intro st hsub hst
    rw [scan_loop]
    by_cases hi : W.interrupt st.t = true
    · rw [if_pos hi]; exact hst
    · rw [if_neg hi]
      rcases hsf : scan_file flags H W chunk comparef { st with t := st.t + 1 } cur
        with _ | st1
      · exact hst
      · apply ih _ (fun x hx => hsub x (List.mem_cons_of_mem _ hx))
        exact scan_file_content flags H W chunk comparef files disk hq hp hchunk hW hlink
          { st with t := st.t + 1 } cur (hsub cur (by simp)) hst st1 hsf

/-- C1: with quick and partial-only modes off, a chunk size of at least 1
(so that `confirmmatch` is byte equality), file contents that do not change
during the scan, and equal content for records of the file list with equal
inode and device: after the scan loop, however it ends, any two records of
one duplicate chain have equal byte contents. -/
theorem scan_chains_equal_content (flags : Flags) (H : XXH64) (W : World) (chunk : Nat)
    (comparef : file_t → file_t → Int) (files : List file_t) (disk : String → List Byte)
    (hq : flags.F_QUICKCOMPARE = false) (hp : flags.F_PARTIALONLY = false)
    (hchunk : 1 ≤ chunk)
    (hW : ∀ t name data, W.fopen t name = some data → data = disk name)
    (hlink : ∀ a ∈ files, ∀ b ∈ files, a.inode = b.inode → a.device = b.device →
      disk a.d_name = disk b.d_name) :
    ∀ c ∈ (scan_loop flags H W chunk comparef files scan_init).1.checktree.chains,
      ∀ x ∈ c, ∀ y ∈ c, disk x.d_name = disk y.d_name := by
  intro c hc
  exact (scan_loop_content flags H W chunk comparef files disk hq hp hchunk hW hlink files
    scan_init (fun _ h => h) (by simp [scan_init, filetree_t.chains]) c hc).2

/-- Witness of C1: `a` and `b` hold the same byte and `c` another one; `a` and
`b` end in one chain, and their contents are equal. -/
theorem scan_chains_equal_content_witness :
    exDisk (file_t.d_name { hashed fileA 1 with F_HAS_DUPES := true })
      = exDisk (file_t.d_name (hashed fileB 1)) :=
  scan_chains_equal_content noFlags sumHash (quietWorld exDisk) CHUNK_SIZE
    (sort_pairs_by_mtime noFlags 1) [fileA, fileB, fileC] exDisk rfl rfl (by decide)
    (by intro t name data h
        simp only [quietWorld, Option.some.injEq] at h
        exact h.symm)
    (by decide)
    [{ hashed fileA 1 with F_HAS_DUPES := true }, hashed fileB 1] (by decide)
    { hashed fileA 1 with F_HAS_DUPES := true } (by decide) (hashed fileB 1) (by decide)

/-- C10 (the code departs from the claim): with `-I` on, the files `b` and
`c` of the second argument both match `a` of the first argument, which heads
the chain, and end in one duplicate chain. -/
theorem scan_isolate_same_order_chain :
    ((scan_loop { noFlags with F_ISOLATE := true } sumHash (quietWorld (fun _ => [1])) CHUNK_SIZE
        (sort_pairs_by_mtime noFlags 1) [fileA, fileB, fileC] scan_init).1.checktree.chains).map
      (fun c => c.map (fun f => (f.d_name, f.user_order)))
      = [[("a", 1), ("b", 2), ("c", 2)]] := by
  decide

/-- C11 (the code departs from the claim): with `-H` off, `b` and its hard
link `b2` both match `a`, which heads the chain, and end in one duplicate
chain although they share inode and device. -/
theorem scan_hardlinks_same_chain :
    ((scan_loop noFlags sumHash (quietWorld (fun _ => [1])) CHUNK_SIZE
        (sort_pairs_by_mtime noFlags 1) [fileA, fileB, fileB2] scan_init).1.checktree.chains).map
      (fun c => c.map (fun f => (f.d_name, f.inode, f.device)))
      = [[("a", 7, 1), ("b", 8, 1), ("b2", 8, 1)]] := by
  decide

theorem grokdir_travdone_found (inode device : Nat) :
    ∀ (t t1 : travdone), grokdir_travdone true true inode device t = travdone_result.FIRST t1 →
      grokdir_travdone true true inode device t1 = travdone_result.REPEAT := by
  intro t
  induction t with
  | nil =>
    intro t1 h
    simp only [grokdir_travdone, if_true, travdone_result.FIRST.injEq] at h
    subst h
    simp [grokdir_travdone]
  | node l r i d ihl ihr =>
    intro t1 h
    rw [grokdir_travdone] at h
    by_cases h1 : ((true : Bool) = true ∧ inode = i ∧ device = d)
    · rw [if_pos h1] at h; exact absurd h (by simp)
    · rw [if_neg h1] at h
      by_cases h2 : inode > i ∨ (inode = i ∧ device > d)
      · rw [if_pos h2] at h
        rcases hr : grokdir_travdone true true inode device r with _ | r1 | _
        · rw [hr] at h; exact absurd h (by simp)
        · rw [hr] at h
          simp only [travdone_result.FIRST.injEq] at h
          subst h
          rw [grokdir_travdone, if_neg h1, if_pos h2, ihr r1 hr]
        · rw [hr] at h; exact absurd h (by simp)
      · rw [if_neg h2] at h
        rcases hl : grokdir_travdone true true inode device l with _ | l1 | _
        · rw [hl] at h; exact absurd h (by simp)
        · rw [hl] at h
          simp only [travdone_result.FIRST.injEq] at h
          subst h
          rw [grokdir_travdone, if_neg h1, if_neg h2, ihl l1 hl]
        · rw [hl] at h; exact absurd h (by simp)

theorem grokdir_travdone_stays (inode device i2 d2 : Nat) :
    ∀ (t t1 : travdone), grokdir_travdone true true inode device t = travdone_result.REPEAT →
      grokdir_travdone true true i2 d2 t = travdone_result.FIRST t1 →
      grokdir_travdone true true inode device t1 = travdone_result.REPEAT := by
  intro t
  induction t with
  | nil => intro t1 h; simp [grokdir_travdone] at h
  | node l r i d ihl ihr =>
    intro t1 h h'
    rw [grokdir_travdone] at h h'
    by_cases e1 : ((true : Bool) = true ∧ i2 = i ∧ d2 = d)
    · rw [if_pos e1] at h'; exact absurd h' (by simp)
    rw [if_neg e1] at h'
    have hkey : ∀ l1 r1 : travdone,
        (grokdir_travdone true true inode device l = travdone_result.REPEAT →
          grokdir_travdone true true inode device l1 = travdone_result.REPEAT) →
        (grokdir_travdone true true inode device r = travdone_result.REPEAT →
          grokdir_travdone true true inode device r1 = travdone_result.REPEAT) →
        grokdir_travdone true true inode device (travdone.node l1 r1 i d)
          = travdone_result.REPEAT := by
      intro l1 r1 hl1 hr1
      rw [grokdir_travdone]
      by_cases h1 : ((true : Bool) = true ∧ inode = i ∧ device = d)
      · rw [if_pos h1]
      · rw [if_neg h1] at h ⊢
        by_cases h2 : inode > i ∨ (inode = i ∧ device > d)
        · rw [if_pos h2] at h ⊢
          rcases hr : grokdir_travdone true true inode device r with _ | r2 | _
          · rw [hr1 hr]
          · rw [hr] at h; exact absurd h (by simp)
          · rw [hr] at h; exact absurd h (by simp)
        · rw [if_neg h2] at h ⊢
          rcases hl : grokdir_travdone true true inode device l with _ | l2 | _
          · rw [hl1 hl]
          · rw [hl] at h; exact absurd h (by simp)
          · rw [hl] at h; exact absurd h (by simp)
    by_cases e2 : i2 > i ∨ (i2 = i ∧ d2 > d)
    · rw [if_pos e2] at h'
      rcases hr : grokdir_travdone true true i2 d2 r with _ | r1 | _
      · rw [hr] at h'; exact absurd h' (by simp)
      · rw [hr] at h'
        simp only [travdone_result.FIRST.injEq] at h'
        subst h'
        exact hkey l r1 (fun x => x) (fun x => ihr r1 x hr)
      · rw [hr] at h'; exact absurd h' (by simp)
    · rw [if_neg e2] at h'
      rcases hl : grokdir_travdone true true i2 d2 l with _ | l1 | _
      · rw [hl] at h'; exact absurd h' (by simp)
      · rw [hl] at h'
        simp only [travdone_result.FIRST.injEq] at h'
        subst h'
        exact hkey l1 r (fun x => ihl l1 x hl) (fun x => x)
      · rw [hl] at h'; exact absurd h' (by simp)

theorem grokdir_travdone_first (inode device : Nat) :
    ∀ t : travdone, (inode, device) ∉ t.keys →
      ∃ t1, grokdir_travdone true true inode device t = travdone_result.FIRST t1 ∧
        ∀ x ∈ t1.keys, x = (inode, device) ∨ x ∈ t.keys := by
  intro t
  induction t with
  | nil =>
    intro _
    exact ⟨travdone.node travdone.nil travdone.nil inode device, by simp [grokdir_travdone],
      by simp [travdone.keys]⟩
  | node l r i d ihl ihr =>
    intro hk
    simp only [travdone.keys, List.mem_cons, List.mem_append, Prod.mk.injEq, not_or] at hk
    obtain ⟨hne, hl, hr⟩ := hk
    rw [grokdir_travdone]
    rw [if_neg (fun h => hne ⟨h.2.1, h.2.2⟩)]
    by_cases h2 : inode > i ∨ (inode = i ∧ device > d)
    · rw [if_pos h2]
      obtain ⟨r1, hr1, hk1⟩ := ihr hr
      rw [hr1]
      refine ⟨_, rfl, ?_⟩
      intro x hx
      simp only [travdone.keys, List.mem_cons, List.mem_append] at hx ⊢
      rcases hx with h | h | h
      · exact Or.inr (Or.inl h)
      · exact Or.inr (Or.inr (Or.inl h))
      · rcases hk1 x h with h3 | h3
        · exact Or.inl h3
        · exact Or.inr (Or.inr (Or.inr h3))
    · rw [if_neg h2]
      obtain ⟨l1, hl1, hk1⟩ := ihl hl
      rw [hl1]
      refine ⟨_, rfl, ?_⟩
      intro x hx
      simp only [travdone.keys, List.mem_cons, List.mem_append] at hx ⊢
      rcases hx with h | h | h
      · exact Or.inr (Or.inl h)
      · rcases hk1 x h with h3 | h3
        · exact Or.inl h3
        · exact Or.inr (Or.inr (Or.inl h3))
      · exact Or.inr (Or.inr (Or.inr h))

theorem grokdir_travdone_total (inode device : Nat) :
    ∀ t : travdone,
      grokdir_travdone true true inode device t = travdone_result.REPEAT ∨
      ∃ t1, grokdir_travdone true true inode device t = travdone_result.FIRST t1 ∧
        ∀ x ∈ t1.keys, x = (inode, device) ∨ x ∈ t.keys := by
  intro t
  induction t with
  | nil =>
    exact Or.inr ⟨travdone.node travdone.nil travdone.nil inode device,
      by simp [grokdir_travdone], by simp [travdone.keys]⟩
  | node l r i d ihl ihr =>
    rw [grokdir_travdone]
    by_cases h1 : ((true : Bool) = true ∧ inode = i ∧ device = d)
    · rw [if_pos h1]; exact Or.inl rfl
    · rw [if_neg h1]
      by_cases h2 : inode > i ∨ (inode = i ∧ device > d)
      · rw [if_pos h2]
        rcases ihr with hr | ⟨r1, hr1, hk1⟩
        · rw [hr]; exact Or.inl rfl
        · rw [hr1]
          refine Or.inr ⟨_, rfl, ?_⟩
          intro x hx
          simp only [travdone.keys, List.mem_cons, List.mem_append] at hx ⊢
          rcases hx with h | h | h
          · exact Or.inr (Or.inl h)
          · exact Or.inr (Or.inr (Or.inl h))
          · rcases hk1 x h with h3 | h3
            · exact Or.inl h3
            · exact Or.inr (Or.inr (Or.inr h3))
      · rw [if_neg h2]
        rcases ihl with hl | ⟨l1, hl1, hk1⟩
        · rw [hl]; exact Or.inl rfl
        · rw [hl1]
          refine Or.inr ⟨_, rfl, ?_⟩
          intro x hx
          simp only [travdone.keys, List.mem_cons, List.mem_append] at hx ⊢
          rcases hx with h | h | h
          · exact Or.inr (Or.inl h)
          · rcases hk1 x h with h3 | h3
            · exact Or.inl h3
            · exact Or.inr (Or.inr (Or.inl h3))
          · exact Or.inr (Or.inr (Or.inr h))

/-- The ledger invariant: every pair of `seen` is found again, and the ledger
holds no other pair. -/
theorem travdone_step_inv (seen : List (Nat × Nat)) (t : travdone) (c : Nat × Nat)
    (hfound : ∀ k ∈ seen, grokdir_travdone true true k.1 k.2 t = travdone_result.REPEAT)
    (hkeys : ∀ x ∈ t.keys, x ∈ seen) :
    (∀ k ∈ seen ++ [c],
      grokdir_travdone true true k.1 k.2 (travdone_step t c) = travdone_result.REPEAT) ∧
    (∀ x ∈ (travdone_step t c).keys, x ∈ seen ++ [c]) := by
  unfold travdone_step
  rcases grokdir_travdone_total c.1 c.2 t with h | ⟨t1, h, hk⟩
  · rw [h]
    simp only []
    constructor
    · intro k hk
      simp only [List.mem_append, List.mem_singleton] at hk
      rcases hk with hk | rfl
      · exact hfound k hk
      · exact h
    · intro x hx; simp [hkeys x hx]
  · rw [h]
    simp only []
    constructor
    · intro k hk1
      simp only [List.mem_append, List.mem_singleton] at hk1
      rcases hk1 with hk1 | rfl
      · exact grokdir_travdone_stays k.1 k.2 c.1 c.2 t t1 (hfound k hk1) h
      · exact grokdir_travdone_found k.1 k.2 t t1 h
    · intro x hx
      rcases hk x hx with h3 | h3
      · simp [h3]
      · simp [hkeys x h3]

theorem travdone_foldl_inv : ∀ (calls seen : List (Nat × Nat)) (t : travdone),
    (∀ k ∈ seen, grokdir_travdone true true k.1 k.2 t = travdone_result.REPEAT) →
    (∀ x ∈ t.keys, x ∈ seen) →
    (∀ k ∈ seen ++ calls, grokdir_travdone true true k.1 k.2 (calls.foldl travdone_step t)
      = travdone_result.REPEAT) ∧
    (∀ x ∈ (calls.foldl travdone_step t).keys, x ∈ seen ++ calls) := by
  intro calls
  induction calls with
  | nil =>
    intro seen t h1 h2
    rw [List.append_nil]
    exact ⟨h1, h2⟩
  | cons c cs ih =>
    intro seen t h1 h2
    obtain ⟨a1, a2⟩ := travdone_step_inv seen t c h1 h2
    have := ih (seen ++ [c]) (travdone_step t c) a1 a2
    rw [List.append_assoc, List.singleton_append] at this
    exact this

theorem travdone_enumerated_inv : ∀ (calls : List (Nat × Nat)) (t : travdone),
    (travdone_enumerated t calls).Nodup ∧
    (∀ c ∈ travdone_enumerated t calls,
      c ∈ calls ∧ grokdir_travdone true true c.1 c.2 t ≠ travdone_result.REPEAT) := by
  intro calls
  induction calls with
  | nil => intro t; simp [travdone_enumerated]
  | cons c cs ih =>
    intro t
    rw [travdone_enumerated]
    rcases grokdir_travdone_total c.1 c.2 t with h | ⟨t1, h, _⟩
    · rw [h]
      simp only []
      obtain ⟨b1, b2⟩ := ih t
      exact ⟨b1, fun x hx => ⟨List.mem_cons_of_mem _ (b2 x hx).1, (b2 x hx).2⟩⟩
    · rw [h]
      simp only []
      obtain ⟨b1, b2⟩ := ih t1
      have hstay : ∀ x : Nat × Nat,
          grokdir_travdone true true x.1 x.2 t = travdone_result.REPEAT →
          grokdir_travdone true true x.1 x.2 t1 = travdone_result.REPEAT :=
        fun x hx => grokdir_travdone_stays x.1 x.2 c.1 c.2 t t1 hx h
      refine ⟨List.nodup_cons.2 ⟨?_, b1⟩, ?_⟩
      · intro hc
        exact (b2 c hc).2 (grokdir_travdone_found c.1 c.2 t t1 h)
      · intro x hx
        rcases List.mem_cons.1 hx with rfl | hx
        · exact ⟨List.mem_cons_self _ _, by rw [h]; simp⟩
        · exact ⟨List.mem_cons_of_mem _ (b2 x hx).1, fun hr => (b2 x hx).2 (hstay x hr)⟩

/-- C12: over any sequence of `grokdir` calls on directories (memory
permitting), the traversal ledger behaves as a set of (inode, device) pairs: a
call whose pair was registered by an earlier call returns at once (REPEAT), a
call whose pair was not adds it to the ledger and proceeds (FIRST), and no
pair is enumerated twice. -/
theorem travdone_ledger_set (calls : List (Nat × Nat)) (inode device : Nat) :
    ((inode, device) ∈ calls →
      grokdir_travdone true true inode device (travdone_after calls)
        = travdone_result.REPEAT) ∧
    ((inode, device) ∉ calls →
      grokdir_travdone true true inode device (travdone_after calls)
        = travdone_result.FIRST (travdone_after (calls ++ [(inode, device)])) ∧
      grokdir_travdone true true inode device (travdone_after (calls ++ [(inode, device)]))
        = travdone_result.REPEAT) ∧
    (travdone_enumerated travdone.nil calls).Nodup := by
  have hinv := travdone_foldl_inv calls [] travdone.nil (by simp) (by simp [travdone.keys])
  rw [List.nil_append] at hinv
  refine ⟨fun hm => hinv.1 (inode, device) hm, fun hm => ?_,
    (travdone_enumerated_inv calls travdone.nil).1⟩
  have hk : (inode, device) ∉ (travdone_after calls).keys := fun h => hm (hinv.2 _ h)
  obtain ⟨t1, h1, _⟩ := grokdir_travdone_first inode device (travdone_after calls) hk
  have hstep : travdone_after (calls ++ [(inode, device)]) = t1 := by
    simp only [travdone_after, List.foldl_append, List.foldl_cons, List.foldl_nil]
    show travdone_step (travdone_after calls) (inode, device) = t1
    simp only [travdone_step, h1]
  rw [hstep]
  exact ⟨h1, grokdir_travdone_found inode device _ t1 h1⟩

theorem file_has_changed_stat (file : file_t) (s : stat_t) (lstat_r : Option stat_t)
    (hv : file.F_VALID_STAT = true) :
    file_has_changed file (some s) lstat_r =
      if file.inode ≠ s.st_ino ∨ file.size ≠ s.st_size ∨ file.device ≠ s.st_dev ∨
          file.mtime ≠ s.st_mtime ∨ file.mode ≠ s.st_mode ∨ file.uid ≠ s.st_uid ∨
          file.gid ≠ s.st_gid then 1
      else
        match lstat_r with
        | none => -3
        | some l => if xor (S_ISLNK l.st_mode) file.F_IS_SYMLINK then 1 else 0 := by
  unfold file_has_changed
  simp only [hv, not_true_eq_false, if_false]
  split_ifs <;> first | rfl | (exfalso; tauto)

/-- C13: `file_has_changed` returns 0 exactly when the record has
`F_VALID_STAT`, `stat` and `lstat` succeed, and inode, size, device, mtime,
mode, uid, gid and the symlink bit all equal the stored ones; it returns a
negative value when the record was never stat'd or `stat` fails (or `lstat`
fails, which is called once the `stat` fields were found equal); on a stat'd
record it returns 1 when `stat` succeeds and one of its fields differs, or
when both succeed and the symlink bit differs. -/
theorem file_has_changed_spec (file : file_t) (stat_r lstat_r : Option stat_t) :
    (file_has_changed file stat_r lstat_r = 0 ↔
      file.F_VALID_STAT = true ∧ ∃ s l, stat_r = some s ∧ lstat_r = some l ∧
        file.inode = s.st_ino ∧ file.size = s.st_size ∧ file.device = s.st_dev ∧
        file.mtime = s.st_mtime ∧ file.mode = s.st_mode ∧ file.uid = s.st_uid ∧
        file.gid = s.st_gid ∧ S_ISLNK l.st_mode = file.F_IS_SYMLINK) ∧
    ((file.F_VALID_STAT = false ∨ stat_r = none) → file_has_changed file stat_r lstat_r < 0) ∧
    (file.F_VALID_STAT = true → ∀ s, stat_r = some s →
      (file.inode ≠ s.st_ino ∨ file.size ≠ s.st_size ∨ file.device ≠ s.st_dev ∨
        file.mtime ≠ s.st_mtime ∨ file.mode ≠ s.st_mode ∨ file.uid ≠ s.st_uid ∨
        file.gid ≠ s.st_gid) → file_has_changed file stat_r lstat_r = 1) ∧
    (file.F_VALID_STAT = true → ∀ s l, stat_r = some s → lstat_r = some l →
      S_ISLNK l.st_mode ≠ file.F_IS_SYMLINK → file_has_changed file stat_r lstat_r = 1) ∧
    (file.F_VALID_STAT = true → ∀ s, stat_r = some s → lstat_r = none →
      ¬ (file.inode ≠ s.st_ino ∨ file.size ≠ s.st_size ∨ file.device ≠ s.st_dev ∨
        file.mtime ≠ s.st_mtime ∨ file.mode ≠ s.st_mode ∨ file.uid ≠ s.st_uid ∨
        file.gid ≠ s.st_gid) → file_has_changed file stat_r lstat_r < 0) := by
  have hxor : ∀ a b : Bool, xor a b = true ↔ a ≠ b := by decide
  refine ⟨?_, ?_, ?_, ?_, ?_⟩
  · constructor
    · intro h
      cases hv : file.F_VALID_STAT with
      | false => simp [file_has_changed, hv] at h
      | true =>
        cases stat_r with
        | none => simp [file_has_changed, hv] at h
        | some s =>
          rw [file_has_changed_stat file s lstat_r hv] at h
          by_cases hd : file.inode ≠ s.st_ino ∨ file.size ≠ s.st_size ∨
              file.device ≠ s.st_dev ∨ file.mtime ≠ s.st_mtime ∨ file.mode ≠ s.st_mode ∨
              file.uid ≠ s.st_uid ∨ file.gid ≠ s.st_gid
          · rw [if_pos hd] at h; exact absurd h (by decide)
          · rw [if_neg hd] at h
            cases lstat_r with
            | none => simp at h
            | some l =>
              simp only [] at h
              by_cases hx : xor (S_ISLNK l.st_mode) file.F_IS_SYMLINK = true
              · rw [if_pos hx] at h; exact absurd h (by decide)
              · have hx2 : S_ISLNK l.st_mode = file.F_IS_SYMLINK := by
                  by_contra hne
                  exact hx ((hxor _ _).2 hne)
                simp only [not_or, not_not] at hd
                exact ⟨rfl, s, l, rfl, rfl, hd.1, hd.2.1, hd.2.2.1, hd.2.2.2.1, hd.2.2.2.2.1,
                  hd.2.2.2.2.2.1, hd.2.2.2.2.2.2, hx2⟩
    · rintro ⟨hv, s, l, rfl, rfl, h1, h2, h3, h4, h5, h6, h7, h8⟩
      rw [file_has_changed_stat file s (some l) hv]
      rw [if_neg (by simp [h1, h2, h3, h4, h5, h6, h7])]
      simp only []
      rw [if_neg (by rw [h8]; simp)]
  · rintro (hv | rfl)
    · simp [file_has_changed, hv]
    · cases hv : file.F_VALID_STAT <;> simp [file_has_changed, hv]
  · intro hv s hs hd
    subst hs
    rw [file_has_changed_stat file s lstat_r hv, if_pos hd]
  · intro hv s l hs hl hne
    subst hs hl
    rw [file_has_changed_stat file s (some l) hv]
    by_cases h1 : file.inode ≠ s.st_ino ∨ file.size ≠ s.st_size ∨
        file.device ≠ s.st_dev ∨ file.mtime ≠ s.st_mtime ∨ file.mode ≠ s.st_mode ∨
        file.uid ≠ s.st_uid ∨ file.gid ≠ s.st_gid
    · rw [if_pos h1]
    · rw [if_neg h1]
      simp only []
      rw [if_pos ((hxor _ _).2 hne)]
  · intro hv s hs hl hd
    subst hs hl
    rw [file_has_changed_stat file s none hv, if_neg hd]
    simp

/-- C14 (counterexample): on a fresh record whose `stat` fails, `getfilestats`
returns -1 but leaves `F_VALID_STAT` set, and a second call returns 0 without
looking at the file. -/
theorem getfilestats_failure_sets_valid_stat :
    (getfilestats (init_newfile "a" 1) none none).1 = -1 ∧
    (getfilestats (init_newfile "a" 1) none none).2.F_VALID_STAT = true ∧
    (getfilestats (getfilestats (init_newfile "a" 1) none none).2
        (some (regStat 5)) (some (regStat 5))).1 = 0 ∧
    (getfilestats (getfilestats (init_newfile "a" 1) none none).2
        (some (regStat 5)) (some (regStat 5))).2.size = -1 := by
  decide

/-- C14 (amended): `getfilestats` stats a record at most once.  On a record
without `F_VALID_STAT`, if `stat` or `lstat` fails the call returns the error
-1, with `F_VALID_STAT` raised (it is raised before `stat` is called); every
later call returns 0 and leaves the record as it is, whatever the file; and
when `stat` itself fails nothing but that flag has changed, so the size keeps
its value (the -1 sentinel of a new record). -/
theorem getfilestats_stat_once (file : file_t) (stat_r lstat_r : Option stat_t)
    (hv : file.F_VALID_STAT = false) (hfail : stat_r = none ∨ lstat_r = none) :
    (getfilestats file stat_r lstat_r).1 = -1 ∧
    (getfilestats file stat_r lstat_r).2.F_VALID_STAT = true ∧
    (∀ s l, getfilestats (getfilestats file stat_r lstat_r).2 s l
      = (0, (getfilestats file stat_r lstat_r).2)) ∧
    (stat_r = none →
      (getfilestats file stat_r lstat_r).2 = { file with F_VALID_STAT := true }) := by
  have hlater : ∀ (g : file_t) s l, g.F_VALID_STAT = true → getfilestats g s l = (0, g) := by
    intro g s l hg
    simp [getfilestats, hg]
  cases stat_r with
  | none =>
    have e : getfilestats file none lstat_r = (-1, { file with F_VALID_STAT := true }) := by
      simp [getfilestats, hv]
    rw [e]
    exact ⟨rfl, rfl, fun s l => hlater _ s l rfl, fun _ => rfl⟩
  | some s =>
    rcases hfail with h | h
    · exact absurd h (by simp)
    · subst h
      have e : getfilestats file (some s) none
          = (-1, { file with
                     F_VALID_STAT := true, inode := s.st_ino, size := s.st_size,
                     device := s.st_dev, mtime := s.st_mtime, mode := s.st_mode,
                     uid := s.st_uid, gid := s.st_gid }) := by
        simp [getfilestats, hv]
      rw [e]
      exact ⟨rfl, rfl, fun s l => hlater _ s l rfl, fun h => absurd h (by simp)⟩

/-- Witness of the amended C14: a fresh record whose `stat` fails. -/
theorem getfilestats_stat_once_witness :
    (getfilestats (init_newfile "a" 1) none none).1 = -1 ∧
    (getfilestats (init_newfile "a" 1) none none).2.F_VALID_STAT = true ∧
    (∀ s l, getfilestats (getfilestats (init_newfile "a" 1) none none).2 s l
      = (0, (getfilestats (init_newfile "a" 1) none none).2)) ∧
    ((none : Option stat_t) = none →
      (getfilestats (init_newfile "a" 1) none none).2
        = { init_newfile "a" 1 with F_VALID_STAT := true }) :=
  getfilestats_stat_once (init_newfile "a" 1) none none rfl (Or.inl rfl)

theorem exclude_foldl_ne_zero (size : Int) : ∀ (l : List exclude) (init : Int),
    (l.foldl (fun excluded excl => if exclude_matches excl size then 1 else excluded) init ≠ 0
      ↔ init ≠ 0 ∨ ∃ e ∈ l, exclude_matches e size = true) := by
  intro l
  induction l with
  | nil => intro init; simp
  | cons a rest ih =>
    intro init
    rw [List.foldl_cons, ih]
    by_cases ha : exclude_matches a size = true
    · simp [ha]
    · simp [ha]

/-- The value of `check_singlefile` on a file that is not a directory, is not
hidden away, whose stat succeeded and that is not rejected for being empty:
1 exactly when some rule of the exclusion stack matches its size. -/
theorem check_singlefile_rules (flags : Flags) (basename : String → String)
    (exclude_head : List exclude) (newfile f : file_t) (stat_r lstat_r : Option stat_t)
    (hhid : ¬ (flags.F_EXCLUDEHIDDEN = true ∧ hidden_name (basename newfile.d_name) = true))
    (hstat : getfilestats newfile stat_r lstat_r = (0, f)) (hsize : f.size ≠ -1)
    (hdir : S_ISDIR f.mode = false)
    (hempty : ¬ (f.size = 0 ∧ flags.F_INCLUDEEMPTY = false)) :
    check_singlefile flags basename exclude_head newfile stat_r lstat_r
      = (if ∃ e ∈ exclude_head, exclude_matches e f.size = true then 1 else 0, f) := by
  unfold check_singlefile
  rw [if_neg hhid]
  simp only [hstat]
  rw [if_neg (by simp [hsize]), if_pos (by simp [hdir]),
    if_neg (by simpa using hempty)]
  have := exclude_foldl_ne_zero f.size exclude_head 0
  simp only [ne_eq, not_true_eq_false, false_or] at this
  by_cases he : ∃ e ∈ exclude_head, exclude_matches e f.size = true
  · rw [if_pos (this.2 he), if_pos he]
  · rw [if_neg (fun h => he (this.1 h)), if_neg he]

/-- C16: in `check_singlefile`, for a non-directory whose stat succeeded
(and that is neither hidden away nor rejected as empty), the file is rejected
exactly when some rule of the exclusion list matches its size, and a rule
`SIZE_LT t` matches iff `size < t`, `SIZE_LTEQ t` iff `size ≤ t`, `SIZE_GT t`
iff `size > t`, `SIZE_GTEQ t` iff `size ≥ t`. -/
theorem check_singlefile_size_exclusion (flags : Flags) (basename : String → String)
    (exclude_head : List exclude) (newfile f : file_t) (stat_r lstat_r : Option stat_t)
    (hhid : ¬ (flags.F_EXCLUDEHIDDEN = true ∧ hidden_name (basename newfile.d_name) = true))
    (hstat : getfilestats newfile stat_r lstat_r = (0, f)) (hsize : f.size ≠ -1)
    (hdir : S_ISDIR f.mode = false)
    (hempty : ¬ (f.size = 0 ∧ flags.F_INCLUDEEMPTY = false)) :
    ((check_singlefile flags basename exclude_head newfile stat_r lstat_r).1 = 1 ↔
      ∃ e ∈ exclude_head, exclude_matches e f.size = true) ∧
    ((check_singlefile flags basename exclude_head newfile stat_r lstat_r).1 = 0 ↔
      ¬ ∃ e ∈ exclude_head, exclude_matches e f.size = true) ∧
    (∀ t size : Int,
      (exclude_matches ⟨exclude_tag.X_SIZE_LT, t⟩ size = true ↔ size < t) ∧
      (exclude_matches ⟨exclude_tag.X_SIZE_LTEQ, t⟩ size = true ↔ size ≤ t) ∧
      (exclude_matches ⟨exclude_tag.X_SIZE_GT, t⟩ size = true ↔ size > t) ∧
      (exclude_matches ⟨exclude_tag.X_SIZE_GTEQ, t⟩ size = true ↔ size ≥ t)) := by
  rw [check_singlefile_rules flags basename exclude_head newfile f stat_r lstat_r hhid hstat
    hsize hdir hempty]
  refine ⟨?_, ?_, ?_⟩
  · by_cases he : ∃ e ∈ exclude_head, exclude_matches e f.size = true
    · rw [if_pos he]; exact ⟨fun _ => he, fun _ => rfl⟩
    · rw [if_neg he]; exact ⟨fun h => absurd h (by simp), fun h => absurd h he⟩
  · by_cases he : ∃ e ∈ exclude_head, exclude_matches e f.size = true
    · rw [if_pos he]; exact ⟨fun h => absurd h (by simp), fun h => absurd he h⟩
    · rw [if_neg he]; exact ⟨fun _ => he, fun _ => rfl⟩
  · intro t size
    simp [exclude_matches]

/-- Witness of C16: a file of 5 bytes against the rule `SIZE_LT 10`. -/
theorem check_singlefile_size_exclusion_witness :
    ((check_singlefile noFlags id [⟨exclude_tag.X_SIZE_LT, 10⟩] (init_newfile "a" 1)
        (some (regStat 5)) (some (regStat 5))).1 = 1 ↔
      ∃ e ∈ [(⟨exclude_tag.X_SIZE_LT, 10⟩ : exclude)],
        exclude_matches e (getfilestats (init_newfile "a" 1) (some (regStat 5))
          (some (regStat 5))).2.size = true) ∧
    ((check_singlefile noFlags id [⟨exclude_tag.X_SIZE_LT, 10⟩] (init_newfile "a" 1)
        (some (regStat 5)) (some (regStat 5))).1 = 0 ↔
      ¬ ∃ e ∈ [(⟨exclude_tag.X_SIZE_LT, 10⟩ : exclude)],
        exclude_matches e (getfilestats (init_newfile "a" 1) (some (regStat 5))
          (some (regStat 5))).2.size = true) ∧
    (∀ t size : Int,
      (exclude_matches ⟨exclude_tag.X_SIZE_LT, t⟩ size = true ↔ size < t) ∧
      (exclude_matches ⟨exclude_tag.X_SIZE_LTEQ, t⟩ size = true ↔ size ≤ t) ∧
      (exclude_matches ⟨exclude_tag.X_SIZE_GT, t⟩ size = true ↔ size > t) ∧
      (exclude_matches ⟨exclude_tag.X_SIZE_GTEQ, t⟩ size = true ↔ size ≥ t)) :=
  check_singlefile_size_exclusion noFlags id [⟨exclude_tag.X_SIZE_LT, 10⟩] (init_newfile "a" 1)
    (getfilestats (init_newfile "a" 1) (some (regStat 5)) (some (regStat 5))).2
    (some (regStat 5)) (some (regStat 5)) (by decide) (by decide) (by decide) (by decide)
    (by decide)

/-- C17 (the code departs from the claim): with the rule `SIZE_EQ 5`, a file
of 5 bytes is admitted and a file of 6 bytes is rejected: the rule fires when
the size differs from the threshold. -/
theorem check_singlefile_size_eq_inverted :
    (check_singlefile noFlags id [⟨exclude_tag.X_SIZE_EQ, 5⟩] (init_newfile "a" 1)
      (some (regStat 5)) (some (regStat 5))).1 = 0 ∧
    (check_singlefile noFlags id [⟨exclude_tag.X_SIZE_EQ, 5⟩] (init_newfile "a" 1)
      (some (regStat 6)) (some (regStat 6))).1 = 1 ∧
    (∀ t size : Int, exclude_matches ⟨exclude_tag.X_SIZE_EQ, t⟩ size = true ↔ size ≠ t) := by
  refine ⟨by decide, by decide, ?_⟩
  intro t size
  simp [exclude_matches]

theorem S_ISDIR_of_S_ISREG (mode : Nat) (h : S_ISREG mode = true) : S_ISDIR mode = false := by
  simp only [S_ISREG, beq_iff_eq] at h
  simp [S_ISDIR, h]

/-- C18: for a regular file whose stat succeeded and which neither the hidden
rule nor a size rule excludes, `check_singlefile` rejects it when its size is
zero and include-empty is off, and admits it when its size is zero and
include-empty is on or when its size is positive. -/
theorem check_singlefile_empty (flags : Flags) (basename : String → String)
    (exclude_head : List exclude) (newfile f : file_t) (stat_r lstat_r : Option stat_t)
    (hhid : ¬ (flags.F_EXCLUDEHIDDEN = true ∧ hidden_name (basename newfile.d_name) = true))
    (hstat : getfilestats newfile stat_r lstat_r = (0, f)) (hsize : f.size ≠ -1)
    (hreg : S_ISREG f.mode = true)
    (hrules : ∀ e ∈ exclude_head, exclude_matches e f.size = false) :
    ((f.size = 0 ∧ flags.F_INCLUDEEMPTY = false) →
      (check_singlefile flags basename exclude_head newfile stat_r lstat_r).1 = 1) ∧
    (((f.size = 0 ∧ flags.F_INCLUDEEMPTY = true) ∨ f.size > 0) →
      (check_singlefile flags basename exclude_head newfile stat_r lstat_r).1 = 0) := by
  have hdir := S_ISDIR_of_S_ISREG f.mode hreg
  constructor
  · intro he
    unfold check_singlefile
    rw [if_neg hhid]
    simp only [hstat]
    rw [if_neg (by simp [hsize]), if_pos (by simp [hdir]), if_pos (by simpa using he)]
  · intro hne
    have hempty : ¬ (f.size = 0 ∧ flags.F_INCLUDEEMPTY = false) := by
      rintro ⟨h0, hi⟩
      rcases hne with ⟨_, h1⟩ | h1
      · rw [hi] at h1; exact absurd h1 (by decide)
      · omega
    rw [check_singlefile_rules flags basename exclude_head newfile f stat_r lstat_r hhid hstat
      hsize hdir hempty]
    rw [if_neg]
    rintro ⟨e, he, hm⟩
    rw [hrules e he] at hm
    exact absurd hm (by decide)

/-- Witness of C18: an empty regular file, include-empty off. -/
theorem check_singlefile_empty_witness :
    (((getfilestats (init_newfile "a" 1) (some (regStat 0)) (some (regStat 0))).2.size = 0 ∧
        noFlags.F_INCLUDEEMPTY = false) →
      (check_singlefile noFlags id [] (init_newfile "a" 1) (some (regStat 0))
        (some (regStat 0))).1 = 1) ∧
    ((((getfilestats (init_newfile "a" 1) (some (regStat 0)) (some (regStat 0))).2.size = 0 ∧
        noFlags.F_INCLUDEEMPTY = true) ∨
        (getfilestats (init_newfile "a" 1) (some (regStat 0)) (some (regStat 0))).2.size > 0) →
      (check_singlefile noFlags id [] (init_newfile "a" 1) (some (regStat 0))
        (some (regStat 0))).1 = 0) :=
  check_singlefile_empty noFlags id [] (init_newfile "a" 1)
    (getfilestats (init_newfile "a" 1) (some (regStat 0)) (some (regStat 0))).2
    (some (regStat 0)) (some (regStat 0)) (by decide) (by decide) (by decide) (by decide)
    (by decide)

/-- C19 (the code departs from the claim): with include-empty on, a FIFO that
is not a symlink passes `check_singlefile` and is prepended to the file list,
though it is not a regular file. -/
theorem grokdir_adds_fifo :
    (check_singlefile { noFlags with F_INCLUDEEMPTY := true } id [] (init_newfile "p" 1)
      (some fifoStat) (some fifoStat)).1 = 0 ∧
    grokdir_file { noFlags with F_INCLUDEEMPTY := true }
      (check_singlefile { noFlags with F_INCLUDEEMPTY := true } id [] (init_newfile "p" 1)
        (some fifoStat) (some fifoStat)).2 = grokdir_action.added ∧
    S_ISREG (check_singlefile { noFlags with F_INCLUDEEMPTY := true } id []
      (init_newfile "p" 1) (some fifoStat) (some fifoStat)).2.mode = false ∧
    (check_singlefile { noFlags with F_INCLUDEEMPTY := true } id [] (init_newfile "p" 1)
      (some fifoStat) (some fifoStat)).2.F_IS_SYMLINK = false := by
  decide

theorem registerpair_loop_false_eq (comparef : file_t → file_t → Int) (newmatch : file_t) :
    ∀ (a : file_t) (rest : List file_t),
      registerpair_loop comparef newmatch false (a :: rest)
        = (a :: rest).takeWhile (fun T => decide (comparef newmatch T > 0)) ++
            newmatch :: (a :: rest).dropWhile (fun T => decide (comparef newmatch T > 0)) := by
  intro a rest
  induction rest generalizing a with
  | nil =>
    by_cases h : comparef newmatch a ≤ 0
    · rw [registerpair_loop_le comparef newmatch a false [] h]
      have hp : decide (comparef newmatch a > 0) = false := by simp [h]
      simp [List.takeWhile, List.dropWhile, hp]
    · rw [registerpair_loop_last comparef newmatch a false h]
      have hp : decide (comparef newmatch a > 0) = true := by simp; omega
      simp [List.takeWhile, List.dropWhile, hp]
  | cons c r ih =>
    by_cases h : comparef newmatch a ≤ 0
    · rw [registerpair_loop_le comparef newmatch a false (c :: r) h]
      have hp : decide (comparef newmatch a > 0) = false := by simp [h]
      simp [List.takeWhile, List.dropWhile, hp]
    · rw [registerpair_loop_next comparef newmatch a c false r h, ih c]
      have hp : decide (comparef newmatch a > 0) = true := by simp; omega
      have e1 : (a :: c :: r).takeWhile (fun T => decide (comparef newmatch T > 0))
          = a :: (c :: r).takeWhile (fun T => decide (comparef newmatch T > 0)) :=
        List.takeWhile_cons_of_pos hp
      have e2 : (a :: c :: r).dropWhile (fun T => decide (comparef newmatch T > 0))
          = (c :: r).dropWhile (fun T => decide (comparef newmatch T > 0)) :=
        List.dropWhile_cons_of_pos hp
      rw [e1, e2]
      rfl

/-- C27: `registerpair` on the chain `head :: rest` (the head gets
`F_HAS_DUPES` first) inserts `newmatch` immediately before the first member
`T` with `comparef (newmatch, T) ≤ 0`, or after the last member if there is
none.  The prior members keep their order and `newmatch` occurs once.  When
`newmatch` goes before the old head it becomes the head (it takes
`F_HAS_DUPES`, the old head loses it); otherwise the old head stays the head
and no other record changes. -/
theorem registerpair_inserts (comparef : file_t → file_t → Int) (head : file_t)
    (rest : List file_t) (newmatch : file_t) :
    registerpair (head :: rest) newmatch comparef =
      if comparef newmatch { head with F_HAS_DUPES := true } ≤ 0 then
        { newmatch with F_HAS_DUPES := true } :: { head with F_HAS_DUPES := false } :: rest
      else
        { head with F_HAS_DUPES := true } ::
          (rest.takeWhile (fun T => decide (comparef newmatch T > 0)) ++
            newmatch :: rest.dropWhile (fun T => decide (comparef newmatch T > 0))) := by
  show registerpair_loop comparef newmatch true ({ head with F_HAS_DUPES := true } :: rest) = _
  by_cases h : comparef newmatch { head with F_HAS_DUPES := true } ≤ 0
  · rw [if_pos h, registerpair_loop_le comparef newmatch _ true rest h]
    rfl
  · rw [if_neg h]
    cases rest with
    | nil =>
      rw [registerpair_loop_last comparef newmatch _ true h]
      rfl
    | cons c r =>
      rw [registerpair_loop_next comparef newmatch _ c true r h,
        registerpair_loop_false_eq comparef newmatch c r]

theorem same_shape_refl : ∀ tree : filetree_t, tree.same_shape tree := by
  intro tree
  induction tree with
  | nil => exact True.intro
  | node f d l r ihl ihr => exact ⟨rfl, rfl, ihl, ihr⟩

theorem leaf_attached_congr (file file1 : file_t) (h : file1.unhashed = file.unhashed) :
    ∀ a b : filetree_t, a.leaf_attached file1 b → a.leaf_attached file b := by
  intro a
  induction a with
  | nil => intro b hb; exact hb.elim
  | node f d l r ihl ihr =>
    intro b hb
    cases b with
    | nil => exact hb.elim
    | node f1 d1 l1 r1 =>
      obtain ⟨h1, h2, h3⟩ := hb
      refine ⟨h1, h2, ?_⟩
      rcases h3 with ⟨hl, ⟨g, hg, e⟩, hr⟩ | ⟨hr, ⟨g, hg, e⟩, hl⟩ | ⟨hl, hr⟩ | ⟨hr, hl⟩
      · exact Or.inl ⟨hl, ⟨g, hg.trans h, e⟩, hr⟩
      · exact Or.inr (Or.inl ⟨hr, ⟨g, hg.trans h, e⟩, hl⟩)
      · exact Or.inr (Or.inr (Or.inl ⟨ihl l1 hl, hr⟩))
      · exact Or.inr (Or.inr (Or.inr ⟨ihr r1 hr, hl⟩))

/-- What a call of `checkmatch` does to the tree: nothing but recording hash
fields, or, when it returns `NULL`, attaching one leaf for the new file. -/
theorem checkmatch_shape (flags : Flags) (H : XXH64) (W : World) (chunk : Nat) :
    ∀ (tree : filetree_t) (file : file_t) (t : Nat),
      tree.same_shape (checkmatch flags H W chunk tree file t).tree ∨
      ((checkmatch flags H W chunk tree file t).result = none ∧
        tree.leaf_attached file (checkmatch flags H W chunk tree file t).tree) := by
  intro tree
  induction tree with
  | nil => intro file t; exact Or.inl True.intro
  | node tf dups left right ihl ihr =>
    intro file t
    apply checkmatch_node_cases flags H W chunk tf dups left right file t
      (fun res => (filetree_t.node tf dups left right).same_shape res.tree ∨
        (res.result = none ∧ (filetree_t.node tf dups left right).leaf_attached file res.tree))
    · intro _; exact Or.inl (same_shape_refl _)
    · intro _; exact Or.inl (same_shape_refl _)
    · intro tf1 file1 t1 _ hd
      have := (checkmatch_data_unhashed flags H W chunk t tf file).1
      rw [hd] at this
      exact Or.inl ⟨this, rfl, same_shape_refl _, same_shape_refl _⟩
    · intro tf1 file1 t1 cmpresult hpre
      obtain ⟨htf, hfile⟩ :=
        checkmatch_step_unhashed flags H W chunk t tf file tf1 file1 t1 cmpresult hpre
      refine ⟨?_, ?_, ?_, ?_, ?_⟩
      · intro _ hl
        exact Or.inr ⟨rfl, htf, rfl, Or.inl ⟨hl, ⟨file1, hfile, rfl⟩, rfl⟩⟩
      · intro _ _
        rcases ihl file1 t1 with hs | ⟨hn, ha⟩
        · exact Or.inl ⟨htf, rfl, hs, same_shape_refl _⟩
        · refine Or.inr ⟨by rw [hn]; rfl, htf, rfl, Or.inr (Or.inr (Or.inl ⟨?_, rfl⟩))⟩
          exact leaf_attached_congr file file1 hfile _ _ ha
      · intro _ hr
        exact Or.inr ⟨rfl, htf, rfl, Or.inr (Or.inl ⟨hr, ⟨file1, hfile, rfl⟩, rfl⟩)⟩
      · intro _ _
        rcases ihr file1 t1 with hs | ⟨hn, ha⟩
        · exact Or.inl ⟨htf, rfl, same_shape_refl _, hs⟩
        · refine Or.inr ⟨by rw [hn]; rfl, htf, rfl, Or.inr (Or.inr (Or.inr ⟨?_, rfl⟩))⟩
          exact leaf_attached_congr file file1 hfile _ _ ha
      · intro _; exact Or.inl ⟨htf, rfl, same_shape_refl _, same_shape_refl _⟩

/-- C28: the comparison tree is never rebalanced.  Every call of `checkmatch`
either leaves the tree with the same nodes at the same places (each node keeps
its file up to the hash fields recorded on the way, its chain and both
children), or returns `NULL` having attached exactly one leaf, holding the new
file, at a child position that was `NULL`, every node on the way down keeping
its file, its chain and its other child.  A call that returns a match leaves
the shape unchanged. -/
theorem checkmatch_never_rebalances (flags : Flags) (H : XXH64) (W : World) (chunk : Nat)
    (tree : filetree_t) (file : file_t) (t : Nat) :
    (tree.same_shape (checkmatch flags H W chunk tree file t).tree ∨
      ((checkmatch flags H W chunk tree file t).result = none ∧
        tree.leaf_attached file (checkmatch flags H W chunk tree file t).tree)) ∧
    ((checkmatch flags H W chunk tree file t).result ≠ none →
      tree.same_shape (checkmatch flags H W chunk tree file t).tree) := by
  refine ⟨checkmatch_shape flags H W chunk tree file t, fun hne => ?_⟩
  rcases checkmatch_shape flags H W chunk tree file t with hs | ⟨hn, _⟩
  · exact hs
  · exact absurd hn hne

theorem ensure_partial_full_fields (H : XXH64) (W : World) (chunk t : Nat) (f g : file_t)
    (t1 : Nat) (h : ensure_partial H W chunk t f = (some g, t1)) :
    g.F_HASH_FULL = f.F_HASH_FULL ∧ g.filehash = f.filehash := by
  rcases ensure_partial_some H W chunk t f g t1 h with ⟨_, rfl⟩ | ⟨_, v, _, rfl⟩ <;>
    exact ⟨rfl, rfl⟩

theorem ensure_partial_fail (H : XXH64) (W : World) (chunk t : Nat) (f : file_t)
    (hf : f.F_HASH_PARTIAL = false)
    (h : (get_filehash H W chunk t f PARTIAL_HASH_SIZE).1 = none) :
    ensure_partial H W chunk t f
      = (none, (get_filehash H W chunk t f PARTIAL_HASH_SIZE).2) := by
  unfold ensure_partial
  rw [if_neg (by rw [hf]; decide)]
  rcases hg : get_filehash H W chunk t f PARTIAL_HASH_SIZE with ⟨o, t1⟩
  rw [hg] at h
  simp only [] at h
  subst h
  rfl

theorem ensure_full_fail (H : XXH64) (W : World) (chunk t : Nat) (f : file_t)
    (hf : f.F_HASH_FULL = false) (h : (get_filehash H W chunk t f 0).1 = none) :
    ensure_full H W chunk t f = (none, (get_filehash H W chunk t f 0).2) := by
  unfold ensure_full
  rw [if_neg (by rw [hf]; decide)]
  rcases hg : get_filehash H W chunk t f 0 with ⟨o, t1⟩
  rw [hg] at h
  simp only [] at h
  subst h
  rfl

/-- A data block that returns `NULL` makes `checkmatch` return `NULL` with the
children of the node untouched. -/
theorem checkmatch_node_data_none (flags : Flags) (H : XXH64) (W : World) (chunk : Nat)
    (tf : file_t) (dups : List file_t) (left right : filetree_t) (file : file_t) (t : Nat)
    (tf1 file1 : file_t) (t1 : Nat) (hc : check_conditions flags tf file = 0)
    (hd : checkmatch_data flags H W chunk t tf file = (tf1, file1, t1, none)) :
    checkmatch flags H W chunk (filetree_t.node tf dups left right) file t
      = ⟨filetree_t.node tf1 dups left right, file1, t1, none⟩ := by
  rw [checkmatch]
  simp only [hc, if_true, hd]
  rw [if_neg (by decide), if_neg (by decide)]

/-- C23: in a call of `checkmatch` whose comparison with the file of the node
reaches the data block, a `get_filehash` that returns `NULL` (failure or
abort) makes the call return `NULL` at once, with the children of the node as
they were, so the new file is not inserted, and with the two records exactly
as the calls that succeeded before left them: the record of the failed call
has not got the flag the call was to provide and its digest is as it was.
The four calls are, in order, the partial hash of the node's file, the partial
hash of the new file, the full hash of the node's file and the full hash of
the new file.  A call that descends returns what the call on the child
returns and changes nothing of the tree but that child, so the `NULL` and the
untouched tree reach the first caller. -/
theorem checkmatch_hash_failure (flags : Flags) (H : XXH64) (W : World) (chunk : Nat)
    (tf : file_t) (dups : List file_t) (left right : filetree_t) (file : file_t) (t : Nat) :
    (check_conditions flags tf file = 0 →
      (tf.F_HASH_PARTIAL = false →
        (get_filehash H W chunk t tf PARTIAL_HASH_SIZE).1 = none →
        checkmatch flags H W chunk (filetree_t.node tf dups left right) file t
          = ⟨filetree_t.node tf dups left right, file,
              (get_filehash H W chunk t tf PARTIAL_HASH_SIZE).2, none⟩) ∧
      (∀ (tf1 : file_t) (t1 : Nat), ensure_partial H W chunk t tf = (some tf1, t1) →
        file.F_HASH_PARTIAL = false →
        (get_filehash H W chunk t1 file PARTIAL_HASH_SIZE).1 = none →
        checkmatch flags H W chunk (filetree_t.node tf dups left right) file t
          = ⟨filetree_t.node tf1 dups left right, file,
              (get_filehash H W chunk t1 file PARTIAL_HASH_SIZE).2, none⟩) ∧
      (∀ (tf1 : file_t) (t1 : Nat) (file1 : file_t) (t2 : Nat),
        ensure_partial H W chunk t tf = (some tf1, t1) →
        ensure_partial H W chunk t1 file = (some file1, t2) →
        ¬ (file.size ≤ (PARTIAL_HASH_SIZE : Int) ∨ flags.F_PARTIALONLY = true) →
        file1.filehash_partial = tf1.filehash_partial →
        tf.F_HASH_FULL = false → (get_filehash H W chunk t2 tf1 0).1 = none →
        checkmatch flags H W chunk (filetree_t.node tf dups left right) file t
          = ⟨filetree_t.node tf1 dups left right, file1,
              (get_filehash H W chunk t2 tf1 0).2, none⟩ ∧
        tf1.F_HASH_FULL = false ∧ tf1.filehash = tf.filehash ∧
        file1.F_HASH_FULL = file.F_HASH_FULL ∧ file1.filehash = file.filehash) ∧
      (∀ (tf1 : file_t) (t1 : Nat) (file1 : file_t) (t2 : Nat) (tf2 : file_t) (t3 : Nat),
        ensure_partial H W chunk t tf = (some tf1, t1) →
        ensure_partial H W chunk t1 file = (some file1, t2) →
        ¬ (file.size ≤ (PARTIAL_HASH_SIZE : Int) ∨ flags.F_PARTIALONLY = true) →
        file1.filehash_partial = tf1.filehash_partial →
        ensure_full H W chunk t2 tf1 = (some tf2, t3) →
        file.F_HASH_FULL = false → (get_filehash H W chunk t3 file1 0).1 = none →
        checkmatch flags H W chunk (filetree_t.node tf dups left right) file t
          = ⟨filetree_t.node tf2 dups left right, file1,
              (get_filehash H W chunk t3 file1 0).2, none⟩ ∧
        file1.F_HASH_FULL = false ∧ file1.filehash = file.filehash)) ∧
    (∀ (tf1 file1 : file_t) (t1 : Nat) (cmpresult : Int),
      ((check_conditions flags tf file = 0 ∧
          checkmatch_data flags H W chunk t tf file = (tf1, file1, t1, some cmpresult)) ∨
        (check_conditions flags tf file ≠ 0 ∧ check_conditions flags tf file ≠ 2 ∧
          check_conditions flags tf file ≠ -2 ∧ tf1 = tf ∧ file1 = file ∧ t1 = t ∧
          cmpresult = check_conditions flags tf file)) →
      (cmpresult < 0 → left ≠ filetree_t.nil →
        checkmatch flags H W chunk (filetree_t.node tf dups left right) file t
          = ⟨filetree_t.node tf1 dups (checkmatch flags H W chunk left file1 t1).tree right,
              (checkmatch flags H W chunk left file1 t1).file,
              (checkmatch flags H W chunk left file1 t1).t,
              (checkmatch flags H W chunk left file1 t1).result.map
                (fun p => tree_direction.LEFT :: p)⟩) ∧
      (cmpresult > 0 → right ≠ filetree_t.nil →
        checkmatch flags H W chunk (filetree_t.node tf dups left right) file t
          = ⟨filetree_t.node tf1 dups left (checkmatch flags H W chunk right file1 t1).tree,
              (checkmatch flags H W chunk right file1 t1).file,
              (checkmatch flags H W chunk right file1 t1).t,
              (checkmatch flags H W chunk right file1 t1).result.map
                (fun p => tree_direction.RIGHT :: p)⟩)) := by
  constructor
  · intro hc
    refine ⟨?_, ?_, ?_, ?_⟩
    · intro hf hg
      apply checkmatch_node_data_none flags H W chunk tf dups left right file t _ _ _ hc
      unfold checkmatch_data
      rw [ensure_partial_fail H W chunk t tf hf hg]
    · intro tf1 t1 e1 hf hg
      apply checkmatch_node_data_none flags H W chunk tf dups left right file t _ _ _ hc
      unfold checkmatch_data
      rw [e1]
      simp only []
      rw [ensure_partial_fail H W chunk t1 file hf hg]
    · intro tf1 t1 file1 t2 e1 e2 hs hp hf hg
      have hsz : file1.size = file.size :=
        unhashed_size (ensure_partial_unhashed _ _ _ _ _ _ _ e2)
      obtain ⟨a1, a2⟩ := ensure_partial_full_fields H W chunk t tf tf1 t1 e1
      obtain ⟨b1, b2⟩ := ensure_partial_full_fields H W chunk t1 file file1 t2 e2
      refine ⟨?_, a1.trans hf, a2, b1, b2⟩
      apply checkmatch_node_data_none flags H W chunk tf dups left right file t _ _ _ hc
      unfold checkmatch_data
      rw [e1]
      simp only []
      rw [e2]
      simp only []
      rw [if_neg (by rw [hsz]; exact hs), if_pos ((HASH_COMPARE_eq_zero _ _).2 hp),
        ensure_full_fail H W chunk t2 tf1 (a1.trans hf) hg]
    · intro tf1 t1 file1 t2 tf2 t3 e1 e2 hs hp e3 hf hg
      have hsz : file1.size = file.size :=
        unhashed_size (ensure_partial_unhashed _ _ _ _ _ _ _ e2)
      obtain ⟨b1, b2⟩ := ensure_partial_full_fields H W chunk t1 file file1 t2 e2
      refine ⟨?_, b1.trans hf, b2⟩
      apply checkmatch_node_data_none flags H W chunk tf dups left right file t _ _ _ hc
      unfold checkmatch_data
      rw [e1]
      simp only []
      rw [e2]
      simp only []
      rw [if_neg (by rw [hsz]; exact hs), if_pos ((HASH_COMPARE_eq_zero _ _).2 hp), e3]
      simp only []
      rw [ensure_full_fail H W chunk t3 file1 (b1.trans hf) hg]
  · intro tf1 file1 t1 cmpresult hpre
    have hd : (if check_conditions flags tf file = 0
        then checkmatch_data flags H W chunk t tf file
        else (tf, file, t, some (check_conditions flags tf file)))
        = (tf1, file1, t1, some cmpresult) := by
      rcases hpre with ⟨h0, hd⟩ | ⟨h0, _, _, rfl, rfl, rfl, rfl⟩
      · rw [if_pos h0, hd]
      · rw [if_neg h0]
    have h2 : check_conditions flags tf file ≠ 2 := by
      rcases hpre with ⟨h0, _⟩ | ⟨_, h2, _⟩
      · rw [h0]; decide
      · exact h2
    have hm2 : check_conditions flags tf file ≠ -2 := by
      rcases hpre with ⟨h0, _⟩ | ⟨_, _, hm2, _⟩
      · rw [h0]; decide
      · exact hm2
    constructor
    · intro hlt hl
      rw [checkmatch]
      simp only []
      rw [if_neg h2, if_neg hm2, hd]
      simp only []
      rw [if_pos hlt]
    · intro hgt hr
      rw [checkmatch]
      simp only []
      rw [if_neg h2, if_neg hm2, hd]
      simp only []
      rw [if_neg (by omega), if_pos hgt]

/-- Witness of C23.  In a world where no file opens, the partial hash of the
root `a` fails in the comparison with `b`; and on two records of 5000 bytes
that carry equal partial hashes, the full hash of the root fails.  Both calls
return `NULL` and leave tree and new file as they were. -/
theorem checkmatch_hash_failure_witness :
    checkmatch noFlags sumHash deafWorld 4096 treeA fileB 0 = ⟨treeA, fileB, 1, none⟩ ∧
    checkmatch noFlags sumHash deafWorld 4096
        (filetree_t.node bigA [] filetree_t.nil filetree_t.nil) bigB 0
      = ⟨filetree_t.node bigA [] filetree_t.nil filetree_t.nil, bigB, 1, none⟩ ∧
    bigA.F_HASH_FULL = false ∧ bigB.F_HASH_FULL = false :=
  ⟨((checkmatch_hash_failure noFlags sumHash deafWorld 4096 fileA [] filetree_t.nil
      filetree_t.nil fileB 0).1 (by decide)).1 (by decide) (by decide),
    ((((checkmatch_hash_failure noFlags sumHash deafWorld 4096 bigA [] filetree_t.nil
      filetree_t.nil bigB 0).1 (by decide)).2.2.1 bigA 0 bigB 0 (by decide) (by decide)
      (by decide) (by decide) (by decide) (by decide)).1),
    by decide, by decide⟩

theorem ensure_full_partial_fields (H : XXH64) (W : World) (chunk t : Nat) (f g : file_t)
    (t1 : Nat) (h : ensure_full H W chunk t f = (some g, t1)) :
    g.filehash_partial = f.filehash_partial := by
  rcases ensure_full_some H W chunk t f g t1 h with ⟨_, rfl⟩ | ⟨_, v, _, rfl⟩ <;> rfl

theorem copy_partial_hash_fields (f : file_t) :
    (copy_partial_hash f).F_HASH_FULL = true ∧
    file_t.filehash_partial (copy_partial_hash f) = f.filehash_partial ∧
    (f.F_HASH_FULL = false → (copy_partial_hash f).filehash = f.filehash_partial) := by
  unfold copy_partial_hash
  by_cases h : f.F_HASH_FULL = true
  · rw [if_pos h]
    exact ⟨h, rfl, fun h1 => by rw [h] at h1; exact absurd h1 (by decide)⟩
  · rw [if_neg h]
    exact ⟨rfl, rfl, fun _ => rfl⟩

/-- C26 (counterexample): `a` and `c` have one byte each and differ; after the
comparison both carry `F_HASH_FULL` and a full hash copied from the partial
hash, though the partial hashes 1 and 2 differ and both records came in
without a full hash. -/
theorem checkmatch_small_mismatch_sets_full :
    fileA.size = fileC.size ∧ fileA.F_HASH_FULL = false ∧ fileA.filehash = 0 ∧
    fileC.F_HASH_FULL = false ∧ fileC.filehash = 0 ∧
    ((checkmatch noFlags sumHash (quietWorld exDisk) 4096 treeA fileC 0).tree.files.map
      (fun f => (f.d_name, f.filehash_partial, f.filehash, f.F_HASH_FULL)))
      = [("a", 1, 1, true), ("c", 2, 2, true)] ∧
    (checkmatch noFlags sumHash (quietWorld exDisk) 4096 treeA fileC 0).result = none := by
  decide

/-- C26 (amended): a data block of `checkmatch` that completes with differing
partial hashes performs no full-file hash (the clock stands where the two
partial-hash blocks left it).  When the size exceeds `PARTIAL_HASH_SIZE` and
partial-only is off, the full hash and `F_HASH_FULL` of both records are
unchanged.  When the size is at most `PARTIAL_HASH_SIZE` or partial-only is
on, both records leave with `F_HASH_FULL` set, the partial hash having been
copied into the full hash of each record that came without `F_HASH_FULL`. -/
theorem checkmatch_data_partial_mismatch (flags : Flags) (H : XXH64) (W : World)
    (chunk t : Nat) (tf file : file_t)
    (hok : (checkmatch_data flags H W chunk t tf file).2.2.2 ≠ none)
    (hne : file_t.filehash_partial (checkmatch_data flags H W chunk t tf file).1
      ≠ file_t.filehash_partial (checkmatch_data flags H W chunk t tf file).2.1) :
    (checkmatch_data flags H W chunk t tf file).2.2.1
      = ( ensure_partial H W chunk ( ensure_partial H W chunk t tf).2 file).2 ∧
    (¬ (file.size ≤ (PARTIAL_HASH_SIZE : Int) ∨ flags.F_PARTIALONLY = true) →
      (checkmatch_data flags H W chunk t tf file).1.filehash = tf.filehash ∧
      (checkmatch_data flags H W chunk t tf file).1.F_HASH_FULL = tf.F_HASH_FULL ∧
      (checkmatch_data flags H W chunk t tf file).2.1.filehash = file.filehash ∧
      (checkmatch_data flags H W chunk t tf file).2.1.F_HASH_FULL = file.F_HASH_FULL) ∧
    ((file.size ≤ (PARTIAL_HASH_SIZE : Int) ∨ flags.F_PARTIALONLY = true) →
      (checkmatch_data flags H W chunk t tf file).1.F_HASH_FULL = true ∧
      (checkmatch_data flags H W chunk t tf file).2.1.F_HASH_FULL = true ∧
      (tf.F_HASH_FULL = false →
        (checkmatch_data flags H W chunk t tf file).1.filehash
          = file_t.filehash_partial (checkmatch_data flags H W chunk t tf file).1) ∧
      (file.F_HASH_FULL = false →
        (checkmatch_data flags H W chunk t tf file).2.1.filehash
          = file_t.filehash_partial (checkmatch_data flags H W chunk t tf file).2.1)) := by
  revert hok hne
  apply checkmatch_data_cases flags H W chunk t tf file
    (fun r => r.2.2.2 ≠ none →
      file_t.filehash_partial r.1 ≠ file_t.filehash_partial r.2.1 →
      r.2.2.1 = ( ensure_partial H W chunk ( ensure_partial H W chunk t tf).2 file).2 ∧
      (¬ (file.size ≤ (PARTIAL_HASH_SIZE : Int) ∨ flags.F_PARTIALONLY = true) →
        r.1.filehash = tf.filehash ∧ r.1.F_HASH_FULL = tf.F_HASH_FULL ∧
        r.2.1.filehash = file.filehash ∧ r.2.1.F_HASH_FULL = file.F_HASH_FULL) ∧
      ((file.size ≤ (PARTIAL_HASH_SIZE : Int) ∨ flags.F_PARTIALONLY = true) →
        r.1.F_HASH_FULL = true ∧ r.2.1.F_HASH_FULL = true ∧
        (tf.F_HASH_FULL = false → r.1.filehash = file_t.filehash_partial r.1) ∧
        (file.F_HASH_FULL = false → r.2.1.filehash = file_t.filehash_partial r.2.1)))
  · intro t1 _ hok _; exact absurd rfl hok
  · intro tf1 t1 t2 _ _ hok _; exact absurd rfl hok
  · intro tf1 file1 t1 t2 e1 e2 hs _ _
    have hsz : file1.size = file.size := unhashed_size (ensure_partial_unhashed _ _ _ _ _ _ _ e2)
    obtain ⟨a1, a2⟩ := ensure_partial_full_fields H W chunk t tf tf1 t1 e1
    obtain ⟨b1, b2⟩ := ensure_partial_full_fields H W chunk t1 file file1 t2 e2
    obtain ⟨c1, c2, c3⟩ := copy_partial_hash_fields tf1
    obtain ⟨d1, d2, d3⟩ := copy_partial_hash_fields file1
    refine ⟨by rw [e1, e2], fun hn => absurd (hsz ▸ hs) hn, fun _ => ⟨c1, d1, ?_, ?_⟩⟩
    · intro hf
      show (copy_partial_hash tf1).filehash = file_t.filehash_partial (copy_partial_hash tf1)
      rw [c2]; exact c3 (a1.trans hf)
    · intro hf
      show (copy_partial_hash file1).filehash = file_t.filehash_partial (copy_partial_hash file1)
      rw [d2]; exact d3 (b1.trans hf)
  · intro tf1 file1 t1 t2 e1 e2 hs _ _ _
    have hsz : file1.size = file.size := unhashed_size (ensure_partial_unhashed _ _ _ _ _ _ _ e2)
    obtain ⟨a1, a2⟩ := ensure_partial_full_fields H W chunk t tf tf1 t1 e1
    obtain ⟨b1, b2⟩ := ensure_partial_full_fields H W chunk t1 file file1 t2 e2
    exact ⟨by rw [e1, e2], fun _ => ⟨a2, a1, b2, b1⟩, fun hn => absurd (hsz ▸ hn) hs⟩
  · intro tf1 file1 t1 t2 t3 _ _ _ _ _ hok _; exact absurd rfl hok
  · intro tf1 file1 tf2 t1 t2 t3 t4 _ _ _ _ _ _ hok _; exact absurd rfl hok
  · intro tf1 file1 tf2 file2 t1 t2 t3 t4 _ _ _ hc e3 e4 _ hne
    have h1 := ensure_full_partial_fields H W chunk t2 tf1 tf2 t3 e3
    have h2 := ensure_full_partial_fields H W chunk t3 file1 file2 t4 e4
    have h3 := (HASH_COMPARE_eq_zero _ _).1 hc
    exact absurd (h1.trans (h3.symm.trans h2.symm)) hne

/-- Witness of the amended C26: the one-byte files `a` and `c`. -/
theorem checkmatch_data_partial_mismatch_witness :
    (checkmatch_data noFlags sumHash (quietWorld exDisk) 4096 0 fileA fileC).2.2.1
      = ( ensure_partial sumHash (quietWorld exDisk) 4096
          ( ensure_partial sumHash (quietWorld exDisk) 4096 0 fileA).2 fileC).2 ∧
    (¬ (fileC.size ≤ (PARTIAL_HASH_SIZE : Int) ∨ noFlags.F_PARTIALONLY = true) →
      (checkmatch_data noFlags sumHash (quietWorld exDisk) 4096 0 fileA fileC).1.filehash
        = fileA.filehash ∧
      (checkmatch_data noFlags sumHash (quietWorld exDisk) 4096 0 fileA fileC).1.F_HASH_FULL
        = fileA.F_HASH_FULL ∧
      (checkmatch_data noFlags sumHash (quietWorld exDisk) 4096 0 fileA fileC).2.1.filehash
        = fileC.filehash ∧
      (checkmatch_data noFlags sumHash (quietWorld exDisk) 4096 0 fileA fileC).2.1.F_HASH_FULL
        = fileC.F_HASH_FULL) ∧
    ((fileC.size ≤ (PARTIAL_HASH_SIZE : Int) ∨ noFlags.F_PARTIALONLY = true) →
      (checkmatch_data noFlags sumHash (quietWorld exDisk) 4096 0 fileA fileC).1.F_HASH_FULL
        = true ∧
      (checkmatch_data noFlags sumHash (quietWorld exDisk) 4096 0 fileA fileC).2.1.F_HASH_FULL
        = true ∧
      (fileA.F_HASH_FULL = false →
        (checkmatch_data noFlags sumHash (quietWorld exDisk) 4096 0 fileA fileC).1.filehash
          = file_t.filehash_partial
              (checkmatch_data noFlags sumHash (quietWorld exDisk) 4096 0 fileA fileC).1) ∧
      (fileC.F_HASH_FULL = false →
        (checkmatch_data noFlags sumHash (quietWorld exDisk) 4096 0 fileA fileC).2.1.filehash
          = file_t.filehash_partial
              (checkmatch_data noFlags sumHash (quietWorld exDisk) 4096 0 fileA fileC).2.1)) :=
  checkmatch_data_partial_mismatch noFlags sumHash (quietWorld exDisk) 4096 0 fileA fileC
    (by decide) (by decide)

/-- C29: in the scan loop, when `checkmatch` returns a match on the record `m`
but the open of the current file fails, or the open of `m` fails, or
`confirmmatch` returns 0, the iteration ends as a non-match: the loop goes on
with the next file, `dupecount` is as before, and the tree is the one
`checkmatch` left, which has the shape of the tree before (every node keeps its
file with `F_HAS_DUPES` as it was, the chain hanging off it and its children),
so nothing is registered and the current file is not inserted. -/
theorem scan_unconfirmed_match (flags : Flags) (H : XXH64) (W : World) (chunk : Nat)
    (comparef : file_t → file_t → Int) (curfile : file_t) (rest : List file_t)
    (st : scan_state) (path : List tree_direction) (m : file_t) (d : List file_t)
    (hint : W.interrupt st.t = false)
    (hres : (checkmatch flags H W chunk st.checktree curfile (st.t + 1)).result = some path)
    (hat : (checkmatch flags H W chunk st.checktree curfile (st.t + 1)).tree.at path
      = some (m, d))
    (hq : ¬ (flags.F_QUICKCOMPARE = true ∨ flags.F_PARTIALONLY = true ∨
      (flags.F_CONSIDERHARDLINKS = true ∧
        (checkmatch flags H W chunk st.checktree curfile (st.t + 1)).file.inode = m.inode ∧
        (checkmatch flags H W chunk st.checktree curfile (st.t + 1)).file.device = m.device)))
    (hfail :
      W.fopen (checkmatch flags H W chunk st.checktree curfile (st.t + 1)).t
        (checkmatch flags H W chunk st.checktree curfile (st.t + 1)).file.d_name = none ∨
      (∃ file1,
        W.fopen (checkmatch flags H W chunk st.checktree curfile (st.t + 1)).t
          (checkmatch flags H W chunk st.checktree curfile (st.t + 1)).file.d_name
          = some file1 ∧
        W.fopen ((checkmatch flags H W chunk st.checktree curfile (st.t + 1)).t + 1) m.d_name
          = none) ∨
      (∃ file1 file2,
        W.fopen (checkmatch flags H W chunk st.checktree curfile (st.t + 1)).t
          (checkmatch flags H W chunk st.checktree curfile (st.t + 1)).file.d_name
          = some file1 ∧
        W.fopen ((checkmatch flags H W chunk st.checktree curfile (st.t + 1)).t + 1) m.d_name
          = some file2 ∧
        (confirmmatch flags W chunk
          ((checkmatch flags H W chunk st.checktree curfile (st.t + 1)).t + 2) file1 file2
          (checkmatch flags H W chunk st.checktree curfile (st.t + 1)).file.size).1
            = some false)) :
    (∃ t2, scan_loop flags H W chunk comparef (curfile :: rest) st
      = scan_loop flags H W chunk comparef rest
          ⟨(checkmatch flags H W chunk st.checktree curfile (st.t + 1)).tree, t2,
            st.dupecount⟩) ∧
    st.checktree.same_shape (checkmatch flags H W chunk st.checktree curfile (st.t + 1)).tree := by
  constructor
  · rw [scan_loop, if_neg (by rw [hint]; decide)]
    unfold scan_file
    rcases htree : st.checktree with _ | ⟨f, dd, l, r⟩
    · rw [htree] at hres
      simp [checkmatch] at hres
    · rw [htree] at hres hat hq hfail
      simp only [htree, hres, hat]
      rw [if_neg (by simpa using hq)]
      rcases hfail with h1 | ⟨file1, h1, h2⟩ | ⟨file1, file2, h1, h2, h3⟩
      · simp only [h1]
        exact ⟨_, rfl⟩
      · simp only [h1, h2]
        exact ⟨_, rfl⟩
      · simp only [h1, h2]
        rcases hcm : confirmmatch flags W chunk ((checkmatch flags H W chunk
            (filetree_t.node f dd l r) curfile (st.t + 1)).t + 2) file1 file2
            (checkmatch flags H W chunk (filetree_t.node f dd l r) curfile (st.t + 1)).file.size
          with ⟨b, t1⟩
        rw [hcm] at h3
        simp only [] at h3
        subst h3
        exact ⟨_, rfl⟩
  · rcases checkmatch_shape flags H W chunk st.checktree curfile (st.t + 1) with hs | ⟨hn, _⟩
    · exact hs
    · rw [hres] at hn
      exact absurd hn (by simp)

/-- Witness of C29: `p` and `q` hold different bytes of equal sum, so their
hashes collide and `confirmmatch` tells them apart. -/
theorem scan_unconfirmed_match_witness :
    (∃ t2, scan_loop noFlags sumHash (quietWorld swapDisk) 4096 (sort_pairs_by_mtime noFlags 1)
        [fileQ] ⟨registerfile fileP, 0, 0⟩
      = scan_loop noFlags sumHash (quietWorld swapDisk) 4096 (sort_pairs_by_mtime noFlags 1) []
          ⟨(checkmatch noFlags sumHash (quietWorld swapDisk) 4096 (registerfile fileP) fileQ
            1).tree, t2, 0⟩) ∧
    (registerfile fileP).same_shape
      (checkmatch noFlags sumHash (quietWorld swapDisk) 4096 (registerfile fileP) fileQ 1).tree :=
  scan_unconfirmed_match noFlags sumHash (quietWorld swapDisk) 4096
    (sort_pairs_by_mtime noFlags 1) fileQ [] ⟨registerfile fileP, 0, 0⟩ []
    (hashed fileP 3) [] rfl (by decide) (by decide) (by decide)
    (Or.inr (Or.inr ⟨[2, 1], [1, 2], by decide, by decide, by decide⟩))

/-- C30 (the code departs from the claim): with `-I` on, `a` and `a2` come
from the first argument and `b` from the second, all three hold the same byte.
`a2` is kept apart from `a` by the isolation and gets a node of its own; `b`
then matches the root `a` and never meets `a2`, which ends alone although `b`
is a byte-identical record of another argument. -/
theorem scan_isolate_hides_duplicate :
    ((scan_loop { noFlags with F_ISOLATE := true } sumHash (quietWorld (fun _ => [1])) CHUNK_SIZE
        (sort_pairs_by_mtime noFlags 1) [fileA, fileA2, fileB] scan_init).1.checktree.chains).map
      (fun c => c.map (fun f => (f.d_name, f.user_order, f.F_HAS_DUPES)))
      = [[("a", 1, true), ("b", 2, false)], [("a2", 1, false)]] := by
  decide

theorem and_0x000ff000 (y : Nat) : y &&& 1044480 = y % 1048576 / 4096 * 4096 := by
  apply Nat.eq_of_testBit_eq
  intro i
  rw [Nat.testBit_and]
  have h1 : y % 1048576 / 4096 * 4096 = 2 ^ 12 * ((y % 2 ^ 20) >>> 12) := by
    rw [Nat.shiftRight_eq_div_pow]; norm_num [Nat.mul_comm]
  rw [h1, Nat.testBit_mul_pow_two, Nat.testBit_shiftRight, Nat.testBit_mod_two_pow]
  by_cases hi : i < 20
  · by_cases h12 : 12 ≤ i
    · have e : 12 + (i - 12) = i := by omega
      rw [e]
      have : Nat.testBit 1044480 i = true := by
        interval_cases i <;> decide
      simp [this, h12, hi]
    · have : Nat.testBit 1044480 i = false := by
        interval_cases i <;> decide
      simp [this, h12]
  · have : Nat.testBit 1044480 i = false :=
      Nat.testBit_lt_two_pow (lt_of_lt_of_le (by norm_num : 1044480 < 2 ^ 20)
        (Nat.pow_le_pow_right (by norm_num) (by omega)))
    have e : 12 + (i - 12) = i := by omega
    rw [e, this]
    simp [hi]

theorem and_0x00000fff (y : Nat) : y &&& 4095 = y % 4096 := by
  have := Nat.and_pow_two_sub_one_eq_mod y 12
  norm_num at this
  exact this

/-- The value the auto-tuning leaves, with the two masks written out: a value
that is not a multiple of 4096 is rounded up and then cut down to its bits 12
to 19. -/
theorem main_auto_chunk_size_eq (l1 l1d : Nat) :
    main_auto_chunk_size l1 l1d =
      if (if (if l1 ≠ 0 then l1 / 2 else if l1d ≠ 0 then l1d / 2 else 65536) < 4096 ∨
            (if l1 ≠ 0 then l1 / 2 else if l1d ≠ 0 then l1d / 2 else 65536) > 16777216
          then 65536 else (if l1 ≠ 0 then l1 / 2 else if l1d ≠ 0 then l1d / 2 else 65536))
          % 4096 ≠ 0
      then ((if (if l1 ≠ 0 then l1 / 2 else if l1d ≠ 0 then l1d / 2 else 65536) < 4096 ∨
            (if l1 ≠ 0 then l1 / 2 else if l1d ≠ 0 then l1d / 2 else 65536) > 16777216
          then 65536 else (if l1 ≠ 0 then l1 / 2 else if l1d ≠ 0 then l1d / 2 else 65536))
          + 4095) % 1048576 / 4096 * 4096
      else (if (if l1 ≠ 0 then l1 / 2 else if l1d ≠ 0 then l1d / 2 else 65536) < 4096 ∨
            (if l1 ≠ 0 then l1 / 2 else if l1d ≠ 0 then l1d / 2 else 65536) > 16777216
          then 65536 else (if l1 ≠ 0 then l1 / 2 else if l1d ≠ 0 then l1d / 2 else 65536)) := by
  simp only [main_auto_chunk_size, CHUNK_SIZE, MIN_CHUNK_SIZE, MAX_CHUNK_SIZE,
    and_0x00000fff, and_0x000ff000]

/-- C21 (the code departs from the claim): the mask `0x000ff000` keeps the bits
12 to 19 only.  A reported cache size of 2097150 bytes (half: 1048575) leaves
`auto_chunk_size` 0, and one of 4194306 bytes (half: 2097153) leaves 4096,
not 2101248.  Every half between 1044481 and 1048575 leaves 0; the value is
the half rounded up to a multiple of 4096 for every half from 4096 to
1044480. -/
theorem main_auto_chunk_size_truncates :
    main_auto_chunk_size 2097150 0 = 0 ∧ main_auto_chunk_size 4194306 0 = 4096 ∧
    (∀ l1 : Nat, 1044480 < l1 / 2 → l1 / 2 < 1048576 → main_auto_chunk_size l1 0 = 0) ∧
    (∀ l1 : Nat, 4096 ≤ l1 / 2 → l1 / 2 ≤ 1044480 →
      main_auto_chunk_size l1 0 = (l1 / 2 + 4095) / 4096 * 4096) := by
  refine ⟨by decide, by decide, ?_, ?_⟩
  · intro l1 h1 h2
    have hl : l1 ≠ 0 := by omega
    have hb : (if l1 / 2 < 4096 ∨ l1 / 2 > 16777216 then 65536 else l1 / 2) = l1 / 2 :=
      if_neg (by omega)
    rw [main_auto_chunk_size_eq]
    simp only [if_pos hl, hb]
    split_ifs <;> omega
  · intro l1 h1 h2
    have hl : l1 ≠ 0 := by omega
    have hb : (if l1 / 2 < 4096 ∨ l1 / 2 > 16777216 then 65536 else l1 / 2) = l1 / 2 :=
      if_neg (by omega)
    rw [main_auto_chunk_size_eq]
    simp only [if_pos hl, hb]
    split_ifs <;> omega

theorem isDigit_bounds (c : Char) (h : c.isDigit = true) : ¬ (c < '0' ∨ c > '9') := by
  simp only [Char.isDigit, Bool.and_eq_true, decide_eq_true_eq] at h
  rintro (h1 | h1)
  · exact absurd h.1 (not_le.mpr h1)
  · exact absurd h.2 (not_le.mpr h1)

theorem strtoll_digits (ds : List Char) (hd : ∀ c ∈ ds, c.isDigit = true) :
    (strtoll ds).2 = [] := by
  simp only [strtoll]
  rw [List.dropWhile_eq_nil_iff]
  exact hd

/-- What `-x SIZE` puts on the exclusion stack when `SIZE` is a string of
digits: the rule `size-=`, less than or equal. -/
theorem main_case_x_digits (ds : List Char) (hne : ds ≠ []) (hd : ∀ c ∈ ds, c.isDigit = true)
    (exclude_head : List exclude) :
    main_case_x (String.mk ds) exclude_head
      = some (exclude_head ++ [⟨exclude_tag.X_SIZE_LTEQ, (strtoll ds).1⟩]) := by
  cases ds with
  | nil => exact absurd rfl hne
  | cons c rest =>
    have hc : c.isDigit = true := hd c (List.mem_cons_self _ _)
    have hplus : c ≠ '+' := by
      rintro rfl
      exact absurd hc (by decide)
    have hb := isDigit_bounds c hc
    have hs := strtoll_digits (c :: rest) hd
    unfold main_case_x
    show (match c :: rest with
      | '+' :: rest => add_exclude ("size".toList ++ "+:".toList ++ rest) exclude_head
      | other => add_exclude ("size".toList ++ "-=:".toList ++ other) exclude_head) = _
    split
    · rename_i h
      simp only [List.cons.injEq] at h
      exact absurd h.1 hplus
    · show add_exclude ('s' :: 'i' :: 'z' :: 'e' :: '-' :: '=' :: ':' :: c :: rest) exclude_head = _
      unfold add_exclude
      have e1 : ('s' :: 'i' :: 'z' :: 'e' :: '-' :: '=' :: ':' :: c :: rest).takeWhile
          (fun c => c != ':') = "size-=".toList := rfl
      have e2 : ('s' :: 'i' :: 'z' :: 'e' :: '-' :: '=' :: ':' :: c :: rest).dropWhile
          (fun c => c != ':') = ':' :: c :: rest := rfl
      have e3 : exclude_tags.find? (fun tg => tg.1.toList == "size-=".toList)
          = some ("size-=", exclude_tag.X_SIZE_LTEQ) := by decide
      simp only [e1, e2, e3]
      rw [if_neg (by simp), if_pos (by decide), if_neg hb, hs]

/-- C24 (the code departs from the claim): `-x 5` puts the rule `size-=` with
threshold 5 on the exclusion stack, so a file of exactly 5 bytes is rejected
(and one of 6 bytes kept), whereas the help text says `-x SIZE` excludes files
of size < SIZE.  For every string of digits `-x` composes `size-=:SIZE`, the
rule that matches the sizes up to and including SIZE; `-x +5` gives `size+`,
which matches the sizes above 5. -/
theorem main_case_x_excludes_equal_size :
    main_case_x "5" [] = some [⟨exclude_tag.X_SIZE_LTEQ, 5⟩] ∧
    (check_singlefile noFlags id [⟨exclude_tag.X_SIZE_LTEQ, 5⟩] (init_newfile "a" 1)
      (some (regStat 5)) (some (regStat 5))).1 = 1 ∧
    (check_singlefile noFlags id [⟨exclude_tag.X_SIZE_LTEQ, 5⟩] (init_newfile "a" 1)
      (some (regStat 6)) (some (regStat 6))).1 = 0 ∧
    main_case_x "+5" [] = some [⟨exclude_tag.X_SIZE_GT, 5⟩] ∧
    (check_singlefile noFlags id [⟨exclude_tag.X_SIZE_GT, 5⟩] (init_newfile "a" 1)
      (some (regStat 5)) (some (regStat 5))).1 = 0 ∧
    (∀ ds : List Char, ds ≠ [] → (∀ c ∈ ds, c.isDigit = true) →
      main_case_x (String.mk ds) [] = some [⟨exclude_tag.X_SIZE_LTEQ, (strtoll ds).1⟩]) ∧
    (∀ t size : Int, exclude_matches ⟨exclude_tag.X_SIZE_LTEQ, t⟩ size = true ↔ size ≤ t) := by
  refine ⟨by decide, by decide, by decide, by decide, by decide, ?_, ?_⟩
  · intro ds hne hd
    exact main_case_x_digits ds hne hd []
  · intro t size
    simp [exclude_matches]

/-- C22: in an iteration of the linking loop of `clonefiles`, if
`file_has_changed` returns a nonzero value (changed or error) for the current
source or for the target, the iteration makes no call that changes the file
system: no rename, copy, clone, unlink, remove, chmod or time update. -/
theorem clonefiles_pair_changed (env : clone_env) (srcfile target : file_t)
    (h : file_has_changed srcfile env.src_stat env.src_lstat ≠ 0 ∨
      file_has_changed target env.dst_stat env.dst_lstat ≠ 0) :
    (clonefiles_pair env srcfile target).1 = [] := by
  unfold clonefiles_pair
  by_cases h1 : srcfile.device ≠ target.device
  · rw [if_pos h1]
  rw [if_neg h1]
  by_cases h2 : srcfile.inode = target.inode
  · rw [if_pos h2]
  rw [if_neg h2]
  by_cases h3 : ¬ env.access_ok = true
  · rw [if_pos h3]
  rw [if_neg h3]
  by_cases hs : file_has_changed srcfile env.src_stat env.src_lstat ≠ 0
  · rw [if_pos hs]
  rw [if_neg hs, if_pos (h.resolve_left hs)]

/-- Witness of C22: the source `s` is unchanged and the `stat` of the target
`b` fails, so `file_has_changed` returns -2 for the target. -/
theorem clonefiles_pair_changed_witness :
    file_has_changed fileS envChanged.src_stat envChanged.src_lstat = 0 ∧
    file_has_changed fileB envChanged.dst_stat envChanged.dst_lstat = -2 ∧
    (clonefiles_pair envChanged fileS fileB).1 = [] :=
  ⟨by decide, by decide, clonefiles_pair_changed envChanged fileS fileB (Or.inr (by decide))⟩

/-- When neither file has changed and every call succeeds, the iteration
moves the target away, clones the source onto its name, removes the moved
file and restores the times. -/
theorem clonefiles_pair_links :
    (clonefiles_pair
      { envChanged with
          dst_stat := some { regStat 1 with st_ino := 8, st_mtime := 1 },
          dst_lstat := some (regStat 1) } fileS fileB).1
      = [fs_op.rename "b" "b.__jdupes__.tmp", fs_op.copyfile "s" "b",
          fs_op.remove "b.__jdupes__.tmp", fs_op.update_times "b" 1] := by
  decide

end Jdupes
